import Mathlib

/-!
# Stream resolution of `api/src/processing/services/youtube.js`

A shallow embedding of the default export of `youtube.js` (the resolution
call) and of the helpers it uses.  JavaScript values that may be `undefined`
are `Option`s, truthiness is made explicit, and a `TypeError` raised by a
property access on `undefined` is an `Except.error`.  The results of the
network operations (the player request, the HLS manifest, the subtitle lookup
and the cover probe) are inputs, gathered in `World`.
-/

namespace Youtube

/-! ## JavaScript primitives -/

/-- Exceptions that escape the resolution call. -/
inductive JsError where
  | typeError (what : String)
deriving DecidableEq, Repr

/-- `s.startsWith(p)` on strings. -/
def startsWith (s p : String) : Bool := p.data.isPrefixOf s.data

/-- `s.endsWith(p)` on strings. -/
def endsWith (s p : String) : Bool := p.data.reverse.isPrefixOf s.data.reverse

/-- Substring test on character lists. -/
def includesChars (p : List Char) : List Char → Bool
  | [] => p.isPrefixOf []
  | c :: cs => p.isPrefixOf (c :: cs) || includesChars p cs

/-- `s.includes(p)` on strings. -/
def includes (s p : String) : Bool := includesChars p.data s.data

/-- Truthiness of a possibly undefined string: defined and non-empty. -/
def truthyStr : Option String → Bool
  | some s => s != ""
  | none => false

/-- Truthiness of a possibly undefined number: defined and non-zero. -/
def truthyNat : Option Nat → Bool
  | some n => n != 0
  | none => false

/-- Truthiness of a possibly undefined boolean. -/
def truthyBool : Option Bool → Bool
  | some b => b
  | none => false

/-- `Array.prototype.find` with a predicate that may raise. -/
def findE {α : Type} (p : α → Except JsError Bool) : List α → Except JsError (Option α)
  | [] => .ok none
  | x :: xs =>
    match p x with
    | .error e => .error e
    | .ok true => .ok (some x)
    | .ok false => findE p xs

/-! ## Codec tables -/

/-- The codec families, keys of `codecList`. -/
inductive Codec where
  | h264
  | av1
  | vp9
deriving DecidableEq, Repr

/-- The key string of a codec family. -/
def Codec.name : Codec → String
  | .h264 => "h264"
  | .av1 => "av1"
  | .vp9 => "vp9"

/-- An entry of a codec table. -/
structure CodecInfo where
  videoCodec : String
  audioCodec : String
  container : String
deriving DecidableEq, Repr

/-- The table `codecList` of the progressive source. -/
def codecList : Codec → CodecInfo
  | .h264 => { videoCodec := "avc1", audioCodec := "mp4a", container := "mp4" }
  | .av1 => { videoCodec := "av01", audioCodec := "opus", container := "webm" }
  | .vp9 => { videoCodec := "vp9", audioCodec := "opus", container := "webm" }

/-- The table `hlsCodecList` of the HLS source; it has no `av1` entry. -/
def hlsCodecList : Codec → Option CodecInfo
  | .h264 => some { videoCodec := "avc1", audioCodec := "mp4a", container := "mp4" }
  | .vp9 => some { videoCodec := "vp09", audioCodec := "mp4a", container := "webm" }
  | .av1 => none

/-- The ordered tier list `videoQualities`. -/
def videoQualities : List Nat := [144, 240, 360, 480, 720, 1080, 1440, 2160, 4320]

/-! ## Data model -/

/-- The `audioTrack` object of a stream descriptor. -/
structure AudioTrack where
  displayName : Option String
  audioIsDefault : Option Bool
deriving DecidableEq, Repr

/-- A stream descriptor, as mapped by `fetchVideoInfo`.  The fields
`has_video`, `has_audio`, `language` and `is_original` are computed from the
others by the mapping and are functions below. -/
structure Format where
  itag : Option Nat
  url : Option String
  mime_type : Option String
  bitrate : Nat
  width : Option Nat
  height : Option Nat
  content_length : Option String
  audio_track : Option AudioTrack
  drm_families : Option (List String)
deriving DecidableEq, Repr

/-- Field `has_video: format.mimeType?.startsWith("video/")`, as a truth value. -/
def Format.has_video (f : Format) : Bool :=
  match f.mime_type with
  | some m => startsWith m "video/"
  | none => false

/-- Field `has_audio: format.mimeType?.startsWith("audio/")`, as a truth value. -/
def Format.has_audio (f : Format) : Bool :=
  match f.mime_type with
  | some m => startsWith m "audio/"
  | none => false

/-- Field `language: format.audioTrack?.displayName`. -/
def Format.language (f : Format) : Option String :=
  match f.audio_track with
  | some t => t.displayName
  | none => none

/-- Field `is_original: format.audioTrack?.audioIsDefault`, as a truth value. -/
def Format.is_original (f : Format) : Bool :=
  match f.audio_track with
  | some t => truthyBool t.audioIsDefault
  | none => false

/-- A width/height pair; a side that is not a number is `none`. -/
structure Resolution where
  width : Option Nat
  height : Option Nat
deriving DecidableEq, Repr

/-- An audio rendition of an HLS variant. -/
structure Rendition where
  name : Option String
  language : Option String
  isDefault : Bool
  uri : Option String
deriving DecidableEq, Repr

/-- A subtitle rendition of an HLS variant. -/
structure SubtitleRendition where
  language : Option String
  uri : Option String
deriving DecidableEq, Repr

/-- A variant of a parsed HLS manifest. -/
structure Variant where
  uri : Option String
  bandwidth : Nat
  codecs : Option String
  resolution : Option Resolution
  audio : List Rendition
  subtitles : List SubtitleRendition
deriving DecidableEq, Repr

/-- The error screen of a playability status, with its two texts. -/
structure ErrorScreen where
  reasonText : Option String
  subreasonText : Option String
deriving DecidableEq, Repr

/-- Field `playability_status` of the fetched record. -/
structure PlayabilityStatus where
  status : Option String
  reason : Option String
  error_screen : Option ErrorScreen
deriving DecidableEq, Repr

/-- A thumbnail entry. -/
structure Thumbnail where
  url : Option String
deriving DecidableEq, Repr

/-- Field `basic_info` of the fetched record. -/
structure BasicInfo where
  id : Option String
  title : Option String
  author : Option String
  duration : Nat
  is_live : Option Bool
  short_description : Option String
  thumbnail : Option (List Thumbnail)
deriving DecidableEq, Repr

/-- A caption track of the fetched record. -/
structure Caption where
  base_url : Option String
  language_code : Option String
  kind : Option String
deriving DecidableEq, Repr

/-- The record returned by `fetchVideoInfo`. -/
structure Info where
  playability_status : PlayabilityStatus
  basic_info : BasicInfo
  adaptive_formats : List Format
  hls_manifest_url : Option String
  caption_tracks : List Caption
deriving DecidableEq, Repr

/-- The requested quality: `"max"` or a number. -/
inductive Quality where
  | max
  | tier (n : Nat)
deriving DecidableEq, Repr

/-- The pinned stream identifiers `o.itag`. -/
structure Itag where
  video : Option Nat
  audio : Option Nat
deriving DecidableEq, Repr

/-- The constraints record `o` (without the transport handle). -/
structure Request where
  id : String
  quality : Quality
  youtubeHLS : Bool
  codec : Option Codec
  isAudioOnly : Bool
  dubLang : Option String
  subtitleLang : Option String
  itag : Option Itag
  container : String
deriving DecidableEq, Repr

/-- The subtitle record returned by `getSubtitles`. -/
structure Subtitles where
  url : Option String
  language : Option String
deriving DecidableEq, Repr

/-- What the player request gave: an exception with its message, or a record. -/
inductive InfoFetch where
  | threw (message : Option String)
  | returned (info : Info)
deriving DecidableEq, Repr

/-- What fetching and parsing the HLS manifest gave: no text (failed fetch or
a status other than 200), a text the parser rejects, or the parsed variants in
manifest order. -/
inductive ManifestFetch where
  | unavailable
  | malformed
  | parsed (variants : List Variant)
deriving DecidableEq, Repr

/-- The results of the network operations of one resolution call.
`getSubtitles` is the outcome of awaiting `getSubtitles(info, dispatcher, lang)`,
which fetches and parses URLs; `maxCover` tells whether the probe of the
max-resolution thumbnail answered with status 200. -/
structure World where
  fetchVideoInfo : InfoFetch
  manifest : ManifestFetch
  getSubtitles : Except JsError (Option Subtitles)
  maxCover : Bool

/-! ## Outcome -/

/-- The object `fileMetadata`. -/
structure FileMetadata where
  title : String
  artist : String
  album : Option String
  copyright : Option String
  date : Option String
  sublanguage : Option String
deriving DecidableEq, Repr

/-- The object `filenameAttributes`; `youtubeDubName = none` stands for `false`. -/
structure FilenameAttributes where
  service : String
  id : String
  title : String
  author : String
  youtubeDubName : Option String
  resolution : Option String
  extension : Option String
  qualityLabel : Option String
  youtubeFormat : Option String
deriving DecidableEq, Repr

/-- The object `originalRequest`: the request with `itag` replaced. -/
structure OriginalRequest where
  request : Request
  itag : Itag
  innertubeClient : String
deriving DecidableEq, Repr

/-- The result of type `"audio"`. -/
structure AudioResult where
  urls : Option String
  filenameAttributes : FilenameAttributes
  fileMetadata : FileMetadata
  bestAudio : String
  isHLS : Bool
  originalRequest : OriginalRequest
  cover : Option String
  cropCover : Bool
deriving DecidableEq, Repr

/-- The result of type `"merge"`. -/
structure MergeResult where
  urls : Option String × Option String
  subtitles : Option String
  filenameAttributes : FilenameAttributes
  fileMetadata : FileMetadata
  isHLS : Bool
  originalRequest : OriginalRequest
deriving DecidableEq, Repr

/-- The tagged outcome of the resolution call. -/
inductive Outcome where
  | error (code : String) (critical : Bool)
  | audio (r : AudioResult)
  | merge (r : MergeResult)
deriving DecidableEq, Repr

/-! ## Quality normalizer and playability gates -/

/-- The closure `normalizeQuality`: the first tier that is at least the
shortest side; `undefined` when a side is not a number or no tier fits. -/
def normalizeQuality (res : Resolution) : Option Nat :=
  match res.height, res.width with
  | some h, some w => videoQualities.find? (fun qual => decide (qual ≥ min h w))
  | _, _ => none

/-- The numeric quality: `o.quality === "max" ? 9000 : Number(o.quality)`. -/
def Request.qualityNumber (o : Request) : Nat :=
  match o.quality with
  | .max => 9000
  | .tier n => n

/-- The flag `useHLS` after the av1 adjustment. -/
def Request.useHLS (o : Request) : Bool :=
  if o.youtubeHLS && decide (o.codec = some Codec.av1) then false else o.youtubeHLS

/-- An error outcome without the critical flag. -/
def err (code : String) : Outcome := Outcome.error code false

/-- The text `playability?.error_screen?.reason?.text`. -/
def PlayabilityStatus.screenReason (p : PlayabilityStatus) : Option String :=
  match p.error_screen with
  | some s => s.reasonText
  | none => none

/-- The text `playability?.error_screen?.subreason?.text`. -/
def PlayabilityStatus.screenSubreason (p : PlayabilityStatus) : Option String :=
  match p.error_screen with
  | some s => s.subreasonText
  | none => none

/-- The `switch (playability.status)` statement: `some` outcome when a case
returns, `none` when control leaves the switch. -/
def statusSwitch (playability : PlayabilityStatus) : Except JsError (Option Outcome) :=
  if playability.status = some "LOGIN_REQUIRED" then
    match playability.reason with
    | none => .error (.typeError "playability.reason is undefined")
    | some reason =>
      if endsWith reason "bot" then .ok (some (err "youtube.login"))
      else if endsWith reason "age" || endsWith reason "inappropriate for some users." then
        .ok (some (err "content.video.age"))
      else if playability.screenReason = some "Private video" then
        .ok (some (err "content.video.private"))
      else .ok none
  else if playability.status = some "UNPLAYABLE" then
    if (match playability.reason with
        | some reason => endsWith reason "request limit."
        | none => false) then .ok (some (err "fetch.rate"))
    else if (match playability.screenSubreason with
        | some t => endsWith t "in your country"
        | none => false) then .ok (some (err "content.video.region"))
    else if playability.screenReason = some "Private video" then
      .ok (some (err "content.video.private"))
    else .ok none
  else if playability.status = some "AGE_VERIFICATION_REQUIRED" then
    .ok (some (err "content.video.age"))
  else .ok none

/-- The checks between the switch and the selection: status, live flag,
duration and identifier.  `none` means that selection proceeds. -/
def afterSwitch (durationLimit : Nat) (o : Request) (info : Info) : Option Outcome :=
  if info.playability_status.status ≠ some "OK" then some (err "content.video.unavailable")
  else if truthyBool info.basic_info.is_live then some (err "content.video.live")
  else if info.basic_info.duration > durationLimit then some (err "content.too_long")
  else if info.basic_info.id ≠ some o.id then some (Outcome.error "fetch.fail" true)
  else none

/-- All the gates before selection, in source order. -/
def playabilityGate (durationLimit : Nat) (o : Request) (info : Info) :
    Except JsError (Option Outcome) :=
  match statusSwitch info.playability_status with
  | .error e => .error e
  | .ok (some out) => .ok (some out)
  | .ok none => .ok (afterSwitch durationLimit o info)

/-! ## Selection state -/

/-- The selected video: a stream descriptor or an HLS variant. -/
inductive VideoPick where
  | format (f : Format)
  | variant (v : Variant)
deriving DecidableEq, Repr

/-- The selected audio: a stream descriptor or an HLS rendition. -/
inductive AudioPick where
  | format (f : Format)
  | rendition (r : Rendition)
deriving DecidableEq, Repr

/-- The variables `video`, `audio`, `subtitles`, `dubbedLanguage` and `codec`
after the selection. -/
structure Selection where
  video : Option VideoPick
  audio : Option AudioPick
  subtitles : Option Subtitles
  dubbedLanguage : Option String
  codec : Codec
deriving DecidableEq, Repr

/-- What a selection path gives: an early return or the selection. -/
inductive Step where
  | done (out : Outcome)
  | selected (s : Selection)
deriving DecidableEq, Repr

/-! ## HLS path -/

/-- What `getHlsVariants` returns: an error record or the sorted variants. -/
inductive HlsVariants where
  | error (code : String)
  | variants (vs : List Variant)
deriving DecidableEq, Repr

/-- The function `getHlsVariants`: the variants of the manifest, sorted by
descending bandwidth (the sort is stable), or `youtube.no_hls_streams`. -/
def getHlsVariants (hlsManifest : Option String) (m : ManifestFetch) :
    Except JsError HlsVariants :=
  if !truthyStr hlsManifest then .ok (.error "youtube.no_hls_streams")
  else
    match m with
    | .unavailable => .ok (.error "youtube.no_hls_streams")
    | .malformed => .error (.typeError "HLS.parse: invalid playlist")
    | .parsed vs =>
      let variants := vs.insertionSort (fun a b => b.bandwidth ≤ a.bandwidth)
      if variants.length = 0 then .ok (.error "youtube.no_hls_streams")
      else .ok (.variants variants)

/-- The closure `matchHlsCodec`: `codecs.includes(hlsCodecList[codec].videoCodec)`. -/
def matchHlsCodec (codec : Codec) (codecs : Option String) : Except JsError Bool :=
  match hlsCodecList codec with
  | none => .error (.typeError "hlsCodecList[codec] is undefined")
  | some entry =>
    match codecs with
    | none => .error (.typeError "codecs is undefined")
    | some cs => .ok (includes cs entry.videoCodec)

/-- The predicate of the `preferred` search:
`matchHlsCodec(i.codecs) && normalizeQuality(i.resolution) === quality`. -/
def preferredHls (codec : Codec) (quality : Nat) (i : Variant) : Except JsError Bool :=
  match matchHlsCodec codec i.codecs with
  | .error e => .error e
  | .ok false => .ok false
  | .ok true =>
    match i.resolution with
    | none => .error (.typeError "res is undefined")
    | some res => .ok (decide (normalizeQuality res = some quality))

/-- The variant selection of the HLS path: the selected variant, if any, with
the settled codec family. -/
def selectVariant (codec : Codec) (quality : Nat) (variants : List Variant) :
    Except JsError (Option Variant × Codec) :=
  match findE (fun i => matchHlsCodec codec i.codecs) variants with
  | .error e => .error e
  | .ok best =>
    match findE (preferredHls codec quality) variants with
    | .error e => .error e
    | .ok preferred =>
      match preferred <|> best with
      | some selected => .ok (some selected, codec)
      | none =>
        match findE (fun i => matchHlsCodec Codec.h264 i.codecs) variants with
        | .error e => .error e
        | .ok selected => .ok (selected, Codec.h264)

/-- The default-track part of the HLS audio selection: the track flagged
default, else the first one whose name ends with `original`. -/
def defaultRendition (pool : List Rendition) : Except JsError (Option Rendition) :=
  match pool.find? (fun i => i.isDefault) with
  | some a => .ok (some a)
  | none =>
    findE (fun i =>
      match i.name with
      | none => .error (.typeError "i.name is undefined")
      | some n => .ok (endsWith n "original")) pool

/-- The search for the dubbed rendition: `i.language?.startsWith(o.dubLang)`. -/
def dubbedRendition (pool : List Rendition) (dubLang : String) : Option Rendition :=
  pool.find? (fun i =>
    match i.language with
    | some l => startsWith l dubLang
    | none => false)

/-- The audio selection of the HLS path: the selected rendition and the
recorded dubbed language. -/
def selectHlsAudio (pool : List Rendition) (dubLang : Option String) :
    Except JsError (Option Rendition × Option String) :=
  match defaultRendition pool with
  | .error e => .error e
  | .ok audio =>
    if truthyStr dubLang then
      match dubbedRendition pool (dubLang.getD "") with
      | some dubbedAudio =>
        if !dubbedAudio.isDefault then .ok (some dubbedAudio, dubbedAudio.language)
        else .ok (audio, none)
      | none => .ok (audio, none)
    else .ok (audio, none)

/-- The branch `if (useHLS)` of the resolution call. -/
def selectHls (o : Request) (info : Info) (w : World) : Except JsError Step :=
  match getHlsVariants info.hls_manifest_url w.manifest with
  | .error e => .error e
  | .ok (.error code) => .ok (.done (err code))
  | .ok (.variants variants) =>
    match selectVariant (o.codec.getD Codec.h264) o.qualityNumber variants with
    | .error e => .error e
    | .ok (none, _) => .ok (.done (err "youtube.no_matching_format"))
    | .ok (some selected, codec) =>
      match selectHlsAudio selected.audio o.dubLang with
      | .error e => .error e
      | .ok (audio, dubbedLanguage) =>
        .ok (.selected
          { video := some (.variant { selected with audio := [], subtitles := [] })
            audio := audio.map AudioPick.rendition
            subtitles := none
            dubbedLanguage := dubbedLanguage
            codec := codec })

/-! ## Progressive path -/

/-- One entry of `sorted_formats`. -/
structure Bucket where
  video : List Format
  audio : List Format
  bestVideo : Option Format
  bestAudio : Option Format
deriving DecidableEq, Repr

/-- The object `sorted_formats`. -/
structure SortedFormats where
  h264 : Bucket
  vp9 : Bucket
  av1 : Bucket
deriving DecidableEq, Repr

/-- The initial, empty bucket. -/
def Bucket.empty : Bucket :=
  { video := [], audio := [], bestVideo := none, bestAudio := none }

/-- The initial value of `sorted_formats`. -/
def SortedFormats.empty : SortedFormats :=
  { h264 := Bucket.empty, vp9 := Bucket.empty, av1 := Bucket.empty }

/-- The entry `sorted_formats[codec]`. -/
def SortedFormats.get (s : SortedFormats) : Codec → Bucket
  | .h264 => s.h264
  | .vp9 => s.vp9
  | .av1 => s.av1

/-- Replaces the entry `sorted_formats[codec]`. -/
def SortedFormats.set (s : SortedFormats) (codec : Codec) (b : Bucket) : SortedFormats :=
  match codec with
  | .h264 => { s with h264 := b }
  | .vp9 => { s with vp9 := b }
  | .av1 => { s with av1 := b }

/-- The closure `checkFormat`, as a truth value; reading `mime_type` of a
descriptor that has a content length but no MIME type raises. -/
def checkFormat (format : Format) (pCodec : Codec) : Except JsError Bool :=
  if truthyStr format.content_length then
    match format.mime_type with
    | none => .error (.typeError "format.mime_type is undefined")
    | some mime =>
      .ok (includes mime (codecList pCodec).videoCodec ||
           includes mime (codecList pCodec).audioCodec)
  else .ok false

/-- The two slots of `o.itag`. -/
inductive Slot where
  | video
  | audio
deriving DecidableEq, Repr

/-- The value `itag?.[slot]`. -/
def pinned (itag : Option Itag) : Slot → Option Nat
  | .video => itag.bind (fun i => i.video)
  | .audio => itag.bind (fun i => i.audio)

/-- The closure `matchingItag`: `!itag?.[slot] || itag[slot] === format.itag`. -/
def matchingItag (itag : Option Itag) (format : Format) (slot : Slot) : Bool :=
  !truthyNat (pinned itag slot) || decide (pinned itag slot = format.itag)

/-- The body of the inner `forEach` for one descriptor and one family. -/
def pushFormat (itag : Option Itag) (format : Format) (sorted : Bucket) (yCodec : Codec) :
    Except JsError Bucket :=
  match checkFormat format yCodec with
  | .error e => .error e
  | .ok false => .ok sorted
  | .ok true =>
    let sorted1 : Bucket :=
      if format.has_video && matchingItag itag format Slot.video then
        { sorted with
          video := sorted.video ++ [format]
          bestVideo := if sorted.bestVideo.isSome then sorted.bestVideo else some format }
      else sorted
    let sorted2 : Bucket :=
      if format.has_audio && matchingItag itag format Slot.audio then
        { sorted1 with
          audio := sorted1.audio ++ [format]
          bestAudio := if sorted1.bestAudio.isSome then sorted1.bestAudio else some format }
      else sorted1
    .ok sorted2

/-- The inner `forEach` over `Object.keys(codecList)` for one descriptor. -/
def pushFormatAll (itag : Option Itag) (format : Format) (s : SortedFormats) :
    List Codec → Except JsError SortedFormats
  | [] => .ok s
  | yCodec :: rest =>
    match pushFormat itag format (s.get yCodec) yCodec with
    | .error e => .error e
    | .ok b => pushFormatAll itag format (s.set yCodec b) rest

/-- The outer `forEach` over the sorted descriptors. -/
def pushFormats (itag : Option Itag) (s : SortedFormats) :
    List Format → Except JsError SortedFormats
  | [] => .ok s
  | format :: rest =>
    match pushFormatAll itag format s [Codec.h264, Codec.av1, Codec.vp9] with
    | .error e => .error e
    | .ok s1 => pushFormats itag s1 rest

/-- The sort of the descriptors by descending bitrate (stable). -/
def sortByBitrate (formats : List Format) : List Format :=
  formats.insertionSort (fun a b => b.bitrate ≤ a.bitrate)

/-- The object `sorted_formats` after the partition of the pool. -/
def sorted_formats (itag : Option Itag) (formats : List Format) :
    Except JsError SortedFormats :=
  pushFormats itag SortedFormats.empty (sortByBitrate formats)

/-- The closure `noBestMedia` for the current value of `codec`. -/
def noBestMedia (s : SortedFormats) (isAudioOnly : Bool) (codec : Codec) : Bool :=
  (!(s.get codec).bestVideo.isSome && !isAudioOnly) ||
  (!(s.get codec).bestAudio.isSome && isAudioOnly)

/-- The codec fallback: the value of `codec` after the first `if (noBestMedia())`. -/
def settleCodec (s : SortedFormats) (isAudioOnly : Bool) (codec : Codec) : Codec :=
  if noBestMedia s isAudioOnly codec then
    let codec1 :=
      if codec = Codec.av1 then Codec.vp9
      else if codec = Codec.vp9 then Codec.av1
      else codec
    if noBestMedia s isAudioOnly codec1 then Codec.h264 else codec1
  else codec

/-- The original-track part of the progressive audio selection. -/
def originalAudio (b : Bucket) : Option Format :=
  match b.bestAudio with
  | some audio =>
    if audio.audio_track.isSome && !audio.is_original then
      b.audio.find? (fun i => i.is_original)
    else some audio
  | none => none

/-- The search for the dubbed stream:
`i.language?.startsWith(o.dubLang) && i.audio_track`. -/
def dubbedFormat (b : Bucket) (dubLang : String) : Option Format :=
  b.audio.find? (fun i =>
    (match i.language with
     | some l => startsWith l dubLang
     | none => false) && i.audio_track.isSome)

/-- The audio selection of the progressive path: the selected stream and the
recorded dubbed language. -/
def selectAudio (b : Bucket) (dubLang : Option String) : Option Format × Option String :=
  if truthyStr dubLang then
    match dubbedFormat b (dubLang.getD "") with
    | some dubbedAudio =>
      if !dubbedAudio.is_original then (some dubbedAudio, dubbedAudio.language)
      else (originalAudio b, none)
    | none => (originalAudio b, none)
  else (originalAudio b, none)

/-- The closure `qual`: the normalized tier of a descriptor. -/
def qual (i : Format) : Option Nat :=
  normalizeQuality { width := i.width, height := i.height }

/-- The video selection of the progressive path (the block under
`if (!o.isAudioOnly)`); `qual(undefined)` raises. -/
def selectVideo (b : Bucket) (quality : Nat) : Except JsError (Option Format) :=
  match b.bestVideo with
  | none => .error (.typeError "i is undefined")
  | some bestVideo =>
    let useBestQuality : Bool :=
      match qual bestVideo with
      | some bestQuality => decide (quality ≥ bestQuality)
      | none => false
    let video : Option Format :=
      if useBestQuality then some bestVideo
      else b.video.find? (fun i => decide (qual i = some quality))
    .ok (video <|> some bestVideo)

/-- The block `if (!o.isAudioOnly)` of the progressive path: the selected
video, or none for an audio-only request. -/
def videoStep (o : Request) (b : Bucket) : Except JsError (Option Format) :=
  if !o.isAudioOnly then selectVideo b o.qualityNumber else .ok none

/-- The subtitle block of the progressive path: `getSubtitles` is awaited when
a subtitle language is asked for, the request is not audio-only and caption
tracks exist. -/
def subtitleStep (o : Request) (info : Info) (w : World) : Except JsError (Option Subtitles) :=
  if truthyStr o.subtitleLang && !o.isAudioOnly && decide (info.caption_tracks.length ≠ 0)
  then w.getSubtitles else .ok none

/-- The branch `else` of `if (useHLS)` of the resolution call. -/
def selectProgressive (o : Request) (info : Info) (w : World) : Except JsError Step :=
  match sorted_formats o.itag info.adaptive_formats with
  | .error e => .error e
  | .ok s =>
    let codec := settleCodec s o.isAudioOnly (o.codec.getD Codec.h264)
    if noBestMedia s o.isAudioOnly codec then .ok (.done (err "youtube.no_matching_format"))
    else
      let picked := selectAudio (s.get codec) o.dubLang
      match videoStep o (s.get codec) with
      | .error e => .error e
      | .ok video =>
        match subtitleStep o info w with
        | .error e => .error e
        | .ok subtitles =>
          .ok (.selected
            { video := video.map VideoPick.format
              audio := picked.1.map AudioPick.format
              subtitles := subtitles
              dubbedLanguage := picked.2
              codec := codec })

/-! ## Result assembly -/

/-- White space and line terminators, the characters removed by `trim()`. -/
def isJsSpace (c : Char) : Bool :=
  decide (c.toNat ∈ [9, 10, 11, 12, 13, 32, 160, 5760, 8232, 8233, 8239, 8287, 12288, 65279]) ||
  (decide (8192 ≤ c.toNat) && decide (c.toNat ≤ 8202))

/-- `s.trim()` on strings. -/
def trim (s : String) : String :=
  ⟨((s.data.dropWhile isJsSpace).reverse.dropWhile isJsSpace).reverse⟩

/-- Replaces the first occurrence of a pattern in a character list. -/
def replaceChars (pat rep : List Char) : List Char → List Char
  | [] => if pat.isEmpty then rep else []
  | c :: cs =>
    if pat.isPrefixOf (c :: cs) then rep ++ (c :: cs).drop pat.length
    else c :: replaceChars pat rep cs

/-- `s.replace(pat, rep)` with a string pattern: the first occurrence only. -/
def replace (s pat rep : String) : String := ⟨replaceChars pat.data rep.data s.data⟩

/-- Splits at the separator; `skip` counts the characters of a separator still
to be passed over, `cur` is the current piece, reversed. -/
def splitChars (sep : List Char) : List Char → List Char → Nat → List (List Char)
  | [], cur, _ => [cur.reverse]
  | _ :: cs, cur, skip + 1 => splitChars sep cs cur skip
  | c :: cs, cur, 0 =>
    if sep.isPrefixOf (c :: cs) then cur.reverse :: splitChars sep cs [] (sep.length - 1)
    else splitChars sep cs (c :: cur) 0

/-- `s.split(sep, limit)` with a non-empty separator: all the pieces, cut to
the first `limit`. -/
def split (s sep : String) (limit : Nat) : List String :=
  ((splitChars sep.data s.data [] 0).take limit).map String.mk

/-- Printing of a possibly undefined number inside a template string. -/
def showNum : Option Nat → String
  | some n => toString n
  | none => "undefined"

/-- The object `fileMetadata`; `trim` of an undefined title or `replace` of an
undefined author raises. -/
def fileMetadataOf (basicInfo : BasicInfo) (subtitles : Option Subtitles) :
    Except JsError FileMetadata :=
  match basicInfo.title with
  | none => .error (.typeError "basicInfo.title is undefined")
  | some title =>
    match basicInfo.author with
    | none => .error (.typeError "basicInfo.author is undefined")
    | some author =>
      let base : FileMetadata :=
        { title := trim title
          artist := trim (replace author "- Topic" "")
          album := none, copyright := none, date := none, sublanguage := none }
      let described : FileMetadata :=
        match basicInfo.short_description with
        | none => base
        | some description =>
          if startsWith description "Provided to YouTube by" then
            match split description "\n\n" 5 with
            | [_, _, album, copyright, released] =>
              { base with
                album := some album
                copyright := some copyright
                date :=
                  if startsWith released "Released on:" then
                    some (trim (replace released "Released on: " ""))
                  else none }
            | _ => base
          else base
      match subtitles with
      | some subs => .ok { described with sublanguage := subs.language }
      | none => .ok described

/-- Field `drm_families` of the selected video, as a truth value. -/
def VideoPick.drm : VideoPick → Bool
  | .format f => f.drm_families.isSome
  | .variant _ => false

/-- Field `drm_families` of the selected audio, as a truth value. -/
def AudioPick.drm : AudioPick → Bool
  | .format f => f.drm_families.isSome
  | .rendition _ => false

/-- Field `itag` of the selected video. -/
def VideoPick.itag : VideoPick → Option Nat
  | .format f => f.itag
  | .variant _ => none

/-- Field `itag` of the selected audio. -/
def AudioPick.itag : AudioPick → Option Nat
  | .format f => f.itag
  | .rendition _ => none

/-- Field `url` of the selected video. -/
def VideoPick.url : VideoPick → Option String
  | .format f => f.url
  | .variant _ => none

/-- Field `uri` of the selected video. -/
def VideoPick.uri : VideoPick → Option String
  | .format _ => none
  | .variant v => v.uri

/-- Field `url` of the selected audio. -/
def AudioPick.url : AudioPick → Option String
  | .format f => f.url
  | .rendition _ => none

/-- Field `uri` of the selected audio. -/
def AudioPick.uri : AudioPick → Option String
  | .format _ => none
  | .rendition r => r.uri

/-- Field `resolution` of the selected video. -/
def VideoPick.resolution : VideoPick → Option Resolution
  | .format _ => none
  | .variant v => v.resolution

/-- Fields `width` and `height` of the selected video. -/
def VideoPick.size : VideoPick → Resolution
  | .format f => { width := f.width, height := f.height }
  | .variant _ => { width := none, height := none }

/-- The DRM test `video?.drm_families || audio?.drm_families`. -/
def drmProtected (s : Selection) : Bool :=
  (match s.video with
   | some v => v.drm
   | none => false) ||
  (match s.audio with
   | some a => a.drm
   | none => false)

/-- The object `filenameAttributes` before the merge branch extends it. -/
def filenameAttributesOf (o : Request) (meta : FileMetadata) (s : Selection) :
    FilenameAttributes :=
  { service := "youtube"
    id := o.id
    title := meta.title
    author := meta.artist
    youtubeDubName := if truthyStr s.dubbedLanguage then s.dubbedLanguage else none
    resolution := none, extension := none, qualityLabel := none, youtubeFormat := none }

/-- The object `originalRequest`. -/
def originalRequestOf (o : Request) (s : Selection) : OriginalRequest :=
  { request := o
    itag :=
      { video := s.video.bind VideoPick.itag
        audio := s.audio.bind AudioPick.itag }
    innertubeClient := "ANDROID" }

/-- The branch `if (audio && o.isAudioOnly)`. -/
def audioResult (o : Request) (info : Info) (w : World) (useHLS : Bool) (s : Selection)
    (meta : FileMetadata) (audio : AudioPick) (author : String) : AudioResult :=
  { urls := if useHLS then audio.uri else audio.url
    filenameAttributes := filenameAttributesOf o meta s
    fileMetadata := meta
    bestAudio := if useHLS then "mp3" else if s.codec = Codec.h264 then "m4a" else "opus"
    isHLS := useHLS
    originalRequest := originalRequestOf o s
    cover :=
      if w.maxCover then some ("https://i.ytimg.com/vi/" ++ o.id ++ "/maxresdefault.jpg")
      else
        match info.basic_info.thumbnail with
        | some (first :: _) => first.url
        | _ => none
    cropCover := endsWith author "- Topic" }

/-- The MergeResult record, given the resolution, the extension and the two
addresses computed by the branch `if (video && audio)`. -/
def mergeFinish (o : Request) (useHLS : Bool) (s : Selection) (meta : FileMetadata)
    (res : Resolution) (extension : String) (urls : Option String × Option String) :
    MergeResult :=
  { urls := urls
    subtitles := s.subtitles.bind (fun subs => subs.url)
    filenameAttributes :=
      { filenameAttributesOf o meta s with
        resolution := some (showNum res.width ++ "x" ++ showNum res.height)
        extension := some extension
        qualityLabel := some (showNum (normalizeQuality res) ++ "p")
        youtubeFormat := some s.codec.name }
    fileMetadata := meta
    isHLS := useHLS
    originalRequest := originalRequestOf o s }

/-- The branch `if (video && audio)`; reading `video.resolution.width` of a
variant without resolution raises, as does the container of a family that
`hlsCodecList` does not have. -/
def mergeResult (o : Request) (useHLS : Bool) (s : Selection) (meta : FileMetadata)
    (video : VideoPick) (audio : AudioPick) : Except JsError MergeResult :=
  if useHLS then
    match video.resolution with
    | none => .error (.typeError "res is undefined")
    | some res =>
      if o.container = "auto" then
        match hlsCodecList s.codec with
        | none => .error (.typeError "hlsCodecList[codec] is undefined")
        | some entry => .ok (mergeFinish o useHLS s meta res entry.container (video.uri, audio.uri))
      else .ok (mergeFinish o useHLS s meta res o.container (video.uri, audio.uri))
  else
    .ok (mergeFinish o useHLS s meta video.size
      (if o.container = "auto" then (codecList s.codec).container else o.container)
      (video.url, audio.url))

/-- The part of the resolution call after the selection: DRM gate, metadata
and the result. -/
def assemble (o : Request) (info : Info) (w : World) (useHLS : Bool) (s : Selection) :
    Except JsError Outcome :=
  if drmProtected s then .ok (err "youtube.drm")
  else
    match fileMetadataOf info.basic_info s.subtitles with
    | .error e => .error e
    | .ok meta =>
      match s.audio, o.isAudioOnly, s.video with
      | some audio, true, _ =>
        .ok (.audio (audioResult o info w useHLS s meta audio (info.basic_info.author.getD "")))
      | some audio, false, some video =>
        match mergeResult o useHLS s meta video audio with
        | .error e => .error e
        | .ok r => .ok (.merge r)
      | _, _, _ => .ok (err "youtube.no_matching_format")

/-- The default export of `youtube.js`, the resolution call.  `durationLimit`
is `env.durationLimit`. -/
def youtube (durationLimit : Nat) (o : Request) (w : World) : Except JsError Outcome :=
  match w.fetchVideoInfo with
  | .threw message =>
    if (match message with
        | some m => includes m "403" || includes m "401"
        | none => false) then .ok (err "youtube.api_error")
    else .ok (err "fetch.fail")
  | .returned info =>
    match playabilityGate durationLimit o info with
    | .error e => .error e
    | .ok (some out) => .ok out
    | .ok none =>
      match (if o.useHLS then selectHls o info w else selectProgressive o info w) with
      | .error e => .error e
      | .ok (.done out) => .ok out
      | .ok (.selected s) => assemble o info w o.useHLS s

/-! ## Usable streams

The predicates below say which descriptors the partition puts into a family's
lists; they are read off `checkFormat` and the body of the inner `forEach`. -/

/-- The truth value of `checkFormat` when it does not raise. -/
def goodFormat (format : Format) (pCodec : Codec) : Bool :=
  truthyStr format.content_length &&
  (match format.mime_type with
   | some mime =>
     includes mime (codecList pCodec).videoCodec || includes mime (codecList pCodec).audioCodec
   | none => false)

/-- A descriptor that the partition pushes to the video list of a family. -/
def usableVideo (itag : Option Itag) (c : Codec) (f : Format) : Bool :=
  goodFormat f c && (f.has_video && matchingItag itag f Slot.video)

/-- A descriptor that the partition pushes to the audio list of a family. -/
def usableAudio (itag : Option Itag) (c : Codec) (f : Format) : Bool :=
  goodFormat f c && (f.has_audio && matchingItag itag f Slot.audio)

/-- A bucket after the usable descriptors of a list have been pushed to it. -/
def Bucket.extend (itag : Option Itag) (c : Codec) (b : Bucket) (l : List Format) : Bucket :=
  { video := b.video ++ l.filter (usableVideo itag c)
    audio := b.audio ++ l.filter (usableAudio itag c)
    bestVideo := b.bestVideo.or (l.filter (usableVideo itag c)).head?
    bestAudio := b.bestAudio.or (l.filter (usableAudio itag c)).head? }

/-- A descriptor on which `checkFormat` raises: a content length without a
MIME type. -/
def raises (f : Format) : Bool :=
  truthyStr f.content_length && f.mime_type.isNone

/-- An outcome that delivers media: an AudioResult or a MergeResult. -/
def Outcome.isMedia : Outcome → Bool
  | .error _ _ => false
  | .audio _ => true
  | .merge _ => true

/-! ## Concrete inputs -/

/-- A video descriptor with the given identifier, MIME type, bitrate and size. -/
def videoFormat (itag : Nat) (mime : String) (bitrate width height : Nat) : Format :=
  { itag := some itag
    url := some "https://v.example/video"
    mime_type := some mime
    bitrate := bitrate
    width := some width
    height := some height
    content_length := some "1000"
    audio_track := none
    drm_families := none }

/-- An audio descriptor with the given identifier, MIME type, bitrate and track. -/
def audioFormat (itag : Nat) (mime : String) (bitrate : Nat) (track : Option AudioTrack) :
    Format :=
  { itag := some itag
    url := some "https://v.example/audio"
    mime_type := some mime
    bitrate := bitrate
    width := none
    height := none
    content_length := some "1000"
    audio_track := track
    drm_families := none }

/-- A fetched record that passes the playability gates for the identifier `abc`. -/
def playableInfo (formats : List Format) : Info :=
  { playability_status := { status := some "OK", reason := none, error_screen := none }
    basic_info :=
      { id := some "abc"
        title := some "Title"
        author := some "Author"
        duration := 100
        is_live := some false
        short_description := none
        thumbnail := none }
    adaptive_formats := formats
    hls_manifest_url := none
    caption_tracks := [] }

/-- A request for the identifier `abc` on the progressive path. -/
def baseRequest (codec : Codec) (quality : Nat) : Request :=
  { id := "abc"
    quality := Quality.tier quality
    youtubeHLS := false
    codec := some codec
    isAudioOnly := false
    dubLang := none
    subtitleLang := none
    itag := none
    container := "auto" }

/-- A world whose player request returns the given record. -/
def worldOf (info : Info) : World :=
  { fetchVideoInfo := .returned info
    manifest := .unavailable
    getSubtitles := .ok none
    maxCover := false }

/-- A pool with vp9 and h264 video, opus and mp4a audio, and no av1. -/
def poolNoAv1 : List Format :=
  [ videoFormat 137 "video/mp4; codecs=\"avc1.640028\"" 4000 1920 1080,
    videoFormat 248 "video/webm; codecs=\"vp9\"" 2500 1920 1080,
    audioFormat 251 "audio/webm; codecs=\"opus\"" 130 none,
    audioFormat 140 "audio/mp4; codecs=\"mp4a.40.2\"" 128 none ]

/-- The vp9 video of highest bitrate in `poolC2`, of tier 720. -/
def bestC2 : Format := videoFormat 302 "video/webm; codecs=\"vp9\"" 5000 1280 720

/-- A vp9 video of lower bitrate in `poolC2`, of tier 1080. -/
def exactC2 : Format := videoFormat 248 "video/webm; codecs=\"vp9\"" 3000 1920 1080

/-- A pool whose highest-bitrate vp9 video is of a lower tier than another one. -/
def poolC2 : List Format :=
  [exactC2, bestC2, audioFormat 251 "audio/webm; codecs=\"opus\"" 130 none]

/-- The vp9 video of highest bitrate in `poolTiers`, of tier 2160. -/
def bestTiers : Format := videoFormat 313 "video/webm; codecs=\"vp9\"" 12000 3840 2160

/-- A pool with vp9 videos of tiers 2160, 1080 and 720 in bitrate order. -/
def poolTiers : List Format :=
  [bestC2, bestTiers, exactC2, audioFormat 251 "audio/webm; codecs=\"opus\"" 130 none]

/-- An audio rendition flagged default, with language `en`. -/
def defaultRenditionEn : Rendition :=
  { name := some "English"
    language := some "en"
    isDefault := true
    uri := some "https://v.example/audio.m3u8" }

/-- An h264 variant with the given bandwidth and size and the given audio pool. -/
def h264Variant (bandwidth width height : Nat) (audio : List Rendition) : Variant :=
  { uri := some "https://v.example/variant.m3u8"
    bandwidth := bandwidth
    codecs := some "avc1.640028,mp4a.40.2"
    resolution := some { width := some width, height := some height }
    audio := audio
    subtitles := [] }

/-- A fetched record that passes the gates for `abc` and names an HLS manifest. -/
def hlsInfo : Info :=
  { playableInfo [] with hls_manifest_url := some "https://v.example/master.m3u8" }

/-- A request for the identifier `abc` on the HLS path. -/
def hlsRequest (codec : Codec) (quality : Nat) : Request :=
  { baseRequest codec quality with youtubeHLS := true }

/-- A world whose player request returns `hlsInfo` and whose manifest parses
to the given variants. -/
def hlsWorld (variants : List Variant) : World :=
  { fetchVideoInfo := .returned hlsInfo
    manifest := .parsed variants
    getSubtitles := .ok none
    maxCover := false }

/-- The h264 variant of tier 1080 in `variantsH264`. -/
def variant1080 : Variant := h264Variant 5000 1920 1080 [defaultRenditionEn]

/-- The h264 variant of tier 720 in `variantsH264`. -/
def variant720 : Variant := h264Variant 2500 1280 720 [defaultRenditionEn]

/-- A manifest with h264 variants only, of tiers 720 and 1080. -/
def variantsH264 : List Variant := [variant720, variant1080]

/-- The record of a private video: status `LOGIN_REQUIRED` with an error
screen and without the field `reason`. -/
def privateInfo : Info :=
  { playableInfo poolNoAv1 with
    playability_status :=
      { status := some "LOGIN_REQUIRED"
        reason := none
        error_screen := some { reasonText := some "Private video", subreasonText := none } } }

/-- A record with status `ERROR` whose identifier is not the requested one. -/
def stubInfo : Info :=
  { playability_status := { status := some "ERROR", reason := some "Video unavailable",
                            error_screen := none }
    basic_info :=
      { id := some "zzz"
        title := some "Video Not Available"
        author := some "Author"
        duration := 100
        is_live := some false
        short_description := none
        thumbnail := none }
    adaptive_formats := []
    hls_manifest_url := none
    caption_tracks := [] }

/-- A playable, live record whose identifier is not the requested one. -/
def liveStubInfo : Info :=
  { playableInfo poolNoAv1 with
    basic_info :=
      { id := some "zzz"
        title := some "Title"
        author := some "Author"
        duration := 100
        is_live := some true
        short_description := none
        thumbnail := none } }

/-- A playable record of the right length whose identifier is not the
requested one. -/
def mismatchInfo : Info :=
  { playableInfo poolNoAv1 with
    basic_info :=
      { id := some "zzz"
        title := some "Title"
        author := some "Author"
        duration := 100
        is_live := some false
        short_description := none
        thumbnail := none } }

/-- A playable record without title. -/
def untitledInfo : Info :=
  { playableInfo poolNoAv1 with
    basic_info :=
      { id := some "abc"
        title := none
        author := some "Author"
        duration := 100
        is_live := some false
        short_description := none
        thumbnail := none } }

/-- A playable record without author. -/
def anonymousInfo : Info :=
  { playableInfo poolNoAv1 with
    basic_info :=
      { id := some "abc"
        title := some "Title"
        author := none
        duration := 100
        is_live := some false
        short_description := none
        thumbnail := none } }

/-- A descriptor with a content length and without MIME type. -/
def mimelessFormat : Format :=
  { itag := some 18
    url := some "https://v.example/unknown"
    mime_type := none
    bitrate := 500
    width := none
    height := none
    content_length := some "1000"
    audio_track := none
    drm_families := none }

/-- An audio rendition that is not flagged default and has no name. -/
def namelessRendition : Rendition :=
  { name := none
    language := some "en"
    isDefault := false
    uri := some "https://v.example/audio.m3u8" }

/-- A record with status `LOGIN_REQUIRED` and no other playability field. -/
def loginInfo : Info :=
  { playableInfo poolNoAv1 with
    playability_status := { status := some "LOGIN_REQUIRED", reason := none, error_screen := none } }

/-- An h264 manifest whose only audio rendition has no name and is not default. -/
def variantsNameless : List Variant := [h264Variant 5000 1920 1080 [namelessRendition]]

/-- An audio rendition that is not flagged default, with the given name and
language. -/
def dubRendition (name language : String) : Rendition :=
  { name := some name
    language := some language
    isDefault := false
    uri := some "https://v.example/dub.m3u8" }

/-- The HLS pool of the dub example: a default track `en` and a track `es`. -/
def renditionsEnEs : List Rendition := [defaultRenditionEn, dubRendition "Spanish" "es"]

/-- An HLS pool with a default track `en` followed by a track `en-GB`. -/
def renditionsEnEnGb : List Rendition := [defaultRenditionEn, dubRendition "British" "en-GB"]

/-- An original opus track with the given display name and bitrate. -/
def originalTrack (name : String) (bitrate : Nat) : Format :=
  audioFormat 251 "audio/webm; codecs=\"opus\"" bitrate
    (some { displayName := some name, audioIsDefault := some true })

/-- A dubbed opus track with the given display name and bitrate. -/
def dubbedTrack (name : String) (bitrate : Nat) : Format :=
  audioFormat 251 "audio/webm; codecs=\"opus\"" bitrate
    (some { displayName := some name, audioIsDefault := some false })

/-- The progressive bucket of the dub example: an original track `en` and a
dubbed track `es`. -/
def bucketEnEs : Bucket :=
  { video := []
    audio := [originalTrack "en" 130, dubbedTrack "es" 120]
    bestVideo := none
    bestAudio := some (originalTrack "en" 130) }

/-- A progressive bucket with an original track `en` followed by a dubbed
track `en-GB`. -/
def bucketEnEnGb : Bucket :=
  { video := []
    audio := [originalTrack "en" 130, dubbedTrack "en-GB" 120]
    bestVideo := none
    bestAudio := some (originalTrack "en" 130) }

/-- An HLS pool without default track whose only track is named
`Song Title (original)`. -/
def renditionsParenthesized : List Rendition := [dubRendition "Song Title (original)" "en"]

/-- An HLS pool without default track, with a track named `Song Title original`
after a track with another name. -/
def renditionsOriginal : List Rendition :=
  [dubRendition "Spanish" "es", dubRendition "Song Title original" "en"]

/-- A vp9 video of tier 1080 that carries a DRM-family marker. -/
def drmVideo : Format :=
  { videoFormat 248 "video/webm; codecs=\"vp9\"" 2500 1920 1080 with
    drm_families := some ["WIDEVINE"] }

/-- A pool whose only vp9 video carries a DRM-family marker. -/
def poolDrm : List Format := [drmVideo, audioFormat 251 "audio/webm; codecs=\"opus\"" 130 none]

/-- The truth value of `matchHlsCodec` on a variant when it does not raise. -/
def variantMatches (codec : Codec) (v : Variant) : Bool :=
  match hlsCodecList codec, v.codecs with
  | some entry, some cs => includes cs entry.videoCodec
  | _, _ => false

/-- The normalized tier of a variant that has a resolution. -/
def variantTier (v : Variant) : Option Nat :=
  match v.resolution with
  | some res => normalizeQuality res
  | none => none

/-- The bucket of a family as a function of the pool: the usable descriptors
in the order of the bitrate sort. -/
def bucketOf (itag : Option Itag) (c : Codec) (pool : List Format) : Bucket :=
  Bucket.empty.extend itag c (sortByBitrate pool)

/-- The field `originalRequest` of a media outcome. -/
def Outcome.originalRequest : Outcome → Option OriginalRequest
  | .error _ _ => none
  | .audio r => some r.originalRequest
  | .merge r => some r.originalRequest

/-- The field `fileMetadata` of a media outcome. -/
def Outcome.fileMetadata : Outcome → Option FileMetadata
  | .error _ _ => none
  | .audio r => some r.fileMetadata
  | .merge r => some r.fileMetadata

/-- All the pieces of a description between double newlines, without limit. -/
def descriptionParts (description : String) : List String :=
  (splitChars "\n\n".data description.data [] 0).map String.mk

/-- A playable live record whose identifier is the requested one and whose
duration exceeds the limit used in the examples. -/
def liveInfo : Info :=
  { playableInfo poolNoAv1 with
    basic_info :=
      { id := some "abc"
        title := some "Title"
        author := some "Author"
        duration := 100000
        is_live := some true
        short_description := none
        thumbnail := none } }

/-- An audio-only request for the identifier `abc` on the progressive path. -/
def audioRequest (codec : Codec) : Request :=
  { baseRequest codec 1080 with isAudioOnly := true }

/-- A vp9 video whose shortest side, 4608, exceeds the highest tier. -/
def hugeVideo : Format := videoFormat 702 "video/webm; codecs=\"vp9\"" 50000 8192 4608

/-- A pool whose vp9 video of highest bitrate has no tier. -/
def poolHuge : List Format :=
  [exactC2, hugeVideo, audioFormat 251 "audio/webm; codecs=\"opus\"" 130 none]

/-- A request with quality `max` for the identifier `abc`. -/
def maxRequest (codec : Codec) (hls : Bool) : Request :=
  { baseRequest codec 0 with quality := Quality.max, youtubeHLS := hls }

/-- An audio-only h264 request that pins the video identifier 137 and the
audio identifier 140. -/
def pinnedAudioRequest : Request :=
  { audioRequest Codec.h264 with itag := some { video := some 137, audio := some 140 } }

/-- A merge request for h264 that pins the video identifier 137 and the audio
identifier 140. -/
def pinnedMergeRequest : Request :=
  { baseRequest Codec.h264 1080 with itag := some { video := some 137, audio := some 140 } }

/-- A merge request for vp9 whose pinned video identifier is 0. -/
def zeroPinRequest : Request :=
  { baseRequest Codec.vp9 1080 with itag := some { video := some 0, audio := none } }

/-- A pool with vp9 and h264 video and mp4a audio, without opus audio. -/
def poolNoOpus : List Format :=
  [ videoFormat 248 "video/webm; codecs=\"vp9\"" 2500 1920 1080,
    videoFormat 137 "video/mp4; codecs=\"avc1.640028\"" 4000 1920 1080,
    audioFormat 140 "audio/mp4; codecs=\"mp4a.40.2\"" 128 none ]

/-- A pool with vp9 video and opus audio only. -/
def poolVp9Only : List Format :=
  [ videoFormat 248 "video/webm; codecs=\"vp9\"" 2500 1920 1080,
    audioFormat 251 "audio/webm; codecs=\"opus\"" 130 none ]

/-- An opus audio of bitrate 160 without audio-track descriptor. -/
def tracklessAudio : Format := audioFormat 251 "audio/webm; codecs=\"opus\"" 160 none

/-- A pool whose opus audio of highest bitrate has no audio-track descriptor
and whose other opus audio is flagged original. -/
def poolMixedTracks : List Format :=
  [ videoFormat 248 "video/webm; codecs=\"vp9\"" 2500 1920 1080,
    originalTrack "English" 130,
    tracklessAudio ]

/-- A pool whose opus audio of highest bitrate is a dubbed track and whose
other opus audio is flagged original. -/
def poolDubFirst : List Format :=
  [ videoFormat 248 "video/webm; codecs=\"vp9\"" 2500 1920 1080,
    originalTrack "English" 130,
    dubbedTrack "Spanish" 160 ]

/-- A playable record with the given description. -/
def describedInfo (description : String) : Info :=
  { playableInfo poolNoAv1 with
    basic_info :=
      { id := some "abc"
        title := some "Title"
        author := some "Artist - Topic"
        duration := 100
        is_live := some false
        short_description := some description
        thumbnail := none } }

/-- A generated description with seven parts. -/
def topicDescription : String :=
  "Provided to YouTube by Label\n\nSong · Artist\n\nAlbum\n\n℗ 2020 Label\n\nReleased on: 2020-01-31\n\nProducer: Someone\n\nAuto-generated by YouTube."

/-- A generated description with exactly five parts. -/
def fivePartDescription : String :=
  "Provided to YouTube by Label\n\nSong · Artist\n\nAlbum\n\n℗ 2020 Label\n\nReleased on: 2020-01-31"

/-- The object `fileMetadata` before the subtitle language is attached, for a
record with the given title, author and description. -/
def describedMetadata (title author : String) (short_description : Option String) :
    FileMetadata :=
  let base : FileMetadata :=
    { title := trim title
      artist := trim (replace author "- Topic" "")
      album := none, copyright := none, date := none, sublanguage := none }
  match short_description with
  | none => base
  | some description =>
    if startsWith description "Provided to YouTube by" then
      match split description "\n\n" 5 with
      | [_, _, album, copyright, released] =>
        { base with
          album := some album
          copyright := some copyright
          date :=
            if startsWith released "Released on:" then
              some (trim (replace released "Released on: " ""))
            else none }
      | _ => base
    else base

/-- The h264 video of tier 1080 of `poolPinned`, with the identifier 137. -/
def video137 : Format := videoFormat 137 "video/mp4; codecs=\"avc1.640028\"" 4000 1920 1080

/-- The h264 video of tier 720 of `poolPinned`, with the identifier 136. -/
def video136 : Format := videoFormat 136 "video/mp4; codecs=\"avc1.4d401f\"" 2000 1280 720

/-- A pool with two h264 videos and two audios. -/
def poolPinned : List Format :=
  [ video136, video137,
    audioFormat 251 "audio/webm; codecs=\"opus\"" 130 none,
    audioFormat 140 "audio/mp4; codecs=\"mp4a.40.2\"" 128 none ]

/-- Pins of the video identifier 136 and the audio identifier 140. -/
def pins136 : Option Itag := some { video := some 136, audio := some 140 }

/-- An HLS pool without default flag in which the track `en` is named as the
original one. -/
def renditionsNamedOriginal : List Rendition :=
  [dubRendition "Spanish" "es", dubRendition "English original" "en"]

/-! # Theorems -/

/-! ## The partition of the stream pool -/

theorem checkFormat_ok {f : Format} {c : Codec} {b : Bool} (h : checkFormat f c = .ok b) :
    b = goodFormat f c ∧ raises f = false := by
  unfold checkFormat at h
  unfold goodFormat raises
  cases hc : truthyStr f.content_length <;> cases hm : f.mime_type <;> simp_all

theorem checkFormat_of_not_raises {f : Format} (c : Codec) (h : raises f = false) :
    checkFormat f c = .ok (goodFormat f c) := by
  unfold raises at h
  unfold checkFormat goodFormat
  cases hc : truthyStr f.content_length <;> cases hm : f.mime_type <;> simp_all

theorem pushFormat_ok {itag : Option Itag} {f : Format} {b b1 : Bucket} {c : Codec}
    (h : pushFormat itag f b c = .ok b1) : b1 = b.extend itag c [f] ∧ raises f = false := by
  unfold pushFormat at h
  cases hc : checkFormat f c with
  | error e => simp [hc] at h
  | ok g =>
    obtain ⟨hg, hr⟩ := checkFormat_ok hc
    refine ⟨?_, hr⟩
    rw [hc] at h
    cases g with
    | false =>
      simp only [Except.ok.injEq] at h
      subst h
      cases b
      simp [Bucket.extend, usableVideo, usableAudio, ← hg]
    | true =>
      simp only [Except.ok.injEq] at h
      subst h
      cases b with
      | mk v a bv ba =>
      cases hv : (f.has_video && matchingItag itag f Slot.video) <;>
      cases ha : (f.has_audio && matchingItag itag f Slot.audio) <;>
      cases bv <;> cases ba <;>
      simp [Bucket.extend, usableVideo, usableAudio, ← hg, hv, ha]

theorem get_set_same (s : SortedFormats) (c : Codec) (b : Bucket) : (s.set c b).get c = b := by
  cases c <;> rfl

theorem get_set_other (s : SortedFormats) {c d : Codec} (b : Bucket) (h : d ≠ c) :
    (s.set c b).get d = s.get d := by
  cases c <;> cases d <;> first | rfl | exact absurd rfl h

theorem extend_nil (itag : Option Itag) (c : Codec) (b : Bucket) : b.extend itag c [] = b := by
  cases b; simp [Bucket.extend]

theorem extend_cons (itag : Option Itag) (c : Codec) (b : Bucket) (f : Format) (l : List Format) :
    (b.extend itag c [f]).extend itag c l = b.extend itag c (f :: l) := by
  cases b with
  | mk v a bv ba =>
  cases hv : usableVideo itag c f <;> cases ha : usableAudio itag c f <;>
  cases bv <;> cases ba <;>
  simp [Bucket.extend, hv, ha, List.filter_cons]

theorem pushFormatAll_ok {itag : Option Itag} {f : Format} {s s1 : SortedFormats}
    (h : pushFormatAll itag f s [Codec.h264, Codec.av1, Codec.vp9] = .ok s1) :
    (∀ c, s1.get c = (s.get c).extend itag c [f]) ∧ raises f = false := by
  simp only [pushFormatAll] at h
  cases h1 : pushFormat itag f (s.get Codec.h264) Codec.h264 with
  | error e => simp [h1] at h
  | ok b1 =>
    rw [h1] at h
    simp only at h
    cases h2 : pushFormat itag f ((s.set Codec.h264 b1).get Codec.av1) Codec.av1 with
    | error e => simp [h2] at h
    | ok b2 =>
      rw [h2] at h
      simp only at h
      cases h3 : pushFormat itag f (((s.set Codec.h264 b1).set Codec.av1 b2).get Codec.vp9)
          Codec.vp9 with
      | error e => simp [h3] at h
      | ok b3 =>
        rw [h3] at h
        simp only [Except.ok.injEq] at h
        subst h
        obtain ⟨e1, hr⟩ := pushFormat_ok h1
        obtain ⟨e2, _⟩ := pushFormat_ok h2
        obtain ⟨e3, _⟩ := pushFormat_ok h3
        refine ⟨?_, hr⟩
        intro c
        cases c
        · simpa [SortedFormats.get, SortedFormats.set] using e1
        · simpa [SortedFormats.get, SortedFormats.set] using e2
        · simpa [SortedFormats.get, SortedFormats.set] using e3

theorem pushFormats_ok {itag : Option Itag} : ∀ {l : List Format} {s s1 : SortedFormats},
    pushFormats itag s l = .ok s1 →
    (∀ c, s1.get c = (s.get c).extend itag c l) ∧ ∀ f ∈ l, raises f = false
  | [], s, s1, h => by
    simp only [pushFormats, Except.ok.injEq] at h
    subst h
    exact ⟨fun c => (extend_nil itag c _).symm, by simp⟩
  | f :: l, s, s1, h => by
    simp only [pushFormats] at h
    cases h1 : pushFormatAll itag f s [Codec.h264, Codec.av1, Codec.vp9] with
    | error e => simp [h1] at h
    | ok s2 =>
      rw [h1] at h
      simp only at h
      obtain ⟨e1, hr⟩ := pushFormatAll_ok h1
      obtain ⟨e2, hrs⟩ := pushFormats_ok h
      refine ⟨fun c => ?_, ?_⟩
      · rw [e2 c, e1 c, extend_cons]
      · intro g hg
        rcases List.mem_cons.mp hg with rfl | hg
        · exact hr
        · exact hrs g hg

theorem pushFormat_total (itag : Option Itag) {f : Format} (b : Bucket) (c : Codec)
    (h : raises f = false) : ∃ b1, pushFormat itag f b c = .ok b1 := by
  unfold pushFormat
  rw [checkFormat_of_not_raises c h]
  cases goodFormat f c <;> simp

theorem pushFormatAll_total (itag : Option Itag) {f : Format} (h : raises f = false) :
    ∀ (cs : List Codec) (s : SortedFormats), ∃ s1, pushFormatAll itag f s cs = .ok s1
  | [], s => ⟨s, rfl⟩
  | c :: cs, s => by
    obtain ⟨b1, hb⟩ := pushFormat_total itag (s.get c) c h
    simp only [pushFormatAll, hb]
    exact pushFormatAll_total itag h cs _

theorem pushFormats_total {itag : Option Itag} : ∀ (l : List Format) (s : SortedFormats),
    (∀ f ∈ l, raises f = false) → ∃ s1, pushFormats itag s l = .ok s1
  | [], s, _ => ⟨s, rfl⟩
  | f :: l, s, h => by
    obtain ⟨s2, hs⟩ := pushFormatAll_total itag (h f (List.mem_cons_self _ _))
      [Codec.h264, Codec.av1, Codec.vp9] s
    simp only [pushFormats, hs]
    exact pushFormats_total l s2 (fun g hg => h g (List.mem_cons_of_mem _ hg))

theorem mem_sortByBitrate {f : Format} {l : List Format} : f ∈ sortByBitrate l ↔ f ∈ l :=
  (List.perm_insertionSort _ l).mem_iff

theorem sorted_sortByBitrate (l : List Format) :
    (sortByBitrate l).Pairwise (fun a b => b.bitrate ≤ a.bitrate) :=
  @List.sorted_insertionSort Format (fun a b => b.bitrate ≤ a.bitrate) _
    ⟨fun a b => Nat.le_total b.bitrate a.bitrate⟩
    ⟨fun _ _ _ hab hbc => Nat.le_trans hbc hab⟩ l

/-- The bucket of a family after the partition, as a function of the pool. -/
theorem sorted_formats_get {itag : Option Itag} {l : List Format} {s : SortedFormats}
    (h : sorted_formats itag l = .ok s) (c : Codec) :
    (s.get c).video = (sortByBitrate l).filter (usableVideo itag c) ∧
    (s.get c).audio = (sortByBitrate l).filter (usableAudio itag c) ∧
    (s.get c).bestVideo = ((sortByBitrate l).filter (usableVideo itag c)).head? ∧
    (s.get c).bestAudio = ((sortByBitrate l).filter (usableAudio itag c)).head? := by
  obtain ⟨e, _⟩ := pushFormats_ok h
  rw [e c]
  cases c <;> simp [Bucket.extend, SortedFormats.get, SortedFormats.empty, Bucket.empty]

theorem sorted_formats_total (itag : Option Itag) (l : List Format)
    (h : ∀ f ∈ l, raises f = false) : ∃ s, sorted_formats itag l = .ok s :=
  pushFormats_total _ _ (fun f hf => h f (mem_sortByBitrate.mp hf))

theorem head?_filter_eq_none {α : Type} (p : α → Bool) (l : List α) :
    (l.filter p).head? = none ↔ ∀ x ∈ l, p x = false := by
  rw [List.head?_eq_none_iff, List.filter_eq_nil_iff]
  simp

theorem bestVideo_eq_none_iff {itag : Option Itag} {l : List Format} {s : SortedFormats}
    (h : sorted_formats itag l = .ok s) (c : Codec) :
    (s.get c).bestVideo = none ↔ ∀ f ∈ l, usableVideo itag c f = false := by
  rw [(sorted_formats_get h c).2.2.1, head?_filter_eq_none]
  exact ⟨fun H f hf => H f (mem_sortByBitrate.mpr hf), fun H f hf => H f (mem_sortByBitrate.mp hf)⟩

theorem bestAudio_eq_none_iff {itag : Option Itag} {l : List Format} {s : SortedFormats}
    (h : sorted_formats itag l = .ok s) (c : Codec) :
    (s.get c).bestAudio = none ↔ ∀ f ∈ l, usableAudio itag c f = false := by
  rw [(sorted_formats_get h c).2.2.2, head?_filter_eq_none]
  exact ⟨fun H f hf => H f (mem_sortByBitrate.mpr hf), fun H f hf => H f (mem_sortByBitrate.mp hf)⟩

/-! ## Inversion of the resolution call -/

theorem youtube_returned {d : Nat} {o : Request} {w : World} {info : Info}
    (hf : w.fetchVideoInfo = .returned info) :
    youtube d o w =
      match playabilityGate d o info with
      | .error e => .error e
      | .ok (some out) => .ok out
      | .ok none =>
        match (if o.useHLS then selectHls o info w else selectProgressive o info w) with
        | .error e => .error e
        | .ok (.done out) => .ok out
        | .ok (.selected s) => assemble o info w o.useHLS s := by
  unfold youtube
  rw [hf]

theorem statusSwitch_some_error {p : PlayabilityStatus} {out : Outcome}
    (hs : statusSwitch p = .ok (some out)) : out.isMedia = false := by
  unfold statusSwitch at hs
  split_ifs at hs
  all_goals try split at hs
  all_goals try split_ifs at hs
  all_goals first
    | (simp at hs; done)
    | (simp at hs; subst hs; rfl)

theorem afterSwitch_some_error {d : Nat} {o : Request} {info : Info} {out : Outcome}
    (h : afterSwitch d o info = some out) : out.isMedia = false := by
  unfold afterSwitch at h
  split_ifs at h <;> simp at h <;> subst h <;> rfl

theorem playabilityGate_some_error {d : Nat} {o : Request} {info : Info} {out : Outcome}
    (h : playabilityGate d o info = .ok (some out)) : out.isMedia = false := by
  unfold playabilityGate at h
  cases hs : statusSwitch info.playability_status with
  | error e => simp [hs] at h
  | ok r =>
    rw [hs] at h
    cases r with
    | some out1 =>
      simp only [Except.ok.injEq, Option.some.injEq] at h
      subst h
      exact statusSwitch_some_error hs
    | none =>
      simp only [Except.ok.injEq] at h
      exact afterSwitch_some_error h

theorem selectHls_done {o : Request} {info : Info} {w : World} {out : Outcome}
    (h : selectHls o info w = .ok (.done out)) : out.isMedia = false := by
  unfold selectHls at h
  split at h
  · simp at h
  · simp only [Except.ok.injEq, Step.done.injEq] at h
    subst h; rfl
  · split at h
    · simp at h
    · simp only [Except.ok.injEq, Step.done.injEq] at h
      subst h; rfl
    · split at h <;> simp at h

/-- The progressive branch, unfolded: what a completed selection consists of. -/
theorem selectProgressive_selected {o : Request} {info : Info} {w : World} {sel : Selection}
    (h : selectProgressive o info w = .ok (.selected sel)) :
    ∃ s video subtitles,
      sorted_formats o.itag info.adaptive_formats = .ok s ∧
      sel.codec = settleCodec s o.isAudioOnly (o.codec.getD Codec.h264) ∧
      noBestMedia s o.isAudioOnly sel.codec = false ∧
      videoStep o (s.get sel.codec) = .ok video ∧
      subtitleStep o info w = .ok subtitles ∧
      sel.video = video.map VideoPick.format ∧
      sel.audio = (selectAudio (s.get sel.codec) o.dubLang).1.map AudioPick.format ∧
      sel.dubbedLanguage = (selectAudio (s.get sel.codec) o.dubLang).2 ∧
      sel.subtitles = subtitles := by
  unfold selectProgressive at h
  cases hs : sorted_formats o.itag info.adaptive_formats with
  | error e => simp [hs] at h
  | ok s =>
    simp only [hs] at h
    cases hn : noBestMedia s o.isAudioOnly (settleCodec s o.isAudioOnly (o.codec.getD Codec.h264))
    · simp only [hn, Bool.false_eq_true, ↓reduceIte] at h
      cases hv : videoStep o (s.get (settleCodec s o.isAudioOnly (o.codec.getD Codec.h264))) with
      | error e => simp [hv] at h
      | ok video =>
        simp only [hv] at h
        cases hsub : subtitleStep o info w with
        | error e => simp [hsub] at h
        | ok subtitles =>
          simp only [hsub, Except.ok.injEq, Step.selected.injEq] at h
          subst h
          exact ⟨s, video, subtitles, rfl, rfl, hn, hv, rfl, rfl, rfl, rfl, rfl⟩
    · simp [hn] at h

theorem selectProgressive_done {o : Request} {info : Info} {w : World} {out : Outcome}
    (h : selectProgressive o info w = .ok (.done out)) : out.isMedia = false := by
  unfold selectProgressive at h
  cases hs : sorted_formats o.itag info.adaptive_formats with
  | error e => simp [hs] at h
  | ok s =>
    simp only [hs] at h
    cases hn : noBestMedia s o.isAudioOnly (settleCodec s o.isAudioOnly (o.codec.getD Codec.h264))
    · simp only [hn, Bool.false_eq_true, ↓reduceIte] at h
      cases hv : videoStep o (s.get (settleCodec s o.isAudioOnly (o.codec.getD Codec.h264))) with
      | error e => simp [hv] at h
      | ok video =>
        simp only [hv] at h
        cases hsub : subtitleStep o info w with
        | error e => simp [hsub] at h
        | ok subtitles => simp [hsub] at h
    · simp only [hn, ↓reduceIte, Except.ok.injEq, Step.done.injEq] at h
      subst h; rfl

/-- A media outcome comes from a fetched record that passed the gates, a
selection, and the assembly of that selection. -/
theorem youtube_media_inv {d : Nat} {o : Request} {w : World} {out : Outcome}
    (h : youtube d o w = .ok out) (hm : out.isMedia = true) :
    ∃ info sel, w.fetchVideoInfo = .returned info ∧ playabilityGate d o info = .ok none ∧
      (if o.useHLS then selectHls o info w else selectProgressive o info w) = .ok (.selected sel) ∧
      assemble o info w o.useHLS sel = .ok out := by
  cases hf : w.fetchVideoInfo with
  | threw m =>
    unfold youtube at h
    rw [hf] at h
    simp only at h
    split_ifs at h <;> simp at h <;> subst h <;> simp [err, Outcome.isMedia] at hm
  | returned info =>
    rw [youtube_returned hf] at h
    refine ⟨info, ?_⟩
    cases hg : playabilityGate d o info with
    | error e => simp [hg] at h
    | ok g =>
      rw [hg] at h
      cases g with
      | some out1 =>
        simp only [Except.ok.injEq] at h
        subst h
        rw [playabilityGate_some_error hg] at hm
        exact absurd hm (by decide)
      | none =>
        simp only at h
        cases hs : (if o.useHLS then selectHls o info w else selectProgressive o info w) with
        | error e => simp [hs] at h
        | ok st =>
          rw [hs] at h
          cases st with
          | done out1 =>
            simp only [Except.ok.injEq] at h
            subst h
            have : out1.isMedia = false := by
              split_ifs at hs
              · exact selectHls_done hs
              · exact selectProgressive_done hs
            rw [this] at hm
            exact absurd hm (by decide)
          | selected sel => exact ⟨sel, rfl, rfl, rfl, h⟩

theorem assemble_media_inv {o : Request} {info : Info} {w : World} {u : Bool} {s : Selection}
    {out : Outcome} (h : assemble o info w u s = .ok out) (hm : out.isMedia = true) :
    drmProtected s = false ∧
    ∃ meta audio, fileMetadataOf info.basic_info s.subtitles = .ok meta ∧ s.audio = some audio ∧
      ((o.isAudioOnly = true ∧
          out = .audio (audioResult o info w u s meta audio (info.basic_info.author.getD ""))) ∨
       (o.isAudioOnly = false ∧ ∃ video r, s.video = some video ∧
          mergeResult o u s meta video audio = .ok r ∧ out = .merge r)) := by
  unfold assemble at h
  cases hd : drmProtected s
  · refine ⟨rfl, ?_⟩
    simp only [hd, Bool.false_eq_true, ↓reduceIte] at h
    cases hmeta : fileMetadataOf info.basic_info s.subtitles with
    | error e => simp [hmeta] at h
    | ok meta =>
      simp only [hmeta] at h
      cases ha : s.audio with
      | none =>
        simp [ha] at h
        subst h
        simp [err, Outcome.isMedia] at hm
      | some audio =>
        refine ⟨meta, audio, rfl, rfl, ?_⟩
        cases hao : o.isAudioOnly
        · right
          refine ⟨rfl, ?_⟩
          cases hv : s.video with
          | none =>
            simp [ha, hao, hv] at h
            subst h
            simp [err, Outcome.isMedia] at hm
          | some video =>
            simp only [ha, hao, hv] at h
            cases hr : mergeResult o u s meta video audio with
            | error e => simp [hr] at h
            | ok r =>
              simp only [hr, Except.ok.injEq] at h
              exact ⟨video, r, rfl, hr, h.symm⟩
        · left
          simp only [ha, hao, Except.ok.injEq] at h
          exact ⟨rfl, h.symm⟩
  · simp only [hd, ↓reduceIte, Except.ok.injEq] at h
    subst h
    simp [err, Outcome.isMedia] at hm

theorem mergeResult_inv {o : Request} {u : Bool} {s : Selection} {meta : FileMetadata}
    {video : VideoPick} {audio : AudioPick} {r : MergeResult}
    (h : mergeResult o u s meta video audio = .ok r) :
    ∃ res ext urls, r = mergeFinish o u s meta res ext urls ∧
      (u = false → res = video.size ∧ urls = (video.url, audio.url) ∧
        ext = if o.container = "auto" then (codecList s.codec).container else o.container) ∧
      (u = true → video.resolution = some res ∧ urls = (video.uri, audio.uri)) := by
  unfold mergeResult at h
  cases u
  · simp only [Bool.false_eq_true, ↓reduceIte, Except.ok.injEq] at h
    exact ⟨_, _, _, h.symm, fun _ => ⟨rfl, rfl, rfl⟩, fun hu => absurd hu (by decide)⟩
  · simp only [↓reduceIte] at h
    cases hres : video.resolution with
    | none => simp [hres] at h
    | some res =>
      simp only [hres] at h
      by_cases hc : o.container = "auto"
      · simp only [hc, ↓reduceIte] at h
        cases he : hlsCodecList s.codec with
        | none => simp [he] at h
        | some entry =>
          simp only [he, Except.ok.injEq] at h
          exact ⟨_, _, _, h.symm, fun hu => absurd hu (by decide), fun _ => ⟨rfl, rfl⟩⟩
      · simp only [hc, ↓reduceIte, Except.ok.injEq] at h
        exact ⟨_, _, _, h.symm, fun hu => absurd hu (by decide), fun _ => ⟨rfl, rfl⟩⟩

theorem mergeResult_youtubeFormat {o : Request} {u : Bool} {s : Selection} {meta : FileMetadata}
    {video : VideoPick} {audio : AudioPick} {r : MergeResult}
    (h : mergeResult o u s meta video audio = .ok r) :
    r.filenameAttributes.youtubeFormat = some s.codec.name := by
  obtain ⟨res, ext, urls, hr, _⟩ := mergeResult_inv h
  subst hr
  rfl

theorem useHLS_av1 {o : Request} (h : o.codec = some Codec.av1) : o.useHLS = false := by
  unfold Request.useHLS
  cases o.youtubeHLS <;> simp [h]

/-- A MergeResult of the progressive path reports the family settled by the
codec fallback. -/
theorem merge_progressive_format {d : Nat} {o : Request} {w : World} {info : Info}
    {r : MergeResult} (hf : w.fetchVideoInfo = .returned info) (hu : o.useHLS = false)
    (h : youtube d o w = .ok (.merge r)) :
    ∃ s, sorted_formats o.itag info.adaptive_formats = .ok s ∧
      r.filenameAttributes.youtubeFormat =
        some (settleCodec s o.isAudioOnly (o.codec.getD Codec.h264)).name := by
  obtain ⟨info1, sel, hf1, _, hsel, hasm⟩ := youtube_media_inv h rfl
  rw [hf] at hf1
  cases hf1
  simp only [hu, Bool.false_eq_true, ↓reduceIte] at hsel
  obtain ⟨s, _, _, hs, hc, _⟩ := selectProgressive_selected hsel
  refine ⟨s, hs, ?_⟩
  obtain ⟨_, meta, audio, _, _, hcase⟩ := assemble_media_inv hasm rfl
  rcases hcase with ⟨_, hout⟩ | ⟨_, video, r1, _, hr, hout⟩
  · cases hout
  · cases hout
    rw [mergeResult_youtubeFormat hr, hc]

theorem settleCodec_av1 (s : SortedFormats) :
    settleCodec s false Codec.av1 =
      if (s.get Codec.av1).bestVideo.isSome then Codec.av1
      else if (s.get Codec.vp9).bestVideo.isSome then Codec.vp9
      else Codec.h264 := by
  unfold settleCodec noBestMedia
  cases h1 : (s.get Codec.av1).bestVideo.isSome <;>
  cases h2 : (s.get Codec.vp9).bestVideo.isSome <;> simp [h1, h2]

/-! ## C1: codec fallback from av1 -/

/-- C1: on the progressive path, for a request that is not audio-only and asks
for av1, when the pool has no usable av1 video: if it has a usable vp9 video,
the settled family is vp9 and every MergeResult reports `youtubeFormat` "vp9";
the settled family (and the family a MergeResult reports) is h264 only when no
usable vp9 video exists either. -/
theorem C1_av1_request_settles_vp9 (d : Nat) (o : Request) (w : World) (info : Info)
    (hf : w.fetchVideoInfo = .returned info)
    (hcodec : o.codec = some Codec.av1) (hvideo : o.isAudioOnly = false)
    (hav1 : ∀ f ∈ info.adaptive_formats, usableVideo o.itag Codec.av1 f = false) :
    (∀ s, sorted_formats o.itag info.adaptive_formats = .ok s →
      ((∃ f ∈ info.adaptive_formats, usableVideo o.itag Codec.vp9 f = true) →
        settleCodec s o.isAudioOnly (o.codec.getD Codec.h264) = Codec.vp9) ∧
      (settleCodec s o.isAudioOnly (o.codec.getD Codec.h264) = Codec.h264 →
        ∀ f ∈ info.adaptive_formats, usableVideo o.itag Codec.vp9 f = false)) ∧
    (∀ r, youtube d o w = .ok (.merge r) →
      ((∃ f ∈ info.adaptive_formats, usableVideo o.itag Codec.vp9 f = true) →
        r.filenameAttributes.youtubeFormat = some "vp9") ∧
      (r.filenameAttributes.youtubeFormat = some "h264" →
        ∀ f ∈ info.adaptive_formats, usableVideo o.itag Codec.vp9 f = false)) := by
  have key : ∀ s, sorted_formats o.itag info.adaptive_formats = .ok s →
      ((∃ f ∈ info.adaptive_formats, usableVideo o.itag Codec.vp9 f = true) →
        settleCodec s o.isAudioOnly (o.codec.getD Codec.h264) = Codec.vp9) ∧
      (settleCodec s o.isAudioOnly (o.codec.getD Codec.h264) = Codec.h264 →
        ∀ f ∈ info.adaptive_formats, usableVideo o.itag Codec.vp9 f = false) := by
    intro s hs
    have h1 : (s.get Codec.av1).bestVideo = none := (bestVideo_eq_none_iff hs Codec.av1).mpr hav1
    rw [hcodec, hvideo, Option.getD_some, settleCodec_av1, h1]
    simp only [Option.isSome_none, Bool.false_eq_true, ↓reduceIte]
    constructor
    · rintro ⟨f, hfm, hu⟩
      cases h2 : (s.get Codec.vp9).bestVideo with
      | none =>
        have := (bestVideo_eq_none_iff hs Codec.vp9).mp h2 f hfm
        rw [this] at hu
        exact absurd hu (by decide)
      | some v => simp
    · intro hh
      cases h2 : (s.get Codec.vp9).bestVideo with
      | none => exact (bestVideo_eq_none_iff hs Codec.vp9).mp h2
      | some v => simp [h2] at hh
  refine ⟨key, ?_⟩
  intro r hr
  obtain ⟨s, hs, hfmt⟩ := merge_progressive_format hf (useHLS_av1 hcodec) hr
  obtain ⟨k1, k2⟩ := key s hs
  constructor
  · intro hex
    rw [hfmt, k1 hex]
    rfl
  · intro hh
    apply k2
    rw [hfmt] at hh
    generalize settleCodec s o.isAudioOnly (o.codec.getD Codec.h264) = c at hh
    cases c
    · rfl
    · exact absurd hh (by decide)
    · exact absurd hh (by decide)

set_option maxRecDepth 100000 in
/-- Witness of C1: a pool with vp9 and h264 but no av1, asked for av1, gives a
MergeResult that reports vp9. -/
theorem C1_av1_request_settles_vp9_witness :
    (∀ f ∈ poolNoAv1, usableVideo none Codec.av1 f = false) ∧
    (∃ f ∈ poolNoAv1, usableVideo none Codec.vp9 f = true) ∧
    ∃ r, youtube 600 (baseRequest Codec.av1 1080) (worldOf (playableInfo poolNoAv1)) =
        .ok (.merge r) ∧ r.filenameAttributes.youtubeFormat = some "vp9" := by
  have hav1 : ∀ f ∈ poolNoAv1, usableVideo none Codec.av1 f = false := by decide
  have hvp9 : ∃ f ∈ poolNoAv1, usableVideo none Codec.vp9 f = true := by decide
  refine ⟨hav1, hvp9, _, rfl, ?_⟩
  exact ((C1_av1_request_settles_vp9 600 (baseRequest Codec.av1 1080)
    (worldOf (playableInfo poolNoAv1)) (playableInfo poolNoAv1) rfl rfl rfl hav1).2 _ rfl).1 hvp9

/-! ## C2: video selection inside the settled family -/

theorem head?_filter_sorted {l : List Format} {p : Format → Bool} {best : Format}
    (hs : l.Pairwise (fun a b => b.bitrate ≤ a.bitrate))
    (hb : (l.filter p).head? = some best) :
    best ∈ l.filter p ∧ ∀ v ∈ l.filter p, v.bitrate ≤ best.bitrate := by
  have hp : (l.filter p).Pairwise (fun a b => b.bitrate ≤ a.bitrate) := hs.filter p
  cases hl : l.filter p with
  | nil => simp [hl] at hb
  | cons x xs =>
    rw [hl] at hb hp
    simp only [List.head?_cons, Option.some.injEq] at hb
    subst hb
    refine ⟨List.mem_cons_self _ _, ?_⟩
    intro v hv
    rcases List.mem_cons.mp hv with rfl | hv
    · exact Nat.le_refl _
    · exact List.rel_of_pairwise_cons hp hv

/-- The best video of a family is a member of the family's video list with the
highest bitrate of the list. -/
theorem bestVideo_highest {itag : Option Itag} {l : List Format} {s : SortedFormats}
    (h : sorted_formats itag l = .ok s) {c : Codec} {best : Format}
    (hb : (s.get c).bestVideo = some best) :
    best ∈ (s.get c).video ∧ ∀ v ∈ (s.get c).video, v.bitrate ≤ best.bitrate := by
  obtain ⟨hv, _, hbv, _⟩ := sorted_formats_get h c
  rw [hbv] at hb
  rw [hv]
  exact head?_filter_sorted (sorted_sortByBitrate l) hb

/-- The best audio of a family is a member of the family's audio list with the
highest bitrate of the list. -/
theorem bestAudio_highest {itag : Option Itag} {l : List Format} {s : SortedFormats}
    (h : sorted_formats itag l = .ok s) {c : Codec} {best : Format}
    (hb : (s.get c).bestAudio = some best) :
    best ∈ (s.get c).audio ∧ ∀ v ∈ (s.get c).audio, v.bitrate ≤ best.bitrate := by
  obtain ⟨_, ha, _, hba⟩ := sorted_formats_get h c
  rw [hba] at hb
  rw [ha]
  exact head?_filter_sorted (sorted_sortByBitrate l) hb

/-- The three cases of `selectVideo`. -/
theorem selectVideo_cases {b : Bucket} {best : Format} (quality : Nat)
    (hb : b.bestVideo = some best) :
    ((∃ bq, qual best = some bq ∧ bq ≤ quality) → selectVideo b quality = .ok (some best)) ∧
    (¬ (∃ bq, qual best = some bq ∧ bq ≤ quality) →
      (∀ i, b.video.find? (fun i => decide (qual i = some quality)) = some i →
        selectVideo b quality = .ok (some i)) ∧
      (b.video.find? (fun i => decide (qual i = some quality)) = none →
        selectVideo b quality = .ok (some best))) := by
  unfold selectVideo
  rw [hb]
  simp only
  constructor
  · rintro ⟨bq, hq, hle⟩
    simp [hq, hle]
  · intro hno
    have hfalse : (match qual best with
        | some bestQuality => decide (quality ≥ bestQuality)
        | none => false) = false := by
      cases hq : qual best with
      | none => rfl
      | some bq =>
        simp only [ge_iff_le, decide_eq_false_iff_not]
        intro hle
        exact hno ⟨bq, hq, hle⟩
    rw [hfalse]
    constructor
    · intro i hi
      simp [hi]
    · intro hnone
      simp [hnone]

/-- C2 (amended): on the progressive path, for a request that is not
audio-only and whose selection completes, the settled family has a best video,
which is the member of highest bitrate of the family's video list, and the
selected video is: that best video when the requested quality is at least the
normalized tier of the best video; otherwise the first stream of the video
list whose normalized tier equals the requested quality, when there is one;
otherwise the best video. -/
theorem C2_video_selection (o : Request) (info : Info) (w : World) (sel : Selection)
    (hvideo : o.isAudioOnly = false)
    (h : selectProgressive o info w = .ok (.selected sel)) :
    ∃ s best, sorted_formats o.itag info.adaptive_formats = .ok s ∧
      sel.codec = settleCodec s o.isAudioOnly (o.codec.getD Codec.h264) ∧
      (s.get sel.codec).bestVideo = some best ∧
      best ∈ (s.get sel.codec).video ∧
      (∀ v ∈ (s.get sel.codec).video, v.bitrate ≤ best.bitrate) ∧
      ((∃ bq, qual best = some bq ∧ bq ≤ o.qualityNumber) →
        sel.video = some (.format best)) ∧
      (¬ (∃ bq, qual best = some bq ∧ bq ≤ o.qualityNumber) →
        (∃ i ∈ (s.get sel.codec).video, qual i = some o.qualityNumber) →
        ∃ v ∈ (s.get sel.codec).video, qual v = some o.qualityNumber ∧
          (s.get sel.codec).video.find? (fun i => decide (qual i = some o.qualityNumber)) = some v ∧
          sel.video = some (.format v)) ∧
      (¬ (∃ bq, qual best = some bq ∧ bq ≤ o.qualityNumber) →
        (∀ i ∈ (s.get sel.codec).video, qual i ≠ some o.qualityNumber) →
        sel.video = some (.format best)) := by
  obtain ⟨s, video, subtitles, hs, hc, hn, hv, _, hsv, _⟩ := selectProgressive_selected h
  have hbest : ∃ best, (s.get sel.codec).bestVideo = some best := by
    unfold noBestMedia at hn
    rw [hvideo] at hn
    cases hb : (s.get sel.codec).bestVideo with
    | none => simp [hb] at hn
    | some best => exact ⟨best, rfl⟩
  obtain ⟨best, hb⟩ := hbest
  obtain ⟨hmem, hmax⟩ := bestVideo_highest hs hb
  obtain ⟨k1, k2⟩ := selectVideo_cases o.qualityNumber hb
  have hstep : selectVideo (s.get sel.codec) o.qualityNumber = .ok video := by
    unfold videoStep at hv
    simpa [hvideo] using hv
  refine ⟨s, best, hs, hc, hb, hmem, hmax, ?_, ?_, ?_⟩
  · intro hq
    rw [k1 hq] at hstep
    cases hstep
    rw [hsv]; rfl
  · rintro hq ⟨i, hi, hqi⟩
    cases hfind : (s.get sel.codec).video.find? (fun i => decide (qual i = some o.qualityNumber)) with
    | none =>
      have := List.find?_eq_none.mp hfind i hi
      simp [hqi] at this
    | some v =>
      have hstep2 := (k2 hq).1 v hfind
      rw [hstep2] at hstep
      cases hstep
      refine ⟨v, List.mem_of_find?_eq_some hfind, ?_, rfl, by rw [hsv]; rfl⟩
      simpa using List.find?_some hfind
  · intro hq hall
    have hfind : (s.get sel.codec).video.find? (fun i => decide (qual i = some o.qualityNumber))
        = none := by
      rw [List.find?_eq_none]
      intro i hi
      simpa using hall i hi
    rw [(k2 hq).2 hfind] at hstep
    cases hstep
    rw [hsv]; rfl

set_option maxRecDepth 100000 in
/-- Counterexample to C2 as stated: the vp9 video list contains a stream of
the requested tier 1080, yet the selected video is the best one, of tier 720. -/
theorem C2_exact_tier_passed_over :
    ∃ s sel, sorted_formats none poolC2 = .ok s ∧
      selectProgressive (baseRequest Codec.vp9 1080) (playableInfo poolC2)
        (worldOf (playableInfo poolC2)) = .ok (.selected sel) ∧
      sel.codec = Codec.vp9 ∧
      exactC2 ∈ (s.get Codec.vp9).video ∧ qual exactC2 = some 1080 ∧
      sel.video = some (.format bestC2) ∧ qual bestC2 = some 720 := by
  refine ⟨_, _, rfl, rfl, rfl, ?_, ?_, rfl, ?_⟩ <;> decide

set_option maxRecDepth 100000 in
/-- Witness of C2 (amended): a vp9 request of quality 1080 on a pool with vp9
videos of tiers 2160, 1080 and 720. -/
theorem C2_video_selection_witness :
    ∃ sel, (baseRequest Codec.vp9 1080).isAudioOnly = false ∧
      selectProgressive (baseRequest Codec.vp9 1080) (playableInfo poolTiers)
        (worldOf (playableInfo poolTiers)) = .ok (.selected sel) ∧
      ∃ s best, sorted_formats (baseRequest Codec.vp9 1080).itag
          (playableInfo poolTiers).adaptive_formats = .ok s ∧
        sel.codec = settleCodec s (baseRequest Codec.vp9 1080).isAudioOnly
          ((baseRequest Codec.vp9 1080).codec.getD Codec.h264) ∧
        (s.get sel.codec).bestVideo = some best ∧
        best ∈ (s.get sel.codec).video ∧
        (∀ v ∈ (s.get sel.codec).video, v.bitrate ≤ best.bitrate) ∧
        ((∃ bq, qual best = some bq ∧ bq ≤ (baseRequest Codec.vp9 1080).qualityNumber) →
          sel.video = some (.format best)) ∧
        (¬ (∃ bq, qual best = some bq ∧ bq ≤ (baseRequest Codec.vp9 1080).qualityNumber) →
          (∃ i ∈ (s.get sel.codec).video, qual i = some (baseRequest Codec.vp9 1080).qualityNumber) →
          ∃ v ∈ (s.get sel.codec).video, qual v = some (baseRequest Codec.vp9 1080).qualityNumber ∧
            (s.get sel.codec).video.find?
              (fun i => decide (qual i = some (baseRequest Codec.vp9 1080).qualityNumber)) = some v ∧
            sel.video = some (.format v)) ∧
        (¬ (∃ bq, qual best = some bq ∧ bq ≤ (baseRequest Codec.vp9 1080).qualityNumber) →
          (∀ i ∈ (s.get sel.codec).video, qual i ≠ some (baseRequest Codec.vp9 1080).qualityNumber) →
          sel.video = some (.format best)) :=
  ⟨_, rfl, rfl, C2_video_selection (baseRequest Codec.vp9 1080) (playableInfo poolTiers)
    (worldOf (playableInfo poolTiers)) _ rfl rfl⟩

/-! ## The variant selection on well-formed manifests -/

theorem findE_eq_find? {α : Type} (p : α → Except JsError Bool) (q : α → Bool) :
    ∀ (l : List α), (∀ x ∈ l, p x = .ok (q x)) → findE p l = .ok (l.find? q)
  | [], _ => rfl
  | x :: xs, h => by
    have hx : p x = .ok (q x) := h x (List.mem_cons_self _ _)
    have ih := findE_eq_find? p q xs (fun y hy => h y (List.mem_cons_of_mem _ hy))
    cases hq : q x
    · simp [findE, hx, hq, ih]
    · simp [findE, hx, hq]

theorem matchHlsCodec_eq {codec : Codec} {v : Variant} (hc : codec ≠ Codec.av1)
    (hv : v.codecs.isSome = true) :
    matchHlsCodec codec v.codecs = .ok (variantMatches codec v) := by
  unfold matchHlsCodec variantMatches
  cases hcs : v.codecs with
  | none => simp [hcs] at hv
  | some cs => cases codec <;> first | exact absurd rfl hc | rfl

theorem preferredHls_eq {codec : Codec} {quality : Nat} {v : Variant} (hc : codec ≠ Codec.av1)
    (hv : v.codecs.isSome = true) (hr : v.resolution.isSome = true) :
    preferredHls codec quality v =
      .ok (variantMatches codec v && decide (variantTier v = some quality)) := by
  unfold preferredHls
  rw [matchHlsCodec_eq hc hv]
  cases hres : v.resolution with
  | none => simp [hres] at hr
  | some res => cases hm : variantMatches codec v <;> simp [variantTier, hres]

/-- On a manifest whose variants all carry codecs and a resolution, for a
requested family other than av1: when some variant matches the family, the
family is kept and the selected variant is the first one of the requested tier
if there is one and the first matching one otherwise; when none matches, the
family is h264 and the selected variant is the first h264 variant, if any. -/
theorem selectVariant_wellformed (codec : Codec) (quality : Nat) (variants : List Variant)
    (hc : codec ≠ Codec.av1)
    (hwf : ∀ v ∈ variants, v.codecs.isSome = true ∧ v.resolution.isSome = true) :
    selectVariant codec quality variants =
      .ok (match (variants.find? (fun v =>
                    variantMatches codec v && decide (variantTier v = some quality))).or
                  (variants.find? (variantMatches codec)) with
           | some selected => (some selected, codec)
           | none => (variants.find? (variantMatches Codec.h264), Codec.h264)) := by
  have h1 : findE (fun i => matchHlsCodec codec i.codecs) variants =
      .ok (variants.find? (variantMatches codec)) :=
    findE_eq_find? _ _ variants (fun v hv => matchHlsCodec_eq hc (hwf v hv).1)
  have h2 : findE (preferredHls codec quality) variants =
      .ok (variants.find? (fun v =>
        variantMatches codec v && decide (variantTier v = some quality))) :=
    findE_eq_find? _ _ variants (fun v hv => preferredHls_eq hc (hwf v hv).1 (hwf v hv).2)
  have h3 : findE (fun i => matchHlsCodec Codec.h264 i.codecs) variants =
      .ok (variants.find? (variantMatches Codec.h264)) :=
    findE_eq_find? _ _ variants (fun v hv => matchHlsCodec_eq (by decide) (hwf v hv).1)
  unfold selectVariant
  rw [h1, h2]
  simp only
  cases hp : variants.find? (fun v =>
      variantMatches codec v && decide (variantTier v = some quality)) with
  | some p => simp
  | none =>
    cases hb : variants.find? (variantMatches codec) with
    | some b => simp
    | none => simp [h3]

/-! ## C3: variant selection on the HLS path -/

set_option maxRecDepth 100000 in
/-- C3, the code at a failing input: a vp9 request of quality 720 on a manifest
with h264 variants of tiers 1080 and 720.  No variant matches vp9, the family
is forced to h264, and the h264 variant of tier 720 exists, yet the selected
variant is the one of highest bandwidth, of tier 1080: the search for the
requested tier is not repeated after the fallback. -/
theorem C3_fallback_ignores_requested_tier :
    getHlsVariants hlsInfo.hls_manifest_url (hlsWorld variantsH264).manifest =
      .ok (.variants [variant1080, variant720]) ∧
    findE (fun i => matchHlsCodec Codec.vp9 i.codecs) [variant1080, variant720] = .ok none ∧
    matchHlsCodec Codec.h264 variant720.codecs = .ok true ∧
    variant720.resolution.map normalizeQuality = some (some 720) ∧
    variant1080.resolution.map normalizeQuality = some (some 1080) ∧
    selectVariant Codec.vp9 720 [variant1080, variant720] = .ok (some variant1080, Codec.h264) ∧
    ∃ r, youtube 600 (hlsRequest Codec.vp9 720) (hlsWorld variantsH264) = .ok (.merge r) ∧
      r.filenameAttributes.youtubeFormat = some "h264" ∧
      r.filenameAttributes.qualityLabel = some "1080p" := by
  refine ⟨rfl, rfl, rfl, by decide, by decide, rfl, _, rfl, ?_, ?_⟩ <;> decide

/-! ## C4, C5, C6: the playability gates -/

theorem afterSwitch_none {d : Nat} {o : Request} {info : Info}
    (h : afterSwitch d o info = none) :
    info.playability_status.status = some "OK" ∧ truthyBool info.basic_info.is_live = false ∧
    info.basic_info.duration ≤ d ∧ info.basic_info.id = some o.id := by
  unfold afterSwitch at h
  split_ifs at h with h1 h2 h3 h4
  refine ⟨by simpa using h1, by simpa using h2, by omega, by simpa using h4⟩

theorem playabilityGate_none {d : Nat} {o : Request} {info : Info}
    (h : playabilityGate d o info = .ok none) :
    info.playability_status.status = some "OK" ∧ truthyBool info.basic_info.is_live = false ∧
    info.basic_info.duration ≤ d ∧ info.basic_info.id = some o.id := by
  unfold playabilityGate at h
  cases hs : statusSwitch info.playability_status with
  | error e => simp [hs] at h
  | ok r =>
    rw [hs] at h
    cases r with
    | some out1 => simp at h
    | none =>
      simp only [Except.ok.injEq] at h
      exact afterSwitch_none h

/-- An AudioResult or MergeResult is returned only for a record that passed
all the gates: status `OK`, not live, duration within the limit, and the
requested identifier. -/
theorem media_passes_gates {d : Nat} {o : Request} {w : World} {out : Outcome}
    (h : youtube d o w = .ok out) (hm : out.isMedia = true) :
    ∃ info, w.fetchVideoInfo = .returned info ∧
      info.playability_status.status = some "OK" ∧ truthyBool info.basic_info.is_live = false ∧
      info.basic_info.duration ≤ d ∧ info.basic_info.id = some o.id := by
  obtain ⟨info, sel, hf, hg, _, _⟩ := youtube_media_inv h hm
  exact ⟨info, hf, playabilityGate_none hg⟩

theorem statusSwitch_ok {p : PlayabilityStatus} (h : p.status = some "OK") :
    statusSwitch p = .ok none := by
  unfold statusSwitch
  rw [h]
  simp

/-- A record that fails a gate never reaches the selection: the outcome of the
call is the outcome of the gates. -/
theorem gate_short_circuits {d : Nat} {o : Request} {w : World} {info : Info}
    (hf : w.fetchVideoInfo = .returned info)
    (hv : info.playability_status.status ≠ some "OK" ∨ truthyBool info.basic_info.is_live = true ∨
      d < info.basic_info.duration ∨ info.basic_info.id ≠ some o.id) :
    (∃ e, playabilityGate d o info = .error e ∧ youtube d o w = .error e) ∨
    (∃ code critical, playabilityGate d o info = .ok (some (.error code critical)) ∧
      youtube d o w = .ok (.error code critical)) := by
  rw [youtube_returned hf]
  cases hg : playabilityGate d o info with
  | error e => exact Or.inl ⟨e, rfl, rfl⟩
  | ok g =>
    cases g with
    | none =>
      obtain ⟨h1, h2, h3, h4⟩ := playabilityGate_none hg
      rcases hv with hv | hv | hv | hv
      · exact absurd h1 hv
      · rw [h2] at hv; exact absurd hv (by decide)
      · omega
      · exact absurd h4 hv
    | some out =>
      have := playabilityGate_some_error hg
      cases out with
      | error code critical => exact Or.inr ⟨code, critical, rfl, rfl⟩
      | audio r => simp [Outcome.isMedia] at this
      | merge r => simp [Outcome.isMedia] at this

set_option maxRecDepth 100000 in
/-- C4, the code at a failing input: the record of a private video has status
`LOGIN_REQUIRED` and no field `reason`; it violates the condition "status is
OK", and the call raises a TypeError in the gate instead of returning an
ErrorResult. -/
theorem C4_private_video_raises :
    privateInfo.playability_status.status ≠ some "OK" ∧
    playabilityGate 600 (baseRequest Codec.h264 1080) privateInfo =
      .error (.typeError "playability.reason is undefined") ∧
    youtube 600 (baseRequest Codec.h264 1080) (worldOf privateInfo) =
      .error (.typeError "playability.reason is undefined") :=
  ⟨by decide, rfl, rfl⟩

/-- C5 (amended): for every fetched record with status `OK`, not live and of a
duration within the limit, whose identifier differs from the requested one,
the call returns the ErrorResult `fetch.fail` with `critical = true`. -/
theorem C5_identifier_mismatch_critical (d : Nat) (o : Request) (w : World) (info : Info)
    (hf : w.fetchVideoInfo = .returned info)
    (hstatus : info.playability_status.status = some "OK")
    (hlive : truthyBool info.basic_info.is_live = false)
    (hduration : info.basic_info.duration ≤ d)
    (hid : info.basic_info.id ≠ some o.id) :
    youtube d o w = .ok (.error "fetch.fail" true) := by
  rw [youtube_returned hf]
  have hg : playabilityGate d o info = .ok (some (.error "fetch.fail" true)) := by
    unfold playabilityGate
    rw [statusSwitch_ok hstatus]
    simp only [Except.ok.injEq]
    unfold afterSwitch
    rw [if_neg (by simpa using hstatus), if_neg (by simp [hlive]), if_neg (by omega), if_pos hid]
  rw [hg]

set_option maxRecDepth 100000 in
/-- Witness of C5 (amended): a playable record with the identifier `zzz`
returned for the request of `abc`. -/
theorem C5_identifier_mismatch_critical_witness :
    mismatchInfo.basic_info.id ≠ some (baseRequest Codec.h264 1080).id ∧
    youtube 600 (baseRequest Codec.h264 1080) (worldOf mismatchInfo) =
      .ok (.error "fetch.fail" true) :=
  ⟨by decide, C5_identifier_mismatch_critical 600 (baseRequest Codec.h264 1080)
    (worldOf mismatchInfo) mismatchInfo rfl rfl rfl (by decide) (by decide)⟩

set_option maxRecDepth 100000 in
/-- Counterexample to C5 as stated: two records whose identifier differs from
the requested one, one with status `ERROR` and one live, get the ErrorResults
`content.video.unavailable` and `content.video.live`, not flagged critical. -/
theorem C5_mismatch_not_critical :
    stubInfo.basic_info.id ≠ some (baseRequest Codec.h264 1080).id ∧
    youtube 600 (baseRequest Codec.h264 1080) (worldOf stubInfo) =
      .ok (.error "content.video.unavailable" false) ∧
    liveStubInfo.basic_info.id ≠ some (baseRequest Codec.h264 1080).id ∧
    youtube 600 (baseRequest Codec.h264 1080) (worldOf liveStubInfo) =
      .ok (.error "content.video.live" false) :=
  ⟨by decide, rfl, by decide, rfl⟩

set_option maxRecDepth 100000 in
/-- C6, the code at failing inputs: the call raises a TypeError, and returns no
outcome, for a record with status `LOGIN_REQUIRED` and no reason, for a
playable record without title, for one without author, for a pool with a
descriptor that has a content length and no MIME type, and on the HLS path for
an audio rendition without name when no rendition is flagged default. -/
theorem C6_resolution_call_raises :
    youtube 600 (baseRequest Codec.h264 1080) (worldOf loginInfo) =
      .error (.typeError "playability.reason is undefined") ∧
    youtube 600 (baseRequest Codec.h264 1080) (worldOf untitledInfo) =
      .error (.typeError "basicInfo.title is undefined") ∧
    youtube 600 (baseRequest Codec.h264 1080) (worldOf anonymousInfo) =
      .error (.typeError "basicInfo.author is undefined") ∧
    youtube 600 (baseRequest Codec.h264 1080)
        (worldOf (playableInfo (mimelessFormat :: poolNoAv1))) =
      .error (.typeError "format.mime_type is undefined") ∧
    youtube 600 (hlsRequest Codec.h264 1080) (hlsWorld variantsNameless) =
      .error (.typeError "i.name is undefined") :=
  ⟨rfl, rfl, rfl, rfl, rfl⟩

/-! ## C9: no usable stream -/

/-- A request that passes the gates on the progressive path, on a pool in
which no descriptor raises and no family has a usable stream, gets the
ErrorResult `youtube.no_matching_format`. -/
theorem no_usable_stream_no_matching_format (d : Nat) (o : Request) (w : World) (info : Info)
    (hf : w.fetchVideoInfo = .returned info) (hg : playabilityGate d o info = .ok none)
    (hu : o.useHLS = false)
    (hr : ∀ f ∈ info.adaptive_formats, raises f = false)
    (hnone : ∀ c, ∀ f ∈ info.adaptive_formats,
      usableVideo o.itag c f = false ∧ usableAudio o.itag c f = false) :
    youtube d o w = .ok (.error "youtube.no_matching_format" false) := by
  obtain ⟨s, hs⟩ := sorted_formats_total o.itag info.adaptive_formats hr
  have hv : ∀ c, (s.get c).bestVideo = none := fun c =>
    (bestVideo_eq_none_iff hs c).mpr (fun f hfm => (hnone c f hfm).1)
  have ha : ∀ c, (s.get c).bestAudio = none := fun c =>
    (bestAudio_eq_none_iff hs c).mpr (fun f hfm => (hnone c f hfm).2)
  have hno : ∀ c, noBestMedia s o.isAudioOnly c = true := by
    intro c
    unfold noBestMedia
    rw [hv c, ha c]
    cases o.isAudioOnly <;> rfl
  rw [youtube_returned hf, hg]
  simp only [hu, Bool.false_eq_true, ↓reduceIte]
  unfold selectProgressive
  rw [hs]
  simp only [hno, ↓reduceIte]
  rfl

/-- The empty pool: a request that passes the gates on the progressive path
gets the ErrorResult `youtube.no_matching_format`. -/
theorem empty_pool_no_matching_format (d : Nat) (o : Request) (w : World) (info : Info)
    (hf : w.fetchVideoInfo = .returned info) (hg : playabilityGate d o info = .ok none)
    (hu : o.useHLS = false) (hempty : info.adaptive_formats = []) :
    youtube d o w = .ok (.error "youtube.no_matching_format" false) :=
  no_usable_stream_no_matching_format d o w info hf hg hu (by simp [hempty]) (by simp [hempty])

set_option maxRecDepth 100000 in
/-- C9, the code at a failing input: the pool holds one descriptor, with a
content length and without MIME type.  The request passes the gates, no family
has a usable stream, and the call raises a TypeError instead of returning
`youtube.no_matching_format`. -/
theorem C9_mimeless_descriptor_raises :
    playabilityGate 600 (baseRequest Codec.h264 1080) (playableInfo [mimelessFormat]) = .ok none ∧
    (baseRequest Codec.h264 1080).useHLS = false ∧
    (∀ c, ∀ f ∈ [mimelessFormat], usableVideo none c f = false ∧ usableAudio none c f = false) ∧
    youtube 600 (baseRequest Codec.h264 1080) (worldOf (playableInfo [mimelessFormat])) =
      .error (.typeError "format.mime_type is undefined") := by
  refine ⟨rfl, rfl, ?_, rfl⟩
  intro c
  cases c <;> decide

/-! ## C7: dub override -/

theorem startsWith_ne_empty {l d : String} (hd : d ≠ "") (h : startsWith l d = true) :
    l ≠ "" := by
  intro hl
  subst hl
  unfold startsWith at h
  have : d.data ≠ [] := by
    intro hdata
    apply hd
    cases d
    simp_all
  cases hdd : d.data with
  | nil => exact this hdd
  | cons c cs =>
    rw [hdd] at h
    simp [List.isPrefixOf] at h

theorem truthyStr_some {d : String} (hd : d ≠ "") : truthyStr (some d) = true := by
  simp [truthyStr, hd]

/-- C7 (amended): for every non-empty dub-language preference `d`.  On the
progressive path: if the first stream of the audio list whose language starts
with `d` is not flagged original, the selected audio is that stream, its
language starts with `d` and is recorded as the dubbed language; if it is
flagged original, or no stream matches, the selected audio is the same as with
no preference and no dubbed language is recorded.  On the HLS path, where the
track selected without preference is the one flagged default or, when none is
flagged, the one found by its name: if the first track whose language starts
with `d` is not flagged default and is not the track selected without
preference, the selected audio is that track and its language is recorded; if
it is flagged default, or no track matches, the selected audio is the same as
with no preference and no dubbed language is recorded.  A recorded language is
repeated by `youtubeDubName`, which is false when none is recorded.  Nothing is
said of an HLS pool whose first matching track is the one found by its name. -/
theorem C7_dub_override (d : String) (hd : d ≠ "") :
    (∀ (b : Bucket),
      (∀ t, dubbedFormat b d = some t → t.is_original = false →
        selectAudio b (some d) = (some t, t.language) ∧
        ∃ l, t.language = some l ∧ startsWith l d = true ∧ l ≠ "") ∧
      ((dubbedFormat b d = none ∨ ∃ t, dubbedFormat b d = some t ∧ t.is_original = true) →
        selectAudio b (some d) = selectAudio b none ∧ (selectAudio b none).2 = none)) ∧
    (∀ (pool : List Rendition) (audio : Option Rendition), defaultRendition pool = .ok audio →
      (∀ t, dubbedRendition pool d = some t → t.isDefault = false → audio ≠ some t →
        selectHlsAudio pool (some d) = .ok (some t, t.language) ∧
        ∃ l, t.language = some l ∧ startsWith l d = true ∧ l ≠ "") ∧
      ((dubbedRendition pool d = none ∨ ∃ t, dubbedRendition pool d = some t ∧ t.isDefault = true) →
        selectHlsAudio pool (some d) = selectHlsAudio pool none ∧
        selectHlsAudio pool none = .ok (audio, none))) ∧
    (∀ (o : Request) (meta : FileMetadata) (s : Selection),
      (s.dubbedLanguage = none → (filenameAttributesOf o meta s).youtubeDubName = none) ∧
      (∀ l, s.dubbedLanguage = some l → l ≠ "" →
        (filenameAttributesOf o meta s).youtubeDubName = some l)) := by
  refine ⟨?_, ?_, ?_⟩
  · intro b
    constructor
    · intro t ht horig
      constructor
      · simp [selectAudio, truthyStr_some hd, ht, horig]
      · have hp := List.find?_some ht
        simp only [Bool.and_eq_true] at hp
        cases hl : t.language with
        | none => simp [hl] at hp
        | some l =>
          simp only [hl] at hp
          exact ⟨l, rfl, hp.1, startsWith_ne_empty hd hp.1⟩
    · intro h
      constructor
      · rcases h with h | ⟨t, ht, horig⟩
        · simp [selectAudio, truthyStr_some hd, h, truthyStr]
        · simp [selectAudio, truthyStr_some hd, ht, horig, truthyStr]
      · simp [selectAudio, truthyStr]
  · intro pool audio haudio
    constructor
    · intro t ht hdef _
      constructor
      · simp [selectHlsAudio, haudio, truthyStr_some hd, ht, hdef]
      · have hp := List.find?_some ht
        cases hl : t.language with
        | none => simp [hl] at hp
        | some l =>
          simp only [hl] at hp
          exact ⟨l, rfl, hp, startsWith_ne_empty hd hp⟩
    · intro h
      constructor
      · rcases h with h | ⟨t, ht, hdef⟩
        · simp [selectHlsAudio, haudio, truthyStr_some hd, h, truthyStr]
        · simp [selectHlsAudio, haudio, truthyStr_some hd, ht, hdef, truthyStr]
      · simp [selectHlsAudio, haudio, truthyStr]
  · intro o meta s
    constructor
    · intro h
      simp [filenameAttributesOf, h, truthyStr]
    · intro l h hl
      simp [filenameAttributesOf, h, truthyStr, hl]

set_option maxRecDepth 100000 in
/-- Witness of C7 (amended), the example of the specification: a default track
`en` and a track `es`.  With the preference `es` the track `es` is selected and
`es` is recorded; with the preference `en` the selection is the one made
without preference and nothing is recorded. -/
theorem C7_dub_override_witness :
    "es" ≠ "" ∧ "en" ≠ "" ∧
    selectAudio bucketEnEs (some "es") = (some (dubbedTrack "es" 120), some "es") ∧
    selectHlsAudio renditionsEnEs (some "es") = .ok (some (dubRendition "Spanish" "es"), some "es") ∧
    (selectAudio bucketEnEs (some "en") = selectAudio bucketEnEs none ∧
      (selectAudio bucketEnEs none).2 = none) ∧
    (selectHlsAudio renditionsEnEs (some "en") = selectHlsAudio renditionsEnEs none ∧
      selectHlsAudio renditionsEnEs none = .ok (some defaultRenditionEn, none)) :=
  ⟨by decide, by decide,
    (((C7_dub_override "es" (by decide)).1 bucketEnEs).1 (dubbedTrack "es" 120) rfl rfl).1,
    (((C7_dub_override "es" (by decide)).2.1 renditionsEnEs (some defaultRenditionEn) rfl).1
      (dubRendition "Spanish" "es") rfl rfl (by decide)).1,
    ((C7_dub_override "en" (by decide)).1 bucketEnEs).2
      (Or.inr ⟨originalTrack "en" 130, rfl, rfl⟩),
    ((C7_dub_override "en" (by decide)).2.1 renditionsEnEs (some defaultRenditionEn) rfl).2
      (Or.inr ⟨defaultRenditionEn, rfl, rfl⟩)⟩

set_option maxRecDepth 100000 in
/-- Counterexample to C7 as stated: the pool contains a track `en-GB`, whose
language starts with the preference `en` and which is not the default/original
track, yet no dubbed language is recorded, on either path: the search stops at
the default/original track `en`, which comes first. -/
theorem C7_later_dub_not_recorded :
    dubRendition "British" "en-GB" ∈ renditionsEnEnGb ∧
    (dubRendition "British" "en-GB").language.map (fun l => startsWith l "en") = some true ∧
    (dubRendition "British" "en-GB").isDefault = false ∧
    selectHlsAudio renditionsEnEnGb (some "en") = .ok (some defaultRenditionEn, none) ∧
    dubbedTrack "en-GB" 120 ∈ bucketEnEnGb.audio ∧
    (dubbedTrack "en-GB" 120).language.map (fun l => startsWith l "en") = some true ∧
    (dubbedTrack "en-GB" 120).is_original = false ∧
    selectAudio bucketEnEnGb (some "en") = (some (originalTrack "en" 130), none) :=
  ⟨by decide, by decide, by decide, rfl, by decide, by decide, by decide, rfl⟩

set_option maxRecDepth 100000 in
/-- On an HLS pool without default flag, the track selected without preference
is the one found by its name; asked for its own language, it is found again by
the dub search, and since the dub guard looks at the flag only, its language is
recorded as a dubbed language. -/
theorem named_original_recorded_as_dub :
    (∀ r ∈ renditionsNamedOriginal, r.isDefault = false) ∧
    selectHlsAudio renditionsNamedOriginal none =
      .ok (some (dubRendition "English original" "en"), none) ∧
    selectHlsAudio renditionsNamedOriginal (some "en") =
      .ok (some (dubRendition "English original" "en"), some "en") :=
  ⟨by decide, rfl, rfl⟩

/-! ## C8: the default track of an HLS pool -/

theorem findE_append_hit {α : Type} (p : α → Except JsError Bool) (pre post : List α) (t : α)
    (hpre : ∀ r ∈ pre, p r = .ok false) (ht : p t = .ok true) :
    findE p (pre ++ t :: post) = .ok (some t) := by
  induction pre with
  | nil => simp [findE, ht]
  | cons x xs ih =>
    have hx : p x = .ok false := hpre x (List.mem_cons_self _ _)
    simp only [List.cons_append, findE, hx]
    exact ih (fun r hr => hpre r (List.mem_cons_of_mem _ hr))

/-- C8 (amended): on the HLS path with no dub preference, for every audio pool
in which no track is flagged default, the selected audio is the first track
whose name ends with `original`, the tracks before it having names that do not
end so. -/
theorem C8_original_by_name (pre post : List Rendition) (t : Rendition) (n : String)
    (hnodefault : ∀ r ∈ pre ++ t :: post, r.isDefault = false)
    (hpre : ∀ r ∈ pre, ∃ m, r.name = some m ∧ endsWith m "original" = false)
    (hname : t.name = some n) (hends : endsWith n "original" = true) :
    selectHlsAudio (pre ++ t :: post) none = .ok (some t, none) := by
  have hfind : (pre ++ t :: post).find? (fun i => i.isDefault) = none := by
    rw [List.find?_eq_none]
    intro r hr
    simp [hnodefault r hr]
  have hdef : defaultRendition (pre ++ t :: post) = .ok (some t) := by
    unfold defaultRendition
    rw [hfind]
    simp only
    apply findE_append_hit
    · intro r hr
      obtain ⟨m, hm, he⟩ := hpre r hr
      simp [hm, he]
    · simp [hname, hends]
  simp [selectHlsAudio, hdef, truthyStr]

set_option maxRecDepth 100000 in
/-- Witness of C8 (amended): a pool without default track in which the track
named `Song Title original` comes after a track named `Spanish`. -/
theorem C8_original_by_name_witness :
    selectHlsAudio renditionsOriginal none =
      .ok (some (dubRendition "Song Title original" "en"), none) :=
  C8_original_by_name [dubRendition "Spanish" "es"] [] (dubRendition "Song Title original" "en")
    "Song Title original" (by decide) (by decide) rfl (by decide)

set_option maxRecDepth 100000 in
/-- Counterexample to C8 as stated: in a pool without default track whose one
track is named `Song Title (original)`, the name ends with a parenthesis and
not with `original`; no audio is selected and the call ends with
`youtube.no_matching_format`. -/
theorem C8_parenthesized_name_unresolved :
    (∀ r ∈ renditionsParenthesized, r.isDefault = false) ∧
    (dubRendition "Song Title (original)" "en").name = some "Song Title (original)" ∧
    endsWith "Song Title (original)" "original" = false ∧
    selectHlsAudio renditionsParenthesized none = .ok (none, none) ∧
    youtube 600 { hlsRequest Codec.h264 1080 with isAudioOnly := true }
        (hlsWorld [h264Variant 5000 1920 1080 renditionsParenthesized]) =
      .ok (.error "youtube.no_matching_format" false) ∧
    youtube 600 (hlsRequest Codec.h264 1080)
        (hlsWorld [h264Variant 5000 1920 1080 renditionsParenthesized]) =
      .ok (.error "youtube.no_matching_format" false) :=
  ⟨by decide, rfl, by decide, rfl, rfl, rfl⟩

/-! ## C10: the DRM gate -/

/-- C10: for a request that passed the playability gates and whose selection
branch completed with a selection, if the selected video or the selected audio
is a descriptor that carries `drm_families`, the call returns the ErrorResult
`youtube.drm`, hence neither an AudioResult nor a MergeResult. -/
theorem C10_drm_gate (d : Nat) (o : Request) (w : World) (info : Info) (sel : Selection)
    (hf : w.fetchVideoInfo = .returned info)
    (hg : playabilityGate d o info = .ok none)
    (hsel : (if o.useHLS then selectHls o info w else selectProgressive o info w) =
      .ok (.selected sel))
    (hdrm : (∃ f, sel.video = some (.format f) ∧ f.drm_families.isSome = true) ∨
      (∃ f, sel.audio = some (.format f) ∧ f.drm_families.isSome = true)) :
    youtube d o w = .ok (.error "youtube.drm" false) ∧
    ∀ out, youtube d o w = .ok out → out.isMedia = false := by
  have hp : drmProtected sel = true := by
    unfold drmProtected
    rcases hdrm with ⟨f, hv, hfd⟩ | ⟨f, ha, hfd⟩
    · simp [hv, VideoPick.drm, hfd]
    · simp [ha, AudioPick.drm, hfd]
  have hy : youtube d o w = .ok (.error "youtube.drm" false) := by
    rw [youtube_returned hf, hg]
    simp only
    rw [hsel]
    simp only
    unfold assemble
    rw [if_pos hp]
    rfl
  refine ⟨hy, ?_⟩
  intro out hout
  rw [hy] at hout
  cases hout
  rfl

set_option maxRecDepth 100000 in
/-- Witness of C10: a vp9 request on a pool whose vp9 video carries a DRM-family
marker. -/
theorem C10_drm_gate_witness :
    ∃ sel, selectProgressive (baseRequest Codec.vp9 1080) (playableInfo poolDrm)
        (worldOf (playableInfo poolDrm)) = .ok (.selected sel) ∧
      sel.video = some (.format drmVideo) ∧ drmVideo.drm_families.isSome = true ∧
      youtube 600 (baseRequest Codec.vp9 1080) (worldOf (playableInfo poolDrm)) =
        .ok (.error "youtube.drm" false) :=
  ⟨_, rfl, rfl, rfl,
    (C10_drm_gate 600 (baseRequest Codec.vp9 1080) (worldOf (playableInfo poolDrm))
      (playableInfo poolDrm) _ rfl rfl rfl (Or.inl ⟨drmVideo, rfl, rfl⟩)).1⟩

/-! ## C11: the quality normalizer -/

/-- C11: for all natural numbers `w` and `h` whose minimum is at most 4320,
`normalizeQuality` returns the smallest tier of `videoQualities` that is at
least the minimum; in particular 1920x1080 gives 1080 and 3840x2160 gives 2160. -/
theorem C11_normalizeQuality_smallest_tier (w h : Nat) (hmin : min w h ≤ 4320) :
    (∃ t, normalizeQuality { width := some w, height := some h } = some t ∧
      t ∈ videoQualities ∧ min w h ≤ t ∧ ∀ u ∈ videoQualities, min w h ≤ u → t ≤ u) ∧
    normalizeQuality { width := some 1920, height := some 1080 } = some 1080 ∧
    normalizeQuality { width := some 3840, height := some 2160 } = some 2160 := by
  refine ⟨?_, by decide, by decide⟩
  have hm : min h w = min w h := Nat.min_comm h w
  simp only [normalizeQuality, videoQualities, hm]
  generalize min w h = m at hmin
  simp only [List.find?, ge_iff_le, List.mem_cons, List.mem_singleton, forall_eq_or_imp, forall_eq]
  by_cases h1 : m ≤ 144
  · exact ⟨144, by simp [h1], by simp, h1, by simp only [List.not_mem_nil, false_imp_iff, implies_true, and_true]; omega⟩
  by_cases h2 : m ≤ 240
  · exact ⟨240, by simp [h1, h2], by simp, h2, by simp only [List.not_mem_nil, false_imp_iff, implies_true, and_true]; omega⟩
  by_cases h3 : m ≤ 360
  · exact ⟨360, by simp [h1, h2, h3], by simp, h3, by simp only [List.not_mem_nil, false_imp_iff, implies_true, and_true]; omega⟩
  by_cases h4 : m ≤ 480
  · exact ⟨480, by simp [h1, h2, h3, h4], by simp, h4, by simp only [List.not_mem_nil, false_imp_iff, implies_true, and_true]; omega⟩
  by_cases h5 : m ≤ 720
  · exact ⟨720, by simp [h1, h2, h3, h4, h5], by simp, h5, by simp only [List.not_mem_nil, false_imp_iff, implies_true, and_true]; omega⟩
  by_cases h6 : m ≤ 1080
  · exact ⟨1080, by simp [h1, h2, h3, h4, h5, h6], by simp, h6, by simp only [List.not_mem_nil, false_imp_iff, implies_true, and_true]; omega⟩
  by_cases h7 : m ≤ 1440
  · exact ⟨1440, by simp [h1, h2, h3, h4, h5, h6, h7], by simp, h7, by simp only [List.not_mem_nil, false_imp_iff, implies_true, and_true]; omega⟩
  by_cases h8 : m ≤ 2160
  · exact ⟨2160, by simp [h1, h2, h3, h4, h5, h6, h7, h8], by simp, h8, by simp only [List.not_mem_nil, false_imp_iff, implies_true, and_true]; omega⟩
  · exact ⟨4320, by simp [h1, h2, h3, h4, h5, h6, h7, h8, hmin], by simp, hmin, by simp only [List.not_mem_nil, false_imp_iff, implies_true, and_true]; omega⟩

/-- Witness of C11: a stream of 1270x710 is of tier 720. -/
theorem C11_normalizeQuality_smallest_tier_witness :
    min 1270 710 ≤ 4320 ∧
    ∃ t, normalizeQuality { width := some 1270, height := some 710 } = some t ∧
      t ∈ videoQualities ∧ min 1270 710 ≤ t ∧ ∀ u ∈ videoQualities, min 1270 710 ≤ u → t ≤ u :=
  ⟨by decide, (C11_normalizeQuality_smallest_tier 1270 710 (by decide)).1⟩

/-! ## C13: live content -/

/-- C13: for every fetched record with status `OK` and live flag true, the call
returns the ErrorResult `content.video.live`, whatever the duration, the
returned identifier and the request are. -/
theorem C13_live_unsupported (d : Nat) (o : Request) (w : World) (info : Info)
    (hf : w.fetchVideoInfo = .returned info)
    (hstatus : info.playability_status.status = some "OK")
    (hlive : info.basic_info.is_live = some true) :
    youtube d o w = .ok (.error "content.video.live" false) := by
  rw [youtube_returned hf]
  have hg : playabilityGate d o info = .ok (some (.error "content.video.live" false)) := by
    unfold playabilityGate
    rw [statusSwitch_ok hstatus]
    simp only [Except.ok.injEq]
    unfold afterSwitch
    rw [if_neg (by simpa using hstatus), if_pos (by simp [hlive, truthyBool])]
    rfl
  rw [hg]

set_option maxRecDepth 100000 in
/-- Witness of C13: a live record whose duration exceeds the limit. -/
theorem C13_live_unsupported_witness :
    liveInfo.basic_info.duration > 600 ∧
    youtube 600 (baseRequest Codec.h264 1080) (worldOf liveInfo) =
      .ok (.error "content.video.live" false) :=
  ⟨by decide, C13_live_unsupported 600 (baseRequest Codec.h264 1080) (worldOf liveInfo) liveInfo
    rfl rfl rfl⟩

/-! ## C14: the AudioResult -/

theorem sorted_formats_bucketOf {itag : Option Itag} {l : List Format} {s : SortedFormats}
    (h : sorted_formats itag l = .ok s) (c : Codec) : s.get c = bucketOf itag c l := by
  obtain ⟨e, _⟩ := pushFormats_ok h
  rw [e c]
  cases c <;> rfl

theorem selectHls_selected_codec {o : Request} {info : Info} {w : World} {sel : Selection}
    (h : selectHls o info w = .ok (.selected sel)) :
    ∃ variants selected audio,
      getHlsVariants info.hls_manifest_url w.manifest = .ok (.variants variants) ∧
      selectVariant (o.codec.getD Codec.h264) o.qualityNumber variants =
        .ok (some selected, sel.codec) ∧
      selectHlsAudio selected.audio o.dubLang = .ok (audio, sel.dubbedLanguage) ∧
      sel.video = some (.variant { selected with audio := [], subtitles := [] }) ∧
      sel.audio = audio.map AudioPick.rendition ∧ sel.subtitles = none := by
  unfold selectHls at h
  cases hv : getHlsVariants info.hls_manifest_url w.manifest with
  | error e => simp [hv] at h
  | ok r =>
    cases r with
    | error code => simp [hv] at h
    | variants variants =>
      simp only [hv] at h
      cases hs : selectVariant (o.codec.getD Codec.h264) o.qualityNumber variants with
      | error e => simp [hs] at h
      | ok p =>
        obtain ⟨v, c⟩ := p
        cases v with
        | none => simp [hs] at h
        | some selected =>
          simp only [hs] at h
          cases ha : selectHlsAudio selected.audio o.dubLang with
          | error e => simp [ha] at h
          | ok q =>
            obtain ⟨audio, dub⟩ := q
            simp only [ha, Except.ok.injEq, Step.selected.injEq] at h
            subst h
            exact ⟨variants, selected, audio, rfl, hs, ha, rfl, rfl, rfl⟩

/-- C14: for every request that yields an AudioResult, the request is
audio-only and the container hint `bestAudio` is `mp3` when the HLS path was
used, and otherwise `m4a` when the settled family is h264 and `opus` for any
other settled family; the cover is the max-resolution thumbnail address when
its probe succeeds and the address of the first reported thumbnail
otherwise. -/
theorem C14_audio_result (d : Nat) (o : Request) (w : World) (r : AudioResult)
    (h : youtube d o w = .ok (.audio r)) :
    o.isAudioOnly = true ∧
    (o.useHLS = true → r.bestAudio = "mp3") ∧
    (o.useHLS = false → ∃ info s, w.fetchVideoInfo = .returned info ∧
      sorted_formats o.itag info.adaptive_formats = .ok s ∧
      (settleCodec s o.isAudioOnly (o.codec.getD Codec.h264) = Codec.h264 →
        r.bestAudio = "m4a") ∧
      (settleCodec s o.isAudioOnly (o.codec.getD Codec.h264) ≠ Codec.h264 →
        r.bestAudio = "opus")) ∧
    (w.maxCover = true →
      r.cover = some ("https://i.ytimg.com/vi/" ++ o.id ++ "/maxresdefault.jpg")) ∧
    (w.maxCover = false → ∃ info, w.fetchVideoInfo = .returned info ∧
      r.cover = match info.basic_info.thumbnail with
        | some (first :: _) => first.url
        | _ => none) := by
  obtain ⟨info, sel, hf, _, hsel, hasm⟩ := youtube_media_inv h rfl
  obtain ⟨_, meta, audio, _, _, hcase⟩ := assemble_media_inv hasm rfl
  rcases hcase with ⟨hao, hout⟩ | ⟨_, video, r1, _, _, hout⟩
  · simp only [Outcome.audio.injEq] at hout
    subst hout
    refine ⟨hao, ?_, ?_, ?_, ?_⟩
    · intro hu
      simp [audioResult, hu]
    · intro hu
      simp only [hu, Bool.false_eq_true, ↓reduceIte] at hsel
      obtain ⟨s, _, _, hs, hc, _⟩ := selectProgressive_selected hsel
      refine ⟨info, s, hf, hs, ?_, ?_⟩
      · intro hh
        simp [audioResult, hu, hc, hh]
      · intro hh
        simp [audioResult, hu, hc, hh]
    · intro hm
      simp [audioResult, hm]
    · intro hm
      refine ⟨info, hf, ?_⟩
      simp only [audioResult, hm, Bool.false_eq_true, ↓reduceIte]
  · cases hout

theorem settleCodec_h264 (s : SortedFormats) (a : Bool) :
    settleCodec s a Codec.h264 = Codec.h264 := by
  unfold settleCodec
  cases noBestMedia s a Codec.h264 <;> simp

set_option maxRecDepth 100000 in
/-- Witness of C14, the example of the specification: an audio-only request
with codec h264 on the progressive path yields an AudioResult with the
container hint `m4a`. -/
theorem C14_audio_result_witness :
    ∃ r, youtube 600 (audioRequest Codec.h264) (worldOf (playableInfo poolNoAv1)) =
        .ok (.audio r) ∧ r.bestAudio = "m4a" := by
  refine ⟨_, rfl, ?_⟩
  have H := (C14_audio_result 600 (audioRequest Codec.h264)
    (worldOf (playableInfo poolNoAv1)) _ rfl).2.2.1 rfl
  obtain ⟨info, s, _, _, hm, _⟩ := H
  exact hm (settleCodec_h264 s true)

/-! ## C18: the partition of the pool -/

theorem usableVideo_iff (itag : Option Itag) (c : Codec) (f : Format) :
    usableVideo itag c f = true ↔
      f.has_video = true ∧ truthyStr f.content_length = true ∧
      (∃ mime, f.mime_type = some mime ∧
        (includes mime (codecList c).videoCodec = true ∨
          includes mime (codecList c).audioCodec = true)) ∧
      matchingItag itag f Slot.video = true := by
  unfold usableVideo goodFormat
  cases hm : f.mime_type with
  | none => simp
  | some mime => simp [Bool.and_eq_true, Bool.or_eq_true]; tauto

theorem usableAudio_iff (itag : Option Itag) (c : Codec) (f : Format) :
    usableAudio itag c f = true ↔
      f.has_audio = true ∧ truthyStr f.content_length = true ∧
      (∃ mime, f.mime_type = some mime ∧
        (includes mime (codecList c).videoCodec = true ∨
          includes mime (codecList c).audioCodec = true)) ∧
      matchingItag itag f Slot.audio = true := by
  unfold usableAudio goodFormat
  cases hm : f.mime_type with
  | none => simp
  | some mime => simp [Bool.and_eq_true, Bool.or_eq_true]; tauto

theorem filter_sorted_facts (l : List Format) (p : Format → Bool) :
    ((sortByBitrate l).filter p).Perm (l.filter p) ∧
    ((sortByBitrate l).filter p).Pairwise (fun a b => b.bitrate ≤ a.bitrate) ∧
    (((sortByBitrate l).filter p).head? = none ↔ (sortByBitrate l).filter p = []) ∧
    (∀ b, ((sortByBitrate l).filter p).head? = some b →
      b ∈ (sortByBitrate l).filter p ∧
      ∀ v ∈ (sortByBitrate l).filter p, v.bitrate ≤ b.bitrate) :=
  ⟨(List.perm_insertionSort _ l).filter p, (sorted_sortByBitrate l).filter p,
    List.head?_eq_none_iff, fun _ hb => head?_filter_sorted (sorted_sortByBitrate l) hb⟩

theorem truthyStr_iff (x : Option String) :
    truthyStr x = true ↔ ∃ len, x = some len ∧ len ≠ "" := by
  cases x with
  | none => simp [truthyStr]
  | some v => simp [truthyStr]

theorem pin_test_iff (p : Option Nat) (f : Format) :
    (!truthyNat p || decide (p = f.itag)) = true ↔ ∀ n, p = some n → n ≠ 0 → f.itag = some n := by
  cases p with
  | none => simp [truthyNat]
  | some m =>
    by_cases hm : m = 0
    · subst hm
      simp [truthyNat]
    · constructor
      · intro h n hn _
        cases hn
        have hb : (m != 0) = true := by simp [hm]
        simp only [truthyNat, hb, Bool.not_true, Bool.false_or, decide_eq_true_eq] at h
        exact h.symm
      · intro h
        have := h m rfl hm
        simp [truthyNat, hm, this]

theorem count_of_perm_filter {l pool : List Format} {p : Format → Bool}
    (h : l.Perm (pool.filter p)) : ∀ f ∈ l, l.count f = pool.count f := by
  intro f hf
  have hp : p f = true := (List.mem_filter.mp (h.mem_iff.mp hf)).2
  rw [h.count_eq, List.count_filter hp]

/-- C18: for every pool (bitrates are numbers), every pinned-identifier record
and every family, once the partition has run: the family's video list holds
exactly the descriptors of the pool that have video, declare a non-empty
content length, have a MIME type containing the family's video- or audio-codec
tag and, when the video pin is set and not 0, have the pinned identifier; each
one as many times as the pool holds it, in non-increasing bitrate order;
`bestVideo` is absent iff the list is empty and otherwise is a member of the
list of highest bitrate; likewise for the audio list, the audio pin and
`bestAudio`.  The partition runs to its end whenever each descriptor with a
content length has a MIME type. -/
theorem C18_partition (itag : Option Itag) (pool : List Format) :
    (∀ s, sorted_formats itag pool = .ok s → ∀ c,
      ((∀ f, f ∈ (s.get c).video ↔ f ∈ pool ∧ f.has_video = true ∧
          (∃ len, f.content_length = some len ∧ len ≠ "") ∧
          (∃ mime, f.mime_type = some mime ∧
            (includes mime (codecList c).videoCodec = true ∨
              includes mime (codecList c).audioCodec = true)) ∧
          (∀ i n, itag = some i → i.video = some n → n ≠ 0 → f.itag = some n)) ∧
        (∀ f ∈ (s.get c).video, (s.get c).video.count f = pool.count f) ∧
        (s.get c).video.Pairwise (fun a b => b.bitrate ≤ a.bitrate) ∧
        ((s.get c).bestVideo = none ↔ (s.get c).video = []) ∧
        (∀ b, (s.get c).bestVideo = some b →
          b ∈ (s.get c).video ∧ ∀ v ∈ (s.get c).video, v.bitrate ≤ b.bitrate)) ∧
      ((∀ f, f ∈ (s.get c).audio ↔ f ∈ pool ∧ f.has_audio = true ∧
          (∃ len, f.content_length = some len ∧ len ≠ "") ∧
          (∃ mime, f.mime_type = some mime ∧
            (includes mime (codecList c).videoCodec = true ∨
              includes mime (codecList c).audioCodec = true)) ∧
          (∀ i n, itag = some i → i.audio = some n → n ≠ 0 → f.itag = some n)) ∧
        (∀ f ∈ (s.get c).audio, (s.get c).audio.count f = pool.count f) ∧
        (s.get c).audio.Pairwise (fun a b => b.bitrate ≤ a.bitrate) ∧
        ((s.get c).bestAudio = none ↔ (s.get c).audio = []) ∧
        (∀ b, (s.get c).bestAudio = some b →
          b ∈ (s.get c).audio ∧ ∀ v ∈ (s.get c).audio, v.bitrate ≤ b.bitrate))) ∧
    ((∀ f ∈ pool, (∃ len, f.content_length = some len ∧ len ≠ "") → f.mime_type ≠ none) →
      ∃ s, sorted_formats itag pool = .ok s) := by
  constructor
  · intro s hs c
    have hpin : ∀ f : Format,
        (matchingItag itag f Slot.video = true ↔
          ∀ i n, itag = some i → i.video = some n → n ≠ 0 → f.itag = some n) ∧
        (matchingItag itag f Slot.audio = true ↔
          ∀ i n, itag = some i → i.audio = some n → n ≠ 0 → f.itag = some n) := by
      intro f
      constructor
      · unfold matchingItag
        rw [pin_test_iff]
        cases itag with
        | none => simp [pinned]
        | some i =>
          constructor
          · intro h j n hj hn hne
            cases hj
            exact h n (by simpa [pinned] using hn) hne
          · intro h n hn hne
            exact h i n rfl (by simpa [pinned] using hn) hne
      · unfold matchingItag
        rw [pin_test_iff]
        cases itag with
        | none => simp [pinned]
        | some i =>
          constructor
          · intro h j n hj hn hne
            cases hj
            exact h n (by simpa [pinned] using hn) hne
          · intro h n hn hne
            exact h i n rfl (by simpa [pinned] using hn) hne
    obtain ⟨hv, ha, hbv, hba⟩ := sorted_formats_get hs c
    rw [hv, ha, hbv, hba]
    obtain ⟨v1, v2, v3, v4⟩ := filter_sorted_facts pool (usableVideo itag c)
    obtain ⟨a1, a2, a3, a4⟩ := filter_sorted_facts pool (usableAudio itag c)
    refine ⟨⟨?_, count_of_perm_filter v1, v2, v3, v4⟩, ⟨?_, count_of_perm_filter a1, a2, a3, a4⟩⟩
    · intro f
      rw [v1.mem_iff, List.mem_filter, usableVideo_iff, truthyStr_iff, (hpin f).1]
    · intro f
      rw [a1.mem_iff, List.mem_filter, usableAudio_iff, truthyStr_iff, (hpin f).2]
  · intro hwf
    apply sorted_formats_total
    intro f hf
    unfold raises
    cases hc : truthyStr f.content_length
    · rfl
    · have := hwf f hf ((truthyStr_iff _).mp hc)
      cases hm : f.mime_type with
      | none => exact absurd hm this
      | some m => rfl

set_option maxRecDepth 100000 in
/-- Witness of C18: with the video identifier 136 and the audio identifier 140
pinned, the partition of a pool with the h264 videos 136 and 137 and two
audios runs to its end; the h264 video list holds the video 136 and not the
video 137, and the h264 audio list holds the audio 140.  Without pins the
h264 video list holds both videos, the one of higher bitrate first. -/
theorem C18_partition_witness :
    (sorted_formats pins136 poolPinned).toOption.map (fun s => (s.get Codec.h264).video) =
      some [video136] ∧
    (sorted_formats none poolPinned).toOption.map (fun s => (s.get Codec.h264).video) =
      some [video137, video136] ∧
    ∃ s, sorted_formats pins136 poolPinned = .ok s ∧
      video136 ∈ (s.get Codec.h264).video ∧
      video137 ∉ (s.get Codec.h264).video ∧
      (s.get Codec.h264).video.count video136 = 1 ∧
      (s.get Codec.h264).bestVideo = some video136 ∧
      audioFormat 140 "audio/mp4; codecs=\"mp4a.40.2\"" 128 none ∈ (s.get Codec.h264).audio := by
  have hwf : ∀ f ∈ poolPinned,
      (∃ len, f.content_length = some len ∧ len ≠ "") → f.mime_type ≠ none := by
    intro f hf _
    revert f
    decide
  obtain ⟨s, hs⟩ := (C18_partition pins136 poolPinned).2 hwf
  obtain ⟨⟨vmem, vcount, _, vnone, vbest⟩, ⟨amem, _⟩⟩ :=
    (C18_partition pins136 poolPinned).1 s hs Codec.h264
  have h136 : video136 ∈ (s.get Codec.h264).video := by
    rw [vmem]
    refine ⟨by decide, by decide, ⟨"1000", rfl, by decide⟩,
      ⟨"video/mp4; codecs=\"avc1.4d401f\"", rfl, Or.inl (by decide)⟩, ?_⟩
    intro i n hi hn _
    cases hi
    cases hn
    rfl
  have h137 : video137 ∉ (s.get Codec.h264).video := by
    rw [vmem]
    rintro ⟨_, _, _, _, hpin⟩
    have := hpin { video := some 136, audio := some 140 } 136 rfl rfl (by decide)
    exact absurd this (by decide)
  have hbest : (s.get Codec.h264).bestVideo = some video136 := by
    cases hb : (s.get Codec.h264).bestVideo with
    | none =>
      rw [vnone.mp hb] at h136
      exact absurd h136 (List.not_mem_nil _)
    | some b =>
      have hbm := (vbest b hb).1
      rw [vmem] at hbm
      obtain ⟨hbpool, hbv, _, _, hpin⟩ := hbm
      have hbi := hpin { video := some 136, audio := some 140 } 136 rfl rfl (by decide)
      have : ∀ g ∈ poolPinned, g.has_video = true → g.itag = some 136 → g = video136 := by decide
      rw [this b hbpool hbv hbi]
  refine ⟨by decide, by decide, s, hs, h136, h137, ?_, hbest, ?_⟩
  · rw [vcount video136 h136]
    decide
  · rw [amem]
    refine ⟨by decide, by decide, ⟨"1000", rfl, by decide⟩,
      ⟨"audio/mp4; codecs=\"mp4a.40.2\"", rfl, Or.inr (by decide)⟩, ?_⟩
    intro i n hi hn _
    cases hi
    cases hn
    rfl

/-! ## C20: the quality `max` -/

theorem normalizeQuality_le (res : Resolution) (t : Nat) (h : normalizeQuality res = some t) :
    t ≤ 4320 := by
  unfold normalizeQuality at h
  split at h
  · have hm := List.mem_of_find?_eq_some h
    simp only [videoQualities, List.mem_cons, List.mem_singleton, List.not_mem_nil, or_false] at hm
    omega
  · simp at h

theorem selectVideo_max {b : Bucket} {best : Format} (hb : b.bestVideo = some best) :
    selectVideo b 9000 = .ok (some best) := by
  obtain ⟨k1, k2⟩ := selectVideo_cases 9000 hb
  by_cases hq : ∃ bq, qual best = some bq ∧ bq ≤ 9000
  · exact k1 hq
  · apply (k2 hq).2
    rw [List.find?_eq_none]
    intro i _
    simp only [decide_eq_true_eq]
    intro hi
    have := normalizeQuality_le _ _ hi
    omega

theorem findE_some_split {α : Type} (p : α → Except JsError Bool) :
    ∀ (l : List α) (x : α), findE p l = .ok (some x) →
      ∃ pre post, l = pre ++ x :: post ∧ (∀ y ∈ pre, p y = .ok false) ∧ p x = .ok true
  | [], x, h => by simp [findE] at h
  | y :: ys, x, h => by
    unfold findE at h
    cases hy : p y with
    | error e => simp [hy] at h
    | ok b =>
      cases b with
      | true =>
        simp only [hy, Except.ok.injEq, Option.some.injEq] at h
        subst h
        exact ⟨[], ys, rfl, by simp, hy⟩
      | false =>
        simp only [hy] at h
        obtain ⟨pre, post, hl, hpre, hx⟩ := findE_some_split p ys x h
        refine ⟨y :: pre, post, by rw [hl]; rfl, ?_, hx⟩
        intro z hz
        rcases List.mem_cons.mp hz with rfl | hz
        · exact hy
        · exact hpre z hz

theorem findE_preferred_max (codec : Codec) :
    ∀ (l : List Variant) (r : Option Variant),
      findE (preferredHls codec 9000) l = .ok r → r = none
  | [], r, h => by
    simp only [findE, Except.ok.injEq] at h
    exact h.symm
  | v :: vs, r, h => by
    unfold findE at h
    cases hp : preferredHls codec 9000 v with
    | error e => simp [hp] at h
    | ok b =>
      cases b with
      | false =>
        simp only [hp] at h
        exact findE_preferred_max codec vs r h
      | true =>
        exfalso
        unfold preferredHls at hp
        cases hm : matchHlsCodec codec v.codecs with
        | error e => simp [hm] at hp
        | ok m =>
          cases m with
          | false => simp [hm] at hp
          | true =>
            simp only [hm] at hp
            cases hres : v.resolution with
            | none => simp [hres] at hp
            | some res =>
              simp only [hres, Except.ok.injEq, decide_eq_true_eq] at hp
              have := normalizeQuality_le _ _ hp
              omega

theorem selectVariant_max {codec c : Codec} {variants : List Variant} {v : Variant}
    (h : selectVariant codec 9000 variants = .ok (some v, c)) :
    findE (fun i => matchHlsCodec c i.codecs) variants = .ok (some v) := by
  unfold selectVariant at h
  cases hb : findE (fun i => matchHlsCodec codec i.codecs) variants with
  | error e => simp [hb] at h
  | ok best =>
    simp only [hb] at h
    cases hp : findE (preferredHls codec 9000) variants with
    | error e => simp [hp] at h
    | ok preferred =>
      have hnone := findE_preferred_max codec variants preferred hp
      subst hnone
      simp only [hp] at h
      cases best with
      | some b =>
        simp only [Option.none_orElse, Except.ok.injEq, Prod.mk.injEq, Option.some.injEq] at h
        obtain ⟨h1, h2⟩ := h
        subst h1 h2
        exact hb
      | none =>
        simp only [Option.none_orElse] at h
        cases h3 : findE (fun i => matchHlsCodec Codec.h264 i.codecs) variants with
        | error e => simp [h3] at h
        | ok sel3 =>
          simp only [h3, Except.ok.injEq, Prod.mk.injEq] at h
          obtain ⟨h1, h2⟩ := h
          subst h1 h2
          exact h3

theorem getHlsVariants_sorted {url : Option String} {m : ManifestFetch} {variants : List Variant}
    (h : getHlsVariants url m = .ok (.variants variants)) :
    variants.Pairwise (fun a b => b.bandwidth ≤ a.bandwidth) := by
  unfold getHlsVariants at h
  split_ifs at h
  · simp at h
  · split at h
    · simp at h
    · simp at h
    · rename_i vs
      simp only at h
      split_ifs at h
      · simp at h
      · simp only [Except.ok.injEq, HlsVariants.variants.injEq] at h
        subst h
        exact @List.sorted_insertionSort Variant (fun a b => b.bandwidth ≤ a.bandwidth) _
          ⟨fun a b => Nat.le_total b.bandwidth a.bandwidth⟩
          ⟨fun _ _ _ hab hbc => Nat.le_trans hbc hab⟩ vs

/-- C20: for every request with quality `max` whose selection completes: on the
progressive path (request not audio-only) the selected video is the best video
of the settled family, a member of the family's video list of highest bitrate,
whatever the tiers of the pool are; on the HLS path the variants are in
descending-bandwidth order and the selected video is the first variant of that
order whose codec list contains the HLS video tag of the settled family (with
its audio and subtitle lists cleared). -/
theorem C20_max_quality (o : Request) (info : Info) (w : World) (sel : Selection)
    (hmax : o.quality = Quality.max) :
    (o.isAudioOnly = false → selectProgressive o info w = .ok (.selected sel) →
      ∃ s best, sorted_formats o.itag info.adaptive_formats = .ok s ∧
        sel.codec = settleCodec s o.isAudioOnly (o.codec.getD Codec.h264) ∧
        (s.get sel.codec).bestVideo = some best ∧
        best ∈ (s.get sel.codec).video ∧
        (∀ v ∈ (s.get sel.codec).video, v.bitrate ≤ best.bitrate) ∧
        sel.video = some (.format best)) ∧
    (selectHls o info w = .ok (.selected sel) →
      ∃ variants pre selected post,
        getHlsVariants info.hls_manifest_url w.manifest = .ok (.variants variants) ∧
        variants.Pairwise (fun a b => b.bandwidth ≤ a.bandwidth) ∧
        variants = pre ++ selected :: post ∧
        (∀ v ∈ pre, matchHlsCodec sel.codec v.codecs = .ok false) ∧
        matchHlsCodec sel.codec selected.codecs = .ok true ∧
        sel.video = some (.variant { selected with audio := [], subtitles := [] })) := by
  have hq : o.qualityNumber = 9000 := by
    unfold Request.qualityNumber
    rw [hmax]
  constructor
  · intro hvideo h
    obtain ⟨s, video, subtitles, hs, hc, hn, hv, _, hsv, _⟩ := selectProgressive_selected h
    have hbest : ∃ best, (s.get sel.codec).bestVideo = some best := by
      unfold noBestMedia at hn
      rw [hvideo] at hn
      cases hb : (s.get sel.codec).bestVideo with
      | none => simp [hb] at hn
      | some best => exact ⟨best, rfl⟩
    obtain ⟨best, hb⟩ := hbest
    obtain ⟨hmem, hhigh⟩ := bestVideo_highest hs hb
    have hstep : selectVideo (s.get sel.codec) 9000 = .ok video := by
      unfold videoStep at hv
      simpa [hvideo, hq] using hv
    rw [selectVideo_max hb] at hstep
    cases hstep
    exact ⟨s, best, hs, hc, hb, hmem, hhigh, by rw [hsv]; rfl⟩
  · intro h
    obtain ⟨variants, selected, audio, hg, hsv, _, hvid, _, _⟩ := selectHls_selected_codec h
    rw [hq] at hsv
    obtain ⟨pre, post, hl, hpre, hx⟩ := findE_some_split _ variants selected (selectVariant_max hsv)
    exact ⟨variants, pre, selected, post, hg, getHlsVariants_sorted hg, hl, hpre, hx, hvid⟩

set_option maxRecDepth 100000 in
/-- Witness of C20: a vp9 request with quality `max` on a pool whose vp9 video
of highest bitrate has no tier, and an h264 request with quality `max` on a
manifest with variants of tiers 720 and 1080. -/
theorem C20_max_quality_witness :
    qual hugeVideo = none ∧
    (∃ sel, selectProgressive (maxRequest Codec.vp9 false) (playableInfo poolHuge)
        (worldOf (playableInfo poolHuge)) = .ok (.selected sel) ∧
      sel.video = some (.format hugeVideo) ∧
      ∃ s best, sorted_formats (maxRequest Codec.vp9 false).itag
          (playableInfo poolHuge).adaptive_formats = .ok s ∧
        sel.codec = settleCodec s (maxRequest Codec.vp9 false).isAudioOnly
          ((maxRequest Codec.vp9 false).codec.getD Codec.h264) ∧
        (s.get sel.codec).bestVideo = some best ∧
        best ∈ (s.get sel.codec).video ∧
        (∀ v ∈ (s.get sel.codec).video, v.bitrate ≤ best.bitrate) ∧
        sel.video = some (.format best)) ∧
    (∃ sel, selectHls (maxRequest Codec.h264 true) hlsInfo (hlsWorld variantsH264) =
        .ok (.selected sel) ∧
      sel.video = some (.variant { variant1080 with audio := [], subtitles := [] }) ∧
      ∃ variants pre selected post,
        getHlsVariants hlsInfo.hls_manifest_url (hlsWorld variantsH264).manifest =
          .ok (.variants variants) ∧
        variants.Pairwise (fun a b => b.bandwidth ≤ a.bandwidth) ∧
        variants = pre ++ selected :: post ∧
        (∀ v ∈ pre, matchHlsCodec sel.codec v.codecs = .ok false) ∧
        matchHlsCodec sel.codec selected.codecs = .ok true ∧
        sel.video = some (.variant { selected with audio := [], subtitles := [] })) :=
  ⟨by decide,
    ⟨_, rfl, rfl, (C20_max_quality (maxRequest Codec.vp9 false) (playableInfo poolHuge)
      (worldOf (playableInfo poolHuge)) _ rfl).1 rfl rfl⟩,
    ⟨_, rfl, rfl, (C20_max_quality (maxRequest Codec.h264 true) hlsInfo
      (hlsWorld variantsH264) _ rfl).2 rfl⟩⟩

/-! ## C12: pinned stream identifiers -/

theorem matchingItag_pinned {itag : Option Itag} {f : Format} {slot : Slot}
    (hm : matchingItag itag f slot = true) (hp : truthyNat (pinned itag slot) = true) :
    f.itag = pinned itag slot := by
  unfold matchingItag at hm
  simp only [hp, Bool.not_true, Bool.false_or, decide_eq_true_eq] at hm
  exact hm.symm

theorem mem_video_pinned {itag : Option Itag} {l : List Format} {s : SortedFormats}
    (h : sorted_formats itag l = .ok s) {c : Codec} {f : Format} (hf : f ∈ (s.get c).video)
    (hp : truthyNat (pinned itag Slot.video) = true) : f.itag = pinned itag Slot.video := by
  rw [(sorted_formats_get h c).1] at hf
  have hu := (List.mem_filter.mp hf).2
  simp only [usableVideo, Bool.and_eq_true] at hu
  exact matchingItag_pinned hu.2.2 hp

theorem mem_audio_pinned {itag : Option Itag} {l : List Format} {s : SortedFormats}
    (h : sorted_formats itag l = .ok s) {c : Codec} {f : Format} (hf : f ∈ (s.get c).audio)
    (hp : truthyNat (pinned itag Slot.audio) = true) : f.itag = pinned itag Slot.audio := by
  rw [(sorted_formats_get h c).2.1] at hf
  have hu := (List.mem_filter.mp hf).2
  simp only [usableAudio, Bool.and_eq_true] at hu
  exact matchingItag_pinned hu.2.2 hp

/-- The video selected inside a bucket is a member of the bucket's video list,
when the best video is. -/
theorem selectVideo_mem {b : Bucket} {quality : Nat} {v : Format}
    (hbest : ∀ best, b.bestVideo = some best → best ∈ b.video)
    (h : selectVideo b quality = .ok (some v)) : v ∈ b.video := by
  unfold selectVideo at h
  cases hb : b.bestVideo with
  | none => simp [hb] at h
  | some best =>
    simp only [hb, Except.ok.injEq] at h
    split_ifs at h
    · simp only [Option.some_orElse, Option.some.injEq] at h
      subst h
      exact hbest _ hb
    · cases hfind : b.video.find? (fun i => decide (qual i = some quality)) with
      | none =>
        simp only [hfind, Option.none_orElse, Option.some.injEq] at h
        subst h
        exact hbest _ hb
      | some x =>
        simp only [hfind, Option.some_orElse, Option.some.injEq] at h
        subst h
        exact List.mem_of_find?_eq_some hfind

theorem originalAudio_mem {b : Bucket} {a : Format}
    (hbest : ∀ best, b.bestAudio = some best → best ∈ b.audio)
    (h : originalAudio b = some a) : a ∈ b.audio := by
  unfold originalAudio at h
  cases hb : b.bestAudio with
  | none => simp [hb] at h
  | some audio =>
    simp only [hb] at h
    split_ifs at h
    · exact List.mem_of_find?_eq_some h
    · simp only [Option.some.injEq] at h
      subst h
      exact hbest _ hb

/-- The audio selected inside a bucket is a member of the bucket's audio list,
when the best audio is. -/
theorem selectAudio_mem {b : Bucket} {dubLang : Option String} {a : Format}
    (hbest : ∀ best, b.bestAudio = some best → best ∈ b.audio)
    (h : (selectAudio b dubLang).1 = some a) : a ∈ b.audio := by
  unfold selectAudio at h
  split_ifs at h
  · cases hd : dubbedFormat b (dubLang.getD "") with
    | none =>
      simp only [hd] at h
      exact originalAudio_mem hbest h
    | some t =>
      simp only [hd] at h
      split_ifs at h
      · simp only [Option.some.injEq] at h
        subst h
        exact List.mem_of_find?_eq_some hd
      · exact originalAudio_mem hbest h
  · exact originalAudio_mem hbest h

/-- A media outcome of the progressive path, with the selection it comes from:
the `originalRequest` carries the identifiers of the selected streams, an
audio is selected, and a video is selected exactly for a request that is not
audio-only. -/
theorem progressive_media_selection {d : Nat} {o : Request} {w : World} {out : Outcome}
    (hu : o.useHLS = false) (h : youtube d o w = .ok out) (hm : out.isMedia = true) :
    ∃ info sel s a, w.fetchVideoInfo = .returned info ∧
      selectProgressive o info w = .ok (.selected sel) ∧
      sorted_formats o.itag info.adaptive_formats = .ok s ∧
      out.originalRequest = some (originalRequestOf o sel) ∧
      sel.audio = some (.format a) ∧ a ∈ (s.get sel.codec).audio ∧
      (o.isAudioOnly = true → sel.video = none ∧ ∃ r, out = .audio r) ∧
      (o.isAudioOnly = false →
        ∃ v, sel.video = some (.format v) ∧ v ∈ (s.get sel.codec).video ∧ ∃ r, out = .merge r) := by
  obtain ⟨info, sel, hf, _, hsel, hasm⟩ := youtube_media_inv h hm
  simp only [hu, Bool.false_eq_true, ↓reduceIte] at hsel
  obtain ⟨s, video, subtitles, hs, hc, hn, hv, _, hsv, hsa, _⟩ := selectProgressive_selected hsel
  obtain ⟨_, meta, audio, _, haud, hcase⟩ := assemble_media_inv hasm hm
  have hbestA : ∀ best, (s.get sel.codec).bestAudio = some best →
      best ∈ (s.get sel.codec).audio := fun best hb => (bestAudio_highest hs hb).1
  have hbestV : ∀ best, (s.get sel.codec).bestVideo = some best →
      best ∈ (s.get sel.codec).video := fun best hb => (bestVideo_highest hs hb).1
  have haudio : ∃ a, sel.audio = some (.format a) ∧ a ∈ (s.get sel.codec).audio := by
    rw [hsa] at haud ⊢
    cases hp : (selectAudio (s.get sel.codec) o.dubLang).1 with
    | none => simp [hp] at haud
    | some a => exact ⟨a, rfl, selectAudio_mem hbestA hp⟩
  obtain ⟨a, ha, hamem⟩ := haudio
  have horq : out.originalRequest = some (originalRequestOf o sel) := by
    rcases hcase with ⟨_, hout⟩ | ⟨_, video1, r, _, hr, hout⟩
    · subst hout; rfl
    · subst hout
      obtain ⟨res, ext, urls, hr1, _⟩ := mergeResult_inv hr
      subst hr1; rfl
  refine ⟨info, sel, s, a, hf, hsel, hs, horq, ha, hamem, ?_, ?_⟩
  · intro hao
    constructor
    · unfold videoStep at hv
      simp only [hao, Bool.not_true, Bool.false_eq_true, ↓reduceIte, Except.ok.injEq] at hv
      rw [hsv, ← hv]; rfl
    · rcases hcase with ⟨_, hout⟩ | ⟨hx, _⟩
      · exact ⟨_, hout⟩
      · rw [hao] at hx; exact absurd hx (by decide)
  · intro hao
    rcases hcase with ⟨hx, _⟩ | ⟨_, video1, r, hvid, _, hout⟩
    · rw [hao] at hx; exact absurd hx (by decide)
    · unfold videoStep at hv
      simp only [hao, Bool.not_false, ↓reduceIte] at hv
      cases video with
      | none => simp [hsv] at hvid
      | some v => exact ⟨v, by rw [hsv]; rfl, selectVideo_mem hbestV hv, r, hout⟩

/-- C12 (amended): on the progressive path, for every AudioResult or
MergeResult: if the request pins an audio identifier (`itag.audio` set and not
0), the selected audio has that identifier and `originalRequest.itag.audio`
repeats it; if the request pins a video identifier (`itag.video` set and not
0) and is not audio-only, the selected video has that identifier and
`originalRequest.itag.video` repeats it; for an audio-only request no video is
selected and `originalRequest.itag.video` is absent. -/
theorem C12_pinned_identifiers (d : Nat) (o : Request) (w : World) (out : Outcome)
    (hu : o.useHLS = false) (h : youtube d o w = .ok out) (hm : out.isMedia = true) :
    ∃ info sel orq, w.fetchVideoInfo = .returned info ∧
      selectProgressive o info w = .ok (.selected sel) ∧
      out.originalRequest = some orq ∧
      (truthyNat (pinned o.itag Slot.audio) = true →
        (∃ a, sel.audio = some (.format a) ∧ a.itag = pinned o.itag Slot.audio) ∧
        orq.itag.audio = pinned o.itag Slot.audio) ∧
      (truthyNat (pinned o.itag Slot.video) = true → o.isAudioOnly = false →
        (∃ v, sel.video = some (.format v) ∧ v.itag = pinned o.itag Slot.video) ∧
        orq.itag.video = pinned o.itag Slot.video) ∧
      (o.isAudioOnly = true → sel.video = none ∧ orq.itag.video = none) := by
  obtain ⟨info, sel, s, a, hf, hsel, hs, horq, ha, hamem, haonly, hmerge⟩ :=
    progressive_media_selection hu h hm
  refine ⟨info, sel, originalRequestOf o sel, hf, hsel, horq, ?_, ?_, ?_⟩
  · intro hp
    have := mem_audio_pinned hs hamem hp
    exact ⟨⟨a, ha, this⟩, by simp [originalRequestOf, ha, AudioPick.itag, this]⟩
  · intro hp hao
    obtain ⟨v, hv, hvmem, _⟩ := hmerge hao
    have := mem_video_pinned hs hvmem hp
    exact ⟨⟨v, hv, this⟩, by simp [originalRequestOf, hv, VideoPick.itag, this]⟩
  · intro hao
    obtain ⟨hv, _⟩ := haonly hao
    exact ⟨hv, by simp [originalRequestOf, hv]⟩

set_option maxRecDepth 100000 in
/-- Witness of C12 (amended): a merge request for h264 that pins the video
identifier 137 and the audio identifier 140. -/
theorem C12_pinned_identifiers_witness :
    ∃ out orq, youtube 600 pinnedMergeRequest (worldOf (playableInfo poolNoAv1)) = .ok out ∧
      out.isMedia = true ∧ out.originalRequest = some orq ∧
      orq.itag.audio = some 140 ∧ orq.itag.video = some 137 := by
  obtain ⟨info, sel, orq, _, _, horq, haudio, hvideo, _⟩ :=
    C12_pinned_identifiers 600 pinnedMergeRequest (worldOf (playableInfo poolNoAv1)) _ rfl rfl rfl
  exact ⟨_, orq, rfl, rfl, horq, (haudio rfl).2, (hvideo rfl rfl).2⟩

set_option maxRecDepth 100000 in
/-- Counterexample to C12 as stated: an audio-only request that pins the video
identifier 137 yields an AudioResult whose `originalRequest.itag.video` is
absent; and a request whose pinned video identifier is 0 yields a MergeResult
whose selected video has the identifier 248. -/
theorem C12_pins_not_repeated :
    pinned pinnedAudioRequest.itag Slot.video = some 137 ∧
    (∃ r, youtube 600 pinnedAudioRequest (worldOf (playableInfo poolNoAv1)) = .ok (.audio r) ∧
      r.originalRequest.itag = { video := none, audio := some 140 }) ∧
    pinned zeroPinRequest.itag Slot.video = some 0 ∧
    (∃ r, youtube 600 zeroPinRequest (worldOf (playableInfo poolNoAv1)) = .ok (.merge r) ∧
      r.originalRequest.itag = { video := some 248, audio := some 251 }) :=
  ⟨rfl, ⟨_, rfl, rfl⟩, rfl, ⟨_, rfl, rfl⟩⟩

/-! ## C15: av1 asked, vp9 delivered at 1080 -/

theorem selectProgressive_eq {o : Request} {info : Info} {w : World} {s : SortedFormats}
    {video : Option Format} {subtitles : Option Subtitles}
    (hs : sorted_formats o.itag info.adaptive_formats = .ok s)
    (hn : noBestMedia s o.isAudioOnly (settleCodec s o.isAudioOnly (o.codec.getD Codec.h264)) = false)
    (hv : videoStep o (s.get (settleCodec s o.isAudioOnly (o.codec.getD Codec.h264))) = .ok video)
    (hsub : subtitleStep o info w = .ok subtitles) :
    selectProgressive o info w = .ok (.selected
      { video := video.map VideoPick.format
        audio := (selectAudio (s.get (settleCodec s o.isAudioOnly (o.codec.getD Codec.h264)))
          o.dubLang).1.map AudioPick.format
        subtitles := subtitles
        dubbedLanguage := (selectAudio (s.get (settleCodec s o.isAudioOnly
          (o.codec.getD Codec.h264))) o.dubLang).2
        codec := settleCodec s o.isAudioOnly (o.codec.getD Codec.h264) }) := by
  unfold selectProgressive
  simp only [hs, hn, Bool.false_eq_true, ↓reduceIte, hv, hsub]

theorem fileMetadataOf_total {basicInfo : BasicInfo} (subtitles : Option Subtitles)
    (ht : basicInfo.title.isSome = true) (ha : basicInfo.author.isSome = true) :
    ∃ meta, fileMetadataOf basicInfo subtitles = .ok meta := by
  unfold fileMetadataOf
  cases h1 : basicInfo.title with
  | none => simp [h1] at ht
  | some title =>
    cases h2 : basicInfo.author with
    | none => simp [h2] at ha
    | some author =>
      simp only
      cases subtitles with
      | none => exact ⟨_, rfl⟩
      | some subs => exact ⟨_, rfl⟩

theorem assemble_merge (o : Request) (info : Info) (w : World) (v a : Format)
    (subtitles : Option Subtitles) (dubbedLanguage : Option String) (codec : Codec)
    (meta : FileMetadata) (hao : o.isAudioOnly = false)
    (hdv : v.drm_families = none) (hda : a.drm_families = none)
    (hmeta : fileMetadataOf info.basic_info subtitles = .ok meta) :
    assemble o info w false
        { video := some (.format v), audio := some (.format a), subtitles := subtitles
          dubbedLanguage := dubbedLanguage, codec := codec } =
      .ok (.merge (mergeFinish o false
        { video := some (.format v), audio := some (.format a), subtitles := subtitles
          dubbedLanguage := dubbedLanguage, codec := codec }
        meta { width := v.width, height := v.height }
        (if o.container = "auto" then (codecList codec).container else o.container)
        (v.url, a.url))) := by
  have hd : drmProtected
      { video := some (.format v), audio := some (.format a), subtitles := subtitles
        dubbedLanguage := dubbedLanguage, codec := codec } = false := by
    simp [drmProtected, VideoPick.drm, AudioPick.drm, hdv, hda]
  unfold assemble
  simp only [hd, Bool.false_eq_true, ↓reduceIte, hmeta, hao]
  rfl

/-- The fallback of an av1 request that is not audio-only: without usable av1
video and with a usable vp9 video the settled family is vp9. -/
theorem settleCodec_av1_vp9 {itag : Option Itag} {l : List Format} {s : SortedFormats}
    (hs : sorted_formats itag l = .ok s)
    (hav1 : ∀ f ∈ l, usableVideo itag Codec.av1 f = false)
    (hvp9 : ∃ f ∈ l, usableVideo itag Codec.vp9 f = true) :
    settleCodec s false Codec.av1 = Codec.vp9 := by
  have h1 : (s.get Codec.av1).bestVideo = none := (bestVideo_eq_none_iff hs Codec.av1).mpr hav1
  rw [settleCodec_av1, h1]
  obtain ⟨f, hfm, hu⟩ := hvp9
  cases h2 : (s.get Codec.vp9).bestVideo with
  | none =>
    have := (bestVideo_eq_none_iff hs Codec.vp9).mp h2 f hfm
    rw [this] at hu
    exact absurd hu (by decide)
  | some v => simp

/-- The video selected for the quality 1080 in a bucket that holds a stream of
tier 1080 and whose best video is not of a lower tier: a stream of tier 1080
of the video list. -/
theorem selectVideo_exact {b : Bucket} {best : Format} {quality : Nat}
    (hb : b.bestVideo = some best) (hbmem : best ∈ b.video)
    (hex : ∃ f ∈ b.video, qual f = some quality)
    (hlow : ∀ bq, qual best = some bq → quality ≤ bq) :
    ∃ v, selectVideo b quality = .ok (some v) ∧ v ∈ b.video ∧ qual v = some quality := by
  obtain ⟨k1, k2⟩ := selectVideo_cases quality hb
  by_cases hq : ∃ bq, qual best = some bq ∧ bq ≤ quality
  · obtain ⟨bq, hbq, hle⟩ := hq
    have : bq = quality := Nat.le_antisymm hle (hlow bq hbq)
    subst this
    exact ⟨best, k1 ⟨bq, hbq, hle⟩, hbmem, hbq⟩
  · obtain ⟨f, hf, hqf⟩ := hex
    cases hfind : b.video.find? (fun i => decide (qual i = some quality)) with
    | none =>
      have := List.find?_eq_none.mp hfind f hf
      simp [hqf] at this
    | some v =>
      refine ⟨v, (k2 hq).1 v hfind, List.mem_of_find?_eq_some hfind, ?_⟩
      simpa using List.find?_some hfind

/-- C15 (amended): for every progressive request with codec av1 and quality
1080 that is not audio-only and passes the playability gates, where no usable
av1 video exists, the vp9 family has a usable video of tier 1080, the best
(highest-bitrate) vp9 video is not of a tier below 1080, no usable vp9 video
of tier 1080 carries a DRM marker, the audio selection in the vp9 family
gives an audio without DRM marker, and nothing raises on the way (each
descriptor with a content length has a MIME type, the record has a title and
an author, the subtitle block returns): the result is a MergeResult whose
`youtubeFormat` is `vp9` and whose `qualityLabel` is `1080p`. -/
theorem C15_av1_request_vp9_1080 (d : Nat) (o : Request) (w : World) (info : Info)
    (hf : w.fetchVideoInfo = .returned info)
    (hg : playabilityGate d o info = .ok none)
    (hcodec : o.codec = some Codec.av1) (hq : o.quality = Quality.tier 1080)
    (hvideo : o.isAudioOnly = false)
    (hav1 : ∀ f ∈ info.adaptive_formats, usableVideo o.itag Codec.av1 f = false)
    (hvp9 : ∃ f ∈ info.adaptive_formats, usableVideo o.itag Codec.vp9 f = true ∧
      qual f = some 1080)
    (hbest : ∀ best bq, (bucketOf o.itag Codec.vp9 info.adaptive_formats).bestVideo = some best →
      qual best = some bq → 1080 ≤ bq)
    (hdrm : ∀ f ∈ info.adaptive_formats, usableVideo o.itag Codec.vp9 f = true →
      qual f = some 1080 → f.drm_families = none)
    (haudio : ∃ a, (selectAudio (bucketOf o.itag Codec.vp9 info.adaptive_formats) o.dubLang).1 =
      some a ∧ a.drm_families = none)
    (hmime : ∀ f ∈ info.adaptive_formats, raises f = false)
    (htitle : info.basic_info.title.isSome = true)
    (hauthor : info.basic_info.author.isSome = true)
    (hsubs : ∃ subtitles, subtitleStep o info w = .ok subtitles) :
    ∃ r, youtube d o w = .ok (.merge r) ∧
      r.filenameAttributes.youtubeFormat = some "vp9" ∧
      r.filenameAttributes.qualityLabel = some "1080p" := by
  obtain ⟨s, hs⟩ := sorted_formats_total o.itag info.adaptive_formats hmime
  have hb9 : s.get Codec.vp9 = bucketOf o.itag Codec.vp9 info.adaptive_formats :=
    sorted_formats_bucketOf hs Codec.vp9
  obtain ⟨f, hfm, hfu, hfq⟩ := hvp9
  have hfmem : f ∈ (s.get Codec.vp9).video := by
    rw [(sorted_formats_get hs Codec.vp9).1]
    exact List.mem_filter.mpr ⟨mem_sortByBitrate.mpr hfm, hfu⟩
  have hsettle : settleCodec s o.isAudioOnly (o.codec.getD Codec.h264) = Codec.vp9 := by
    rw [hcodec, hvideo]
    exact settleCodec_av1_vp9 hs hav1 ⟨f, hfm, hfu⟩
  have hbestSome : ∃ best, (s.get Codec.vp9).bestVideo = some best := by
    cases hbv : (s.get Codec.vp9).bestVideo with
    | none =>
      have := (bestVideo_eq_none_iff hs Codec.vp9).mp hbv f hfm
      rw [this] at hfu
      exact absurd hfu (by decide)
    | some best => exact ⟨best, rfl⟩
  obtain ⟨best, hbv⟩ := hbestSome
  have hn : noBestMedia s o.isAudioOnly
      (settleCodec s o.isAudioOnly (o.codec.getD Codec.h264)) = false := by
    rw [hsettle]
    simp [noBestMedia, hvideo, hbv]
  obtain ⟨v, hsv, hvmem, hvq⟩ := selectVideo_exact hbv (bestVideo_highest hs hbv).1
    ⟨f, hfmem, hfq⟩ (fun bq hbq => hbest best bq (by rw [← hb9]; exact hbv) hbq)
  have hqn : o.qualityNumber = 1080 := by
    unfold Request.qualityNumber
    rw [hq]
  have hstep : videoStep o (s.get (settleCodec s o.isAudioOnly (o.codec.getD Codec.h264))) =
      .ok (some v) := by
    rw [hsettle]
    unfold videoStep
    simp only [hvideo, Bool.not_false, ↓reduceIte, hqn]
    exact hsv
  obtain ⟨subtitles, hsub⟩ := hsubs
  obtain ⟨a, ha, hda⟩ := haudio
  have hvpool : v ∈ info.adaptive_formats ∧ usableVideo o.itag Codec.vp9 v = true := by
    rw [(sorted_formats_get hs Codec.vp9).1] at hvmem
    exact ⟨mem_sortByBitrate.mp (List.mem_filter.mp hvmem).1, (List.mem_filter.mp hvmem).2⟩
  have hdv : v.drm_families = none := hdrm v hvpool.1 hvpool.2 hvq
  have hsel := selectProgressive_eq hs hn hstep hsub
  rw [hsettle, hb9, ha] at hsel
  obtain ⟨meta, hmeta⟩ := fileMetadataOf_total subtitles htitle hauthor
  have hasm := assemble_merge o info w v a subtitles
    (selectAudio (bucketOf o.itag Codec.vp9 info.adaptive_formats) o.dubLang).2 Codec.vp9
    meta hvideo hdv hda hmeta
  have hy : youtube d o w = assemble o info w false
      { video := some (.format v), audio := some (.format a), subtitles := subtitles
        dubbedLanguage :=
          (selectAudio (bucketOf o.itag Codec.vp9 info.adaptive_formats) o.dubLang).2
        codec := Codec.vp9 } := by
    rw [youtube_returned hf, hg]
    simp only [useHLS_av1 hcodec, Bool.false_eq_true, ↓reduceIte, hsel]
    rfl
  rw [hasm] at hy
  refine ⟨_, hy, rfl, ?_⟩
  have hn1080 : normalizeQuality { width := v.width, height := v.height } = some 1080 := hvq
  simp only [mergeFinish, hn1080]
  decide

set_option maxRecDepth 100000 in
/-- Witness of C15 (amended): an av1 request of quality 1080 on a pool with a
vp9 video of tier 1080, an h264 video, opus and mp4a audio and no av1. -/
theorem C15_av1_request_vp9_1080_witness :
    ∃ r, youtube 600 (baseRequest Codec.av1 1080) (worldOf (playableInfo poolNoAv1)) =
        .ok (.merge r) ∧
      r.filenameAttributes.youtubeFormat = some "vp9" ∧
      r.filenameAttributes.qualityLabel = some "1080p" := by
  apply C15_av1_request_vp9_1080 600 (baseRequest Codec.av1 1080)
    (worldOf (playableInfo poolNoAv1)) (playableInfo poolNoAv1) rfl rfl rfl rfl rfl
  · decide
  · decide
  · intro best bq hb hqb
    have e : (bucketOf none Codec.vp9 poolNoAv1).bestVideo =
        some (videoFormat 248 "video/webm; codecs=\"vp9\"" 2500 1920 1080) := by decide
    have hb2 : some (videoFormat 248 "video/webm; codecs=\"vp9\"" 2500 1920 1080) = some best :=
      e.symm.trans hb
    cases hb2
    have hq1080 : qual (videoFormat 248 "video/webm; codecs=\"vp9\"" 2500 1920 1080) = some 1080 := by
      decide
    rw [hq1080] at hqb
    cases hqb
    exact Nat.le_refl _
  · decide
  · exact ⟨audioFormat 251 "audio/webm; codecs=\"opus\"" 130 none, by decide, rfl⟩
  · decide
  · rfl
  · rfl
  · exact ⟨none, rfl⟩

set_option maxRecDepth 100000 in
/-- Counterexample to C15 as stated: an av1 request of quality 1080 on a pool
without av1, whose vp9 family has a usable video of tier 1080 and a usable
opus audio, none with a DRM marker; the vp9 video of highest bitrate is of
tier 720, and the MergeResult reports `vp9` with the quality label `720p`. -/
theorem C15_label_720p :
    (∀ f ∈ poolC2, usableVideo none Codec.av1 f = false) ∧
    exactC2 ∈ poolC2 ∧ usableVideo none Codec.vp9 exactC2 = true ∧ qual exactC2 = some 1080 ∧
    (∀ f ∈ poolC2, f.drm_families = none) ∧
    (∃ a ∈ poolC2, usableAudio none Codec.vp9 a = true) ∧
    ∃ r, youtube 600 (baseRequest Codec.av1 1080) (worldOf (playableInfo poolC2)) =
        .ok (.merge r) ∧
      r.filenameAttributes.youtubeFormat = some "vp9" ∧
      r.filenameAttributes.qualityLabel = some "720p" := by
  refine ⟨by decide, by decide, by decide, by decide, by decide, by decide, _, rfl, ?_, ?_⟩ <;>
    decide

/-! ## C16: giving up -/

set_option maxRecDepth 100000 in
/-- Counterexample to C16 as stated.  A vp9 merge request on a pool with vp9
video, h264 video and mp4a audio, without DRM marker: the h264 family offers a
usable video together with a usable audio, yet the call gives up with
`youtube.no_matching_format`, because the vp9 family has a video and the
fallback looks at the video only.  An h264 merge request on a pool with vp9
video and opus audio only: the vp9 family offers a usable video together with
a usable audio, yet the call gives up. -/
theorem C16_gives_up_despite_combination :
    playabilityGate 600 (baseRequest Codec.vp9 1080) (playableInfo poolNoOpus) = .ok none ∧
    (∀ f ∈ poolNoOpus, f.drm_families = none) ∧
    (∃ v ∈ poolNoOpus, usableVideo none Codec.h264 v = true) ∧
    (∃ a ∈ poolNoOpus, usableAudio none Codec.h264 a = true) ∧
    youtube 600 (baseRequest Codec.vp9 1080) (worldOf (playableInfo poolNoOpus)) =
      .ok (.error "youtube.no_matching_format" false) ∧
    (∃ v ∈ poolVp9Only, usableVideo none Codec.vp9 v = true) ∧
    (∃ a ∈ poolVp9Only, usableAudio none Codec.vp9 a = true) ∧
    youtube 600 (baseRequest Codec.h264 1080) (worldOf (playableInfo poolVp9Only)) =
      .ok (.error "youtube.no_matching_format" false) :=
  ⟨rfl, by decide, by decide, by decide, rfl, by decide, by decide, rfl⟩

/-! ## C17: the original track -/

/-- C17 (amended): on the progressive path, without dub-language preference,
for a selection that completes: when the best (highest-bitrate) audio of the
settled family carries an audio-track descriptor and the family's audio list
contains a stream flagged original, the selected audio is a stream of the list
flagged original, namely the best audio if it is flagged original and
otherwise the first stream flagged original in the order of the list; when the
best audio carries no audio-track descriptor, it is the selected audio. -/
theorem C17_original_track (o : Request) (info : Info) (w : World) (sel : Selection)
    (hdub : truthyStr o.dubLang = false)
    (h : selectProgressive o info w = .ok (.selected sel)) :
    ∃ s, sorted_formats o.itag info.adaptive_formats = .ok s ∧
      sel.codec = settleCodec s o.isAudioOnly (o.codec.getD Codec.h264) ∧
      sel.dubbedLanguage = none ∧
      ∀ best, (s.get sel.codec).bestAudio = some best →
        (best.audio_track.isSome = true →
          (∃ f ∈ (s.get sel.codec).audio, f.is_original = true) →
          ∃ a, sel.audio = some (.format a) ∧ a ∈ (s.get sel.codec).audio ∧
            a.is_original = true ∧
            (best.is_original = true → a = best) ∧
            (best.is_original = false →
              (s.get sel.codec).audio.find? (fun i => i.is_original) = some a)) ∧
        (best.audio_track = none → sel.audio = some (.format best)) := by
  obtain ⟨s, video, subtitles, hs, hc, _, _, _, _, hsa, hsd, _⟩ := selectProgressive_selected h
  have hsel : selectAudio (s.get sel.codec) o.dubLang = (originalAudio (s.get sel.codec), none) := by
    unfold selectAudio
    simp [hdub]
  rw [hsel] at hsa hsd
  refine ⟨s, hs, hc, hsd, ?_⟩
  intro best hb
  constructor
  · rintro htrack ⟨f, hf, hfo⟩
    cases hbo : best.is_original
    · cases hfind : (s.get sel.codec).audio.find? (fun i => i.is_original) with
      | none =>
        have := List.find?_eq_none.mp hfind f hf
        simp [hfo] at this
      | some a =>
        refine ⟨a, ?_, List.mem_of_find?_eq_some hfind, by simpa using List.find?_some hfind,
          fun hx => absurd hx (by simp), fun _ => rfl⟩
        rw [hsa]
        simp [originalAudio, hb, htrack, hbo, hfind]
    · refine ⟨best, ?_, (bestAudio_highest hs hb).1, hbo, fun _ => rfl,
        fun hx => absurd hx (by simp)⟩
      rw [hsa]
      simp [originalAudio, hb, hbo]
  · intro hnone
    rw [hsa]
    simp [originalAudio, hb, hnone]

set_option maxRecDepth 100000 in
/-- Witness of C17 (amended): the opus audio of highest bitrate is a dubbed
track, and the track flagged original is the selected audio. -/
theorem C17_original_track_witness :
    ∃ sel, selectProgressive (baseRequest Codec.vp9 1080) (playableInfo poolDubFirst)
        (worldOf (playableInfo poolDubFirst)) = .ok (.selected sel) ∧
      (∃ s, sorted_formats none poolDubFirst = .ok s ∧
        (s.get Codec.vp9).bestAudio = some (dubbedTrack "Spanish" 160)) ∧
      sel.audio = some (.format (originalTrack "English" 130)) ∧
      ∃ s, sorted_formats (baseRequest Codec.vp9 1080).itag
          (playableInfo poolDubFirst).adaptive_formats = .ok s ∧
        sel.codec = settleCodec s (baseRequest Codec.vp9 1080).isAudioOnly
          ((baseRequest Codec.vp9 1080).codec.getD Codec.h264) ∧
        sel.dubbedLanguage = none ∧
        ∀ best, (s.get sel.codec).bestAudio = some best →
          (best.audio_track.isSome = true →
            (∃ f ∈ (s.get sel.codec).audio, f.is_original = true) →
            ∃ a, sel.audio = some (.format a) ∧ a ∈ (s.get sel.codec).audio ∧
              a.is_original = true ∧
              (best.is_original = true → a = best) ∧
              (best.is_original = false →
                (s.get sel.codec).audio.find? (fun i => i.is_original) = some a)) ∧
          (best.audio_track = none → sel.audio = some (.format best)) :=
  ⟨_, rfl, ⟨_, rfl, rfl⟩, rfl,
    C17_original_track (baseRequest Codec.vp9 1080) (playableInfo poolDubFirst)
      (worldOf (playableInfo poolDubFirst)) _ rfl rfl⟩

set_option maxRecDepth 100000 in
/-- Counterexample to C17 as stated: the opus audio list of the settled family
vp9 contains a stream flagged original, no dub language is asked for, and the
selected audio is the stream of highest bitrate, which has no audio-track
descriptor and is not flagged original. -/
theorem C17_trackless_best_selected :
    ∃ s sel, sorted_formats none poolMixedTracks = .ok s ∧
      selectProgressive (baseRequest Codec.vp9 1080) (playableInfo poolMixedTracks)
        (worldOf (playableInfo poolMixedTracks)) = .ok (.selected sel) ∧
      sel.codec = Codec.vp9 ∧
      originalTrack "English" 130 ∈ (s.get Codec.vp9).audio ∧
      (originalTrack "English" 130).is_original = true ∧
      sel.audio = some (.format tracklessAudio) ∧
      tracklessAudio.is_original = false := by
  refine ⟨_, _, rfl, rfl, rfl, ?_, ?_, rfl, ?_⟩ <;> decide

/-! ## C19: metadata from the description -/

theorem split_eq_take (description : String) (limit : Nat) :
    split description "\n\n" limit = (descriptionParts description).take limit := by
  unfold split descriptionParts
  rw [List.map_take]

theorem fileMetadataOf_eq {basicInfo : BasicInfo} {subtitles : Option Subtitles}
    {meta : FileMetadata} (h : fileMetadataOf basicInfo subtitles = .ok meta) :
    ∃ title author, basicInfo.title = some title ∧ basicInfo.author = some author ∧
      meta.title = (describedMetadata title author basicInfo.short_description).title ∧
      meta.artist = (describedMetadata title author basicInfo.short_description).artist ∧
      meta.album = (describedMetadata title author basicInfo.short_description).album ∧
      meta.copyright = (describedMetadata title author basicInfo.short_description).copyright ∧
      meta.date = (describedMetadata title author basicInfo.short_description).date := by
  unfold fileMetadataOf at h
  cases ht : basicInfo.title with
  | none => simp [ht] at h
  | some title =>
    cases ha : basicInfo.author with
    | none => simp [ht, ha] at h
    | some author =>
      refine ⟨title, author, rfl, rfl, ?_⟩
      rw [ht, ha] at h
      cases subtitles with
      | none =>
        have h2 : describedMetadata title author basicInfo.short_description = meta :=
          Except.ok.inj h
        subst h2
        exact ⟨rfl, rfl, rfl, rfl, rfl⟩
      | some subs =>
        have h2 : { describedMetadata title author basicInfo.short_description with
            sublanguage := subs.language } = meta := Except.ok.inj h
        subst h2
        exact ⟨rfl, rfl, rfl, rfl, rfl⟩

theorem describedMetadata_five (title author description : String)
    (hs : startsWith description "Provided to YouTube by" = true)
    {p0 p1 album copyright released : String} {rest : List String}
    (hp : descriptionParts description = p0 :: p1 :: album :: copyright :: released :: rest) :
    (describedMetadata title author (some description)).album = some album ∧
    (describedMetadata title author (some description)).copyright = some copyright ∧
    (describedMetadata title author (some description)).date =
      (if startsWith released "Released on:" = true
        then some (trim (replace released "Released on: " "")) else none) := by
  unfold describedMetadata
  simp only [hs, ↓reduceIte, split_eq_take, hp, List.take_succ_cons, List.take_zero]
  refine ⟨?_, ?_, ?_⟩ <;> trivial

theorem describedMetadata_none (title author : String) (short_description : Option String)
    (h : short_description = none ∨
      ∃ description, short_description = some description ∧
        (startsWith description "Provided to YouTube by" = false ∨
          (descriptionParts description).length < 5)) :
    (describedMetadata title author short_description).album = none ∧
    (describedMetadata title author short_description).copyright = none ∧
    (describedMetadata title author short_description).date = none := by
  unfold describedMetadata
  rcases h with hnone | ⟨description, hd, hno | hlen⟩
  · subst hnone
    refine ⟨?_, ?_, ?_⟩ <;> trivial
  · subst hd
    simp only [hno, Bool.false_eq_true, ↓reduceIte]
    refine ⟨?_, ?_, ?_⟩ <;> trivial
  · subst hd
    by_cases hs : startsWith description "Provided to YouTube by" = true
    · simp only [hs, ↓reduceIte, split_eq_take]
      rcases hp : descriptionParts description with
        _ | ⟨p0, _ | ⟨p1, _ | ⟨p2, _ | ⟨p3, _ | ⟨p4, rest⟩⟩⟩⟩⟩
      all_goals simp only [hp, List.length_cons, List.length_nil] at hlen
      all_goals first
        | omega
        | (refine ⟨?_, ?_, ?_⟩ <;> trivial)
    · simp only [hs, ↓reduceIte]
      refine ⟨?_, ?_, ?_⟩ <;> trivial

theorem media_fileMetadata {d : Nat} {o : Request} {w : World} {out : Outcome}
    (h : youtube d o w = .ok out) (hm : out.isMedia = true) :
    ∃ (info : Info) (sel : Selection) (meta : FileMetadata), w.fetchVideoInfo = .returned info ∧
      fileMetadataOf info.basic_info sel.subtitles = .ok meta ∧
      out.fileMetadata = some meta := by
  obtain ⟨info, sel, hf, _, _, hasm⟩ := youtube_media_inv h hm
  obtain ⟨_, meta, audio, hmeta, _, hcase⟩ := assemble_media_inv hasm hm
  refine ⟨info, sel, meta, hf, hmeta, ?_⟩
  rcases hcase with ⟨_, hout⟩ | ⟨_, video, r, _, hr, hout⟩
  · subst hout; rfl
  · subst hout
    obtain ⟨res, ext, urls, hr1, _⟩ := mergeResult_inv hr
    subst hr1; rfl

/-- C19 (amended): in the file metadata of every AudioResult or MergeResult,
album and copyright are set exactly when the description starts with
`Provided to YouTube by` and splits on double newlines into at least five
parts; they are then the third and the fourth part, and the release date is
set, from the fifth part, when that part starts with `Released on:`.  For a
description that is absent, does not start so, or splits into fewer than five
parts, none of album, copyright and date is set. -/
theorem C19_description_metadata (d : Nat) (o : Request) (w : World) (out : Outcome)
    (h : youtube d o w = .ok out) (hm : out.isMedia = true) :
    ∃ info meta, w.fetchVideoInfo = .returned info ∧ out.fileMetadata = some meta ∧
      (∀ description, info.basic_info.short_description = some description →
        startsWith description "Provided to YouTube by" = true →
        ∀ p0 p1 album copyright released rest,
          descriptionParts description =
            p0 :: p1 :: album :: copyright :: released :: rest →
          meta.album = some album ∧ meta.copyright = some copyright ∧
          meta.date = (if startsWith released "Released on:" = true
            then some (trim (replace released "Released on: " "")) else none)) ∧
      ((info.basic_info.short_description = none ∨
        ∃ description, info.basic_info.short_description = some description ∧
          (startsWith description "Provided to YouTube by" = false ∨
            (descriptionParts description).length < 5)) →
        meta.album = none ∧ meta.copyright = none ∧ meta.date = none) := by
  obtain ⟨info, sel, meta, hf, hmeta, hout⟩ := media_fileMetadata h hm
  obtain ⟨title, author, _, _, _, _, halbum, hcopy, hdate⟩ := fileMetadataOf_eq hmeta
  refine ⟨info, meta, hf, hout, ?_, ?_⟩
  · intro description hd hs p0 p1 album copyright released rest hp
    rw [halbum, hcopy, hdate, hd]
    exact describedMetadata_five title author description hs hp
  · intro hcase
    rw [halbum, hcopy, hdate]
    exact describedMetadata_none title author _ hcase

set_option maxRecDepth 100000 in
/-- Witness of C19 (amended): a description with exactly five parts. -/
theorem C19_description_metadata_witness :
    ∃ out meta, youtube 600 (baseRequest Codec.h264 1080)
        (worldOf (describedInfo fivePartDescription)) = .ok out ∧
      out.fileMetadata = some meta ∧
      meta.album = some "Album" ∧ meta.copyright = some "℗ 2020 Label" ∧
      meta.date = some "2020-01-31" := by
  obtain ⟨info, meta, hf, hout, hfive, _⟩ := C19_description_metadata 600
    (baseRequest Codec.h264 1080) (worldOf (describedInfo fivePartDescription)) _ rfl rfl
  cases hf
  have := hfive fivePartDescription rfl (by decide) "Provided to YouTube by Label"
    "Song · Artist" "Album" "℗ 2020 Label" "Released on: 2020-01-31" [] (by decide)
  refine ⟨_, meta, rfl, hout, this.1, this.2.1, ?_⟩
  rw [this.2.2]
  decide

set_option maxRecDepth 100000 in
/-- Counterexample to C19 as stated: a description that starts with
`Provided to YouTube by` and splits into seven parts; album, copyright and
date are set. -/
theorem C19_seven_parts_set :
    startsWith topicDescription "Provided to YouTube by" = true ∧
    (descriptionParts topicDescription).length = 7 ∧
    ∃ r, youtube 600 (baseRequest Codec.h264 1080) (worldOf (describedInfo topicDescription)) =
        .ok (.merge r) ∧
      r.fileMetadata.album = some "Album" ∧
      r.fileMetadata.copyright = some "℗ 2020 Label" ∧
      r.fileMetadata.date = some "2020-01-31" := by
  refine ⟨by decide, by decide, _, rfl, ?_, ?_, ?_⟩ <;> decide

theorem selectVideo_some {b : Bucket} {best : Format} (quality : Nat)
    (hb : b.bestVideo = some best) : ∃ v, selectVideo b quality = .ok (some v) := by
  unfold selectVideo
  rw [hb]
  simp only
  split_ifs
  · exact ⟨best, rfl⟩
  · cases hfind : b.video.find? (fun i => decide (qual i = some quality)) with
    | none => exact ⟨best, rfl⟩
    | some v => exact ⟨v, rfl⟩

theorem noBestMedia_iff {itag : Option Itag} {l : List Format} {s : SortedFormats}
    (hs : sorted_formats itag l = .ok s) (c : Codec) :
    (noBestMedia s false c = true ↔ ∀ f ∈ l, usableVideo itag c f = false) ∧
    (noBestMedia s true c = true ↔ ∀ f ∈ l, usableAudio itag c f = false) := by
  constructor
  · rw [← bestVideo_eq_none_iff hs c]
    unfold noBestMedia
    cases (s.get c).bestVideo <;> simp
  · rw [← bestAudio_eq_none_iff hs c]
    unfold noBestMedia
    cases (s.get c).bestAudio <;> simp

/-- The outcome of the assembly on the progressive path when nothing raises
and no selected stream carries a DRM marker: `youtube.no_matching_format` when
no audio is selected, a media outcome otherwise, provided a video is selected
for a request that is not audio-only. -/
theorem assemble_progressive (o : Request) (info : Info) (w : World) {sel : Selection}
    {meta : FileMetadata} (hd : drmProtected sel = false)
    (hmeta : fileMetadataOf info.basic_info sel.subtitles = .ok meta)
    (hvideo : o.isAudioOnly = false → ∃ v, sel.video = some v) :
    (sel.audio = none →
      assemble o info w false sel = .ok (.error "youtube.no_matching_format" false)) ∧
    (sel.audio ≠ none → ∃ out, assemble o info w false sel = .ok out ∧ out.isMedia = true) := by
  unfold assemble
  simp only [hd, Bool.false_eq_true, ↓reduceIte, hmeta]
  constructor
  · intro ha
    simp only [ha]
    rfl
  · intro ha
    cases hsa : sel.audio with
    | none => exact absurd hsa ha
    | some a =>
      cases hao : o.isAudioOnly
      · obtain ⟨v, hv⟩ := hvideo hao
        simp only [hv]
        refine ⟨_, rfl, rfl⟩
      · exact ⟨_, rfl, rfl⟩

/-- C16 (amended): on the progressive path, for a request that passes the
playability gates, on a payload on which nothing raises and whose selected
streams carry no DRM marker.  The settled family is the requested one, else
its av1/vp9 counterpart, else h264, the test being a usable video for a merge
request and a usable audio for an audio-only request.  The call gives up with
`youtube.no_matching_format` exactly when the settled family fails that test
or the audio selection in the settled family gives no audio; in every other
case the result is a MergeResult or an AudioResult. -/
theorem C16_giving_up (d : Nat) (o : Request) (w : World) (info : Info)
    (hf : w.fetchVideoInfo = .returned info)
    (hg : playabilityGate d o info = .ok none)
    (hu : o.useHLS = false)
    (hmime : ∀ f ∈ info.adaptive_formats, raises f = false)
    (htitle : info.basic_info.title.isSome = true)
    (hauthor : info.basic_info.author.isSome = true)
    (hsubs : ∃ subtitles, subtitleStep o info w = .ok subtitles)
    (hdrm : ∀ sel, selectProgressive o info w = .ok (.selected sel) → drmProtected sel = false) :
    ∃ s, sorted_formats o.itag info.adaptive_formats = .ok s ∧
      (o.isAudioOnly = false →
        (noBestMedia s o.isAudioOnly (settleCodec s o.isAudioOnly (o.codec.getD Codec.h264)) = true ↔
          ∀ f ∈ info.adaptive_formats, usableVideo o.itag
            (settleCodec s o.isAudioOnly (o.codec.getD Codec.h264)) f = false)) ∧
      (o.isAudioOnly = true →
        (noBestMedia s o.isAudioOnly (settleCodec s o.isAudioOnly (o.codec.getD Codec.h264)) = true ↔
          ∀ f ∈ info.adaptive_formats, usableAudio o.itag
            (settleCodec s o.isAudioOnly (o.codec.getD Codec.h264)) f = false)) ∧
      (youtube d o w = .ok (.error "youtube.no_matching_format" false) ↔
        (noBestMedia s o.isAudioOnly (settleCodec s o.isAudioOnly (o.codec.getD Codec.h264)) = true ∨
          (selectAudio (s.get (settleCodec s o.isAudioOnly (o.codec.getD Codec.h264)))
            o.dubLang).1 = none)) ∧
      (¬ (noBestMedia s o.isAudioOnly (settleCodec s o.isAudioOnly (o.codec.getD Codec.h264)) = true ∨
          (selectAudio (s.get (settleCodec s o.isAudioOnly (o.codec.getD Codec.h264)))
            o.dubLang).1 = none) →
        ∃ out, youtube d o w = .ok out ∧ out.isMedia = true) := by
  obtain ⟨s, hs⟩ := sorted_formats_total o.itag info.adaptive_formats hmime
  refine ⟨s, hs, ?_, ?_, ?_⟩
  · intro hao
    rw [hao]
    exact (noBestMedia_iff hs _).1
  · intro hao
    rw [hao]
    exact (noBestMedia_iff hs _).2
  · generalize hc : settleCodec s o.isAudioOnly (o.codec.getD Codec.h264) = c
    have hy : ∀ st, selectProgressive o info w = .ok st →
        youtube d o w = (match st with
          | .done out => .ok out
          | .selected sel => assemble o info w false sel) := by
      intro st hst
      rw [youtube_returned hf, hg]
      simp only [hu, Bool.false_eq_true, ↓reduceIte, hst]
      cases st <;> rfl
    cases hn : noBestMedia s o.isAudioOnly c with
    | true =>
      have hsel : selectProgressive o info w =
          .ok (.done (.error "youtube.no_matching_format" false)) := by
        unfold selectProgressive
        simp only [hs, hc, hn, ↓reduceIte]
        rfl
      have hyy : youtube d o w = .ok (.error "youtube.no_matching_format" false) :=
        hy _ hsel
      exact ⟨⟨fun _ => Or.inl rfl, fun _ => hyy⟩, fun hnot => absurd (Or.inl rfl) hnot⟩
    | false =>
      have hstep : ∃ video, videoStep o (s.get c) = .ok video ∧
          (o.isAudioOnly = false → ∃ v, video = some v) := by
        unfold videoStep
        cases hao : o.isAudioOnly
        · have hbv : ∃ best, (s.get c).bestVideo = some best := by
            unfold noBestMedia at hn
            rw [hao] at hn
            cases hb : (s.get c).bestVideo with
            | none => simp [hb] at hn
            | some best => exact ⟨best, rfl⟩
          obtain ⟨best, hb⟩ := hbv
          obtain ⟨v, hv⟩ := selectVideo_some o.qualityNumber hb
          exact ⟨some v, by simpa using hv, fun _ => ⟨v, rfl⟩⟩
        · exact ⟨none, by simp, fun hx => absurd hx (by decide)⟩
      obtain ⟨video, hvs, hvsome⟩ := hstep
      obtain ⟨subtitles, hsub⟩ := hsubs
      have hn2 : noBestMedia s o.isAudioOnly
          (settleCodec s o.isAudioOnly (o.codec.getD Codec.h264)) = false := by
        rw [hc]; exact hn
      have hvs2 : videoStep o (s.get (settleCodec s o.isAudioOnly (o.codec.getD Codec.h264))) =
          .ok video := by
        rw [hc]; exact hvs
      have hsel := selectProgressive_eq hs hn2 hvs2 hsub
      rw [hc] at hsel
      have hd := hdrm _ hsel
      obtain ⟨meta, hmeta⟩ := fileMetadataOf_total subtitles htitle hauthor
      obtain ⟨k1, k2⟩ := assemble_progressive o info w hd hmeta
        (by
          intro hao
          obtain ⟨v, hv⟩ := hvsome hao
          exact ⟨.format v, by rw [hv]; rfl⟩)
      have hy2 := hy _ hsel
      simp only at hy2
      cases ha : (selectAudio (s.get c) o.dubLang).1 with
      | none =>
        have hyy : youtube d o w = .ok (.error "youtube.no_matching_format" false) := by
          rw [hy2]
          exact k1 (by simp [ha])
        exact ⟨⟨fun _ => Or.inr rfl, fun _ => hyy⟩, fun hnot => absurd (Or.inr rfl) hnot⟩
      | some a =>
        obtain ⟨out, hout, hmedia⟩ := k2 (by simp [ha])
        have hyy : youtube d o w = .ok out := by rw [hy2]; exact hout
        refine ⟨⟨?_, ?_⟩, fun _ => ⟨out, hyy, hmedia⟩⟩
        · intro hgive
          rw [hyy] at hgive
          cases hgive
          simp [Outcome.isMedia] at hmedia
        · rintro (h1 | h1)
          · exact absurd h1 (by simp)
          · exact absurd h1 (by simp)

set_option maxRecDepth 100000 in
/-- Witness of C16 (amended): a vp9 merge request on a pool with vp9 video and
opus audio; the settled family passes the test, an audio is selected, and the
result is a MergeResult. -/
theorem C16_giving_up_witness :
    (∃ r, youtube 600 (baseRequest Codec.vp9 1080) (worldOf (playableInfo poolNoAv1)) =
      .ok (.merge r)) ∧
    ∃ s, sorted_formats (baseRequest Codec.vp9 1080).itag
        (playableInfo poolNoAv1).adaptive_formats = .ok s ∧
      ((baseRequest Codec.vp9 1080).isAudioOnly = false →
        (noBestMedia s (baseRequest Codec.vp9 1080).isAudioOnly
            (settleCodec s (baseRequest Codec.vp9 1080).isAudioOnly
              ((baseRequest Codec.vp9 1080).codec.getD Codec.h264)) = true ↔
          ∀ f ∈ (playableInfo poolNoAv1).adaptive_formats,
            usableVideo (baseRequest Codec.vp9 1080).itag
              (settleCodec s (baseRequest Codec.vp9 1080).isAudioOnly
                ((baseRequest Codec.vp9 1080).codec.getD Codec.h264)) f = false)) ∧
      ((baseRequest Codec.vp9 1080).isAudioOnly = true →
        (noBestMedia s (baseRequest Codec.vp9 1080).isAudioOnly
            (settleCodec s (baseRequest Codec.vp9 1080).isAudioOnly
              ((baseRequest Codec.vp9 1080).codec.getD Codec.h264)) = true ↔
          ∀ f ∈ (playableInfo poolNoAv1).adaptive_formats,
            usableAudio (baseRequest Codec.vp9 1080).itag
              (settleCodec s (baseRequest Codec.vp9 1080).isAudioOnly
                ((baseRequest Codec.vp9 1080).codec.getD Codec.h264)) f = false)) ∧
      (youtube 600 (baseRequest Codec.vp9 1080) (worldOf (playableInfo poolNoAv1)) =
          .ok (.error "youtube.no_matching_format" false) ↔
        (noBestMedia s (baseRequest Codec.vp9 1080).isAudioOnly
            (settleCodec s (baseRequest Codec.vp9 1080).isAudioOnly
              ((baseRequest Codec.vp9 1080).codec.getD Codec.h264)) = true ∨
          (selectAudio (s.get (settleCodec s (baseRequest Codec.vp9 1080).isAudioOnly
              ((baseRequest Codec.vp9 1080).codec.getD Codec.h264)))
            (baseRequest Codec.vp9 1080).dubLang).1 = none)) ∧
      (¬ (noBestMedia s (baseRequest Codec.vp9 1080).isAudioOnly
            (settleCodec s (baseRequest Codec.vp9 1080).isAudioOnly
              ((baseRequest Codec.vp9 1080).codec.getD Codec.h264)) = true ∨
          (selectAudio (s.get (settleCodec s (baseRequest Codec.vp9 1080).isAudioOnly
              ((baseRequest Codec.vp9 1080).codec.getD Codec.h264)))
            (baseRequest Codec.vp9 1080).dubLang).1 = none) →
        ∃ out, youtube 600 (baseRequest Codec.vp9 1080) (worldOf (playableInfo poolNoAv1)) =
          .ok out ∧ out.isMedia = true) := by
  refine ⟨⟨_, rfl⟩, ?_⟩
  apply C16_giving_up 600 (baseRequest Codec.vp9 1080) (worldOf (playableInfo poolNoAv1))
    (playableInfo poolNoAv1) rfl rfl rfl
  · decide
  · rfl
  · rfl
  · exact ⟨none, rfl⟩
  · intro sel h
    obtain ⟨x, e, hx⟩ : ∃ x, selectProgressive (baseRequest Codec.vp9 1080)
        (playableInfo poolNoAv1) (worldOf (playableInfo poolNoAv1)) = .ok (.selected x) ∧
        drmProtected x = false := ⟨_, rfl, rfl⟩
    rw [e] at h
    cases h
    exact hx

end Youtube
